import Mathlib

/-!
Shallow embedding of the layout / iteration core of the `oc-array` N-dimensional
array library (`src/include/computoc/array.h`), together with proofs about the
claims of its specification.

Machine `std::int64_t` values are modelled as unbounded `Int` (no claim under
scrutiny depends on 64-bit wrap-around), `Params<T>` spans as Lean lists, and
the reference-counted data buffer of an array as a list plus a numeric buffer
identity used to reason about sharing versus fresh allocation.  Out-of-bounds
accesses, which are undefined behaviour in the C++ source, are modelled by
`List.getD` with a default; every theorem below carries hypotheses keeping the
relevant accesses in bounds.
-/

namespace OcArr

/-- Modelled from the spec: scalar `modulo` from `computoc/utils.h` (absent from
`src/`), "wraps … into `[0, n)` via Euclidean modulo", with the unit tests
requiring `modulo(-26, 5) = 4`.  Lean's `Int.emod` is exactly this Euclidean
modulo for a positive modulus. -/
def modulo (value modulus : Int) : Int := value % modulus

/-- Modelled from the spec: `Interval I = {start, stop, step}` from
`computoc/utils.h` (absent from `src/`); an inclusive integer range. -/
structure Interval where
  start : Int
  stop : Int
  step : Int
deriving DecidableEq

/-- Default-constructed interval: the unit tests require
`Interval{}` to be `{0, 0, 1}`. -/
instance : Inhabited Interval := ⟨⟨0, 0, 1⟩⟩

/-- Modelled from the spec: `forward(I)`: "if `step < 0` … return
`{stop, start, −step}`; else return `I`". -/
def forward (i : Interval) : Interval :=
  if i.step < 0 then ⟨i.stop, i.start, -i.step⟩ else i

/-- Modelled from the spec: `modulo(I, n)`: "apply Euclidean modulo to each of
`start`, `stop`; leave `step` unchanged". -/
def interval_modulo (i : Interval) (n : Int) : Interval :=
  ⟨modulo i.start n, modulo i.stop n, i.step⟩

/-- `forward(modulo(interval, n))`, the canonicalisation applied by
`compute_dims` / `compute_offset` in `array.h`. -/
def canon (iv : Interval) (n : Int) : Interval := forward (interval_modulo iv n)

/-- Accumulator loop of `numel` (`array.h:102`): returns `0` as soon as a
non-positive dimension is met, otherwise multiplies. -/
def numel_go (acc : Int) : List Int → Int
  | [] => acc
  | d :: ds => if d ≤ 0 then 0 else numel_go (acc * d) ds

/-- `numel(dims)` (`array.h:102-116`): `0` for an empty list or any
non-positive dimension, otherwise the product of the dimensions. -/
def numel (dims : List Int) : Int :=
  if dims = [] then 0 else numel_go 1 dims

/-- `compute_strides(dims, strides)` (`array.h:122-134`): row-major strides,
`strides[N-1] = 1`, `strides[i] = strides[i+1] * dims[i+1]`. -/
def compute_strides : List Int → List Int
  | [] => []
  | [_] => [1]
  | _ :: d2 :: ds =>
    let rest := compute_strides (d2 :: ds)
    rest.headD 1 * d2 :: rest

/-- `compute_strides(previous_dims, previous_strides, intervals, strides)`
(`array.h:141-162`): for the first `intervals.s()` axes
`strides[i] = previous_strides[i] * forward(intervals[i]).step`; the remaining
trailing strides are recomputed row-major from the previous dimensions. -/
def compute_strides_slice (pd ps : List Int) (ivs : List Interval) : List Int :=
  (List.zipWith (fun s iv => s * (forward iv).step) ps ivs)
    ++ compute_strides (pd.drop ivs.length)

/-- `compute_dims(previous_dims, intervals, dims)` (`array.h:169-191`): each
specified axis is canonicalised by `forward(modulo(interval, previous_dim))`;
a canonical interval with `start > stop` or `step ≤ 0` makes the whole
computation fail (the source returns `0`, modelled as `none`); a surviving axis
gets `ceil((stop - start + 1) / step)` (the source computes this with
`std::ceil` over `double`, exact at the magnitudes where the claims live);
trailing unspecified axes copy the previous dimensions, extra intervals beyond
the previous rank are ignored.  `slice_dim` is the per-axis
`ceil((stop - start + 1) / step)` expression, written with the integer identity
`ceil(a / t) = (a + t - 1) div t` for positive `t`. -/
def slice_dim (iv : Interval) (d : Int) : Int :=
  ((canon iv d).stop - (canon iv d).start + 1 + ((canon iv d).step - 1)) / (canon iv d).step

def compute_dims : List Int → List Interval → Option (List Int)
  | [], _ => some []
  | ds, [] => some ds
  | d :: ds, iv :: rest =>
    let c := canon iv d
    if c.start > c.stop ∨ c.step ≤ 0 then none
    else match compute_dims ds rest with
      | none => none
      | some tail => some (slice_dim iv d :: tail)

/-- `compute_offset(previous_dims, previous_offset, previous_strides,
intervals)` (`array.h:193-208`): previous offset plus, over the axes where all
three inputs are present, `previous_strides[i] * canonical_start`. -/
def compute_offset (pd : List Int) (poff : Int) (ps : List Int) (ivs : List Interval) : Int :=
  if pd = [] ∨ ps = [] ∨ ivs = [] then poff
  else poff + (List.zipWith (fun p iv => p.2 * (canon iv p.1).start) (pd.zip ps) ivs).sum

/-- `subs2ind(offset, strides, dims, subs)` (`array.h:213-234`): extra leading
strides (when fewer subscripts than axes are given) are skipped, extra trailing
subscripts are ignored, and each used subscript is wrapped by the Euclidean
`modulo` with the matching dimension. -/
def subs2ind (off : Int) (strides dims subs : List Int) : Int :=
  if strides = [] ∨ dims = [] ∨ subs = [] then off
  else
    let nu := min (min strides.length dims.length) subs.length
    let nig := strides.length - nu
    off + (List.zipWith (fun p sb => p.1 * modulo sb p.2)
            ((strides.drop nig).zip (dims.drop nig)) subs).sum

/-- The `Array_header` record (`array.h:321-559`): dimensions, strides, offset,
element count, sub-array flag, and whether the internal metadata buffer is
unusable (`empty()`), which is the state every early-returning constructor
leaves behind. -/
structure Header where
  dims : List Int
  strides : List Int
  offset : Int
  count : Int
  is_subarray : Bool
  hempty : Bool
deriving DecidableEq

/-- A default-constructed `Array_header`. -/
def header_default : Header :=
  { dims := [], strides := [], offset := 0, count := 0, is_subarray := false, hempty := true }

/-- `Array_header(dims)` (`array.h:326-340`): empty when `numel(dims) ≤ 0`
(the count is still assigned), otherwise row-major strides and zero offset. -/
def header_from_dims (dims : List Int) : Header :=
  if numel dims ≤ 0 then
    { dims := [], strides := [], offset := 0, count := numel dims,
      is_subarray := false, hempty := true }
  else
    { dims := dims, strides := compute_strides dims, offset := 0,
      count := numel dims, is_subarray := false, hempty := false }

/-- `Array_header(previous_dims, previous_strides, previous_offset, intervals)`
(`array.h:342-367`), the slice constructor: always a sub-array; empty when the
parent is empty or `compute_dims` fails. -/
def header_slice (pd ps : List Int) (poff : Int) (ivs : List Interval) : Header :=
  if numel pd ≤ 0 then
    { dims := [], strides := [], offset := 0, count := 0, is_subarray := true, hempty := true }
  else match compute_dims pd ivs with
    | none =>
      { dims := [], strides := [], offset := 0, count := 0, is_subarray := true, hempty := true }
    | some ds =>
      { dims := ds, strides := compute_strides_slice pd ps ivs,
        offset := compute_offset pd poff ps ivs, count := numel ds,
        is_subarray := true, hempty := false }

/-- Dimensions part of the axis-deletion constructor, see `header_omit`:
the (wrapped) axis erased, or `{1}` for a rank-1 parent. -/
def omit_dims (pd : List Int) (axis : Int) : List Int :=
  if 1 < pd.length then pd.eraseIdx (modulo axis (pd.length : Int)).toNat else [1]

/-- `Array_header(previous_dims, omitted_axis)` (`array.h:369-398`), the
axis-deletion constructor used by `reduce`: the omitted axis is wrapped with
`modulo` by the rank; a rank-1 parent yields shape `{1}`. -/
def header_omit (pd : List Int) (axis : Int) : Header :=
  if numel pd ≤ 0 then header_default
  else
    { dims := omit_dims pd axis, strides := compute_strides (omit_dims pd axis), offset := 0,
      count := numel (omit_dims pd axis), is_subarray := false, hempty := false }

/-- Dimensions part of the permutation constructor, see `header_permute`. -/
def permute_dims (pd ord : List Int) : List Int :=
  (List.range pd.length).map (fun i => pd.getD (modulo (ord.getD i 0) (pd.getD i 0)).toNat 0)

/-- `Array_header(previous_dims, new_order)` (`array.h:400-430`), the
permutation constructor.  Note the source quirk kept here: each order entry is
wrapped as `modulo(new_order[i], previous_dims[i])`, i.e. by the *dimension
value* at position `i`, not by the rank; a mismatch between the parent count
and the permuted count yields an empty header. -/
def header_permute (pd ord : List Int) : Header :=
  if numel pd ≤ 0 then header_default
  else if ord = [] then header_default
  else
    if numel pd ≠ numel (permute_dims pd ord) then header_default
    else
      { dims := permute_dims pd ord, strides := compute_strides (permute_dims pd ord),
        offset := 0, count := numel (permute_dims pd ord), is_subarray := false,
        hempty := false }

/-- Dimensions part of the axis-growth constructor, see `header_grow`. -/
def grow_dims (pd : List Int) (cnt axis : Int) : List Int :=
  (List.range pd.length).map (fun (i : Nat) => if axis = (i : Int) then pd.getD i 0 + cnt else pd.getD i 0)

/-- `Array_header(previous_dims, count, axis)` (`array.h:432-462`), the
axis-growth constructor used by `append` / `insert` / `remove`.  The source
computes `fixed_axis = modulo(axis, rank)` but then compares with the *raw*
`axis` (`if (axis == i)`), which is kept here; every in-repository caller
passes an already-wrapped non-negative axis. -/
def header_grow (pd : List Int) (cnt axis : Int) : Header :=
  if numel pd ≤ 0 then header_default
  else
    if numel (grow_dims pd cnt axis) ≤ 0 then
      { dims := [], strides := [], offset := 0, count := numel (grow_dims pd cnt axis),
        is_subarray := false, hempty := true }
    else
      { dims := grow_dims pd cnt axis, strides := compute_strides (grow_dims pd cnt axis),
        offset := 0, count := numel (grow_dims pd cnt axis), is_subarray := false,
        hempty := false }

/-- Read a subscript list at a (non-negative) machine index. -/
def lget (l : List Int) (i : Int) : Int := l.getD i.toNat 0

/-- Write a subscript list at a (non-negative) machine index. -/
def lset (l : List Int) (i : Int) (v : Int) : List Int := l.set i.toNat v

/-- `[hi, hi-1, …, lo]` (empty when `hi < lo`), the index sequence of a C
`for (i = hi; i >= lo; --i)` loop. -/
def descI (hi lo : Int) : List Int :=
  (List.range (hi - lo + 1).toNat).map (fun (k : Nat) => hi - (k : Int))

/-- `[0, 1, …, d-1]` as integers (empty for `d ≤ 0`). -/
def rangeI (d : Int) : List Int := (List.range d.toNat).map (fun (k : Nat) => (k : Int))

/-- The `Array_subscripts_iterator` state (`array.h:562-937`): subscripts,
start, exclusive bounds, single fastest axis, optional normalized axis order,
and the cached major (slowest) axis. -/
structure SubsIter where
  nsubs : Int
  subs : List Int
  start_subs : List Int
  minExcl : List Int
  maxExcl : List Int
  axis : Int
  order : List Int
  major : Int
deriving DecidableEq

/-- `find_major_axis` (`array.h:906-922`). -/
def find_major_axis (axisv nsubs : Int) (minE maxE : List Int) : Int :=
  let mjr : Int := if axisv > 0 then 0 else if nsubs > 1 then 1 else 0
  if lget minE mjr = -1 ∧ lget maxE mjr = 0 then
    match ((List.range nsubs.toNat).drop (mjr.toNat + 1)).find?
        (fun i => decide (lget maxE (i : Int) ≠ 0)) with
    | some i => (i : Int)
    | none => 0
  else mjr

/-- Initial subscripts (`array.h:579-586`): zeros when no start was given. -/
def iter_subs_init (startp : List Int) (ns : Nat) : List Int :=
  if startp = [] then List.replicate ns 0 else startp

/-- Initial exclusive minima (`array.h:588-600`). -/
def iter_min_init (startp minp : List Int) (ns : Nat) : List Int :=
  if minp ≠ [] then minp
  else if startp ≠ [] then startp.map (fun v => v - 1)
  else List.replicate ns (-1)

/-- Initial exclusive maxima (`array.h:602-608`). -/
def iter_max_init (maxp : List Int) (ns : Nat) : List Int :=
  if maxp = [] then List.replicate ns 1 else maxp

/-- The axis-taking iterator constructor (`array.h:566-612`): the axis is
wrapped by the number of subscripts. -/
def mk_iter_axis (startp minp maxp : List Int) (axis : Int) : SubsIter :=
  let ns : Nat := max startp.length (max minp.length maxp.length)
  if ns = 0 then ⟨0, [], [], [], [], 0, [], 0⟩
  else
    let axisv := modulo axis (ns : Int)
    let subs := iter_subs_init startp ns
    let minE := iter_min_init startp minp ns
    let maxE := iter_max_init maxp ns
    ⟨(ns : Int), subs, subs, minE, maxE, axisv, [],
      find_major_axis axisv (ns : Int) minE maxE⟩

/-- The order-taking iterator constructor (`array.h:614-672`): with a short (or
absent) order the axis defaults to `nsubs - 1` and no order is stored; with a
full order each entry is wrapped by the number of subscripts. -/
def mk_iter_order (startp minp maxp orderp : List Int) : SubsIter :=
  let ns : Nat := max startp.length (max minp.length maxp.length)
  if ns = 0 then ⟨0, [], [], [], [], 0, [], 0⟩
  else
    let axisv : Int := if orderp.length ≥ ns then 0 else (ns : Int) - 1
    let ordv : List Int :=
      if orderp.length ≥ ns then (orderp.take ns).map (fun v => modulo v (ns : Int)) else []
    let subs := iter_subs_init startp ns
    let minE := iter_min_init startp minp ns
    let maxE := iter_max_init maxp ns
    ⟨(ns : Int), subs, subs, minE, maxE, axisv, ordv,
      find_major_axis axisv (ns : Int) minE maxE⟩

/-- The default row-major cursor `Subscripts_iterator({}, dims)` used by every
walking operation in `array.h`. -/
def mk_iter_default (dims : List Int) : SubsIter := mk_iter_order [] [] dims []

/-- `increment_subscript(i, major_axis)` (`array.h:886-894`): bounded
increment; on reaching the exclusive maximum a non-major axis wraps back to
`minimum_excluded + 1` and the carry continues. -/
def inc_subscript (minE maxE : List Int) (mjr : Int) (subs : List Int) (i : Int) :
    List Int × Bool :=
  let s1 := if lget subs i < lget maxE i then lget subs i + 1 else lget subs i
  if s1 = lget maxE i then
    (if i ≠ mjr then
        lset subs i (if lget minE i + 1 ≠ 0 then lget minE i + 1 else 0)
      else lset subs i s1, true)
  else (lset subs i s1, false)

/-- A run of `increment_subscript` calls over a list of axes, stopping at the
first axis that does not carry — the body shared by both branches of
`operator++` (`array.h:781-802`). -/
def inc_chain (minE maxE : List Int) (mjr : Int) : List Int → List Int → List Int
  | [], subs => subs
  | i :: rest, subs =>
    match inc_subscript minE maxE mjr subs i with
    | (s', true) => inc_chain minE maxE mjr rest s'
    | (s', false) => s'

/-- The axis sequence processed by the no-order branch of `operator++`:
the fastest axis first, then `nsubs-1 … axis+1`, then `axis-1 … 0`. -/
def chain_of_iter (st : SubsIter) : List Int :=
  st.axis :: (descI (st.nsubs - 1) (st.axis + 1) ++ descI (st.axis - 1) 0)

/-- The subscript transformation of `operator++` (`array.h:781-802`), as a
function from the current subscripts (all other iterator fields are constant
across increments): with an order, the axes are processed from the last order
position to the first with `order[0]` as major; otherwise along
`chain_of_iter` with the cached major axis. -/
def iter_step_subs (st : SubsIter) (s : List Int) : List Int :=
  if st.order ≠ [] then
    inc_chain st.minExcl st.maxExcl (lget st.order 0) st.order.reverse s
  else
    inc_chain st.minExcl st.maxExcl st.major (chain_of_iter st) s

/-- `operator++` (`array.h:781-802`). -/
def iter_next (st : SubsIter) : SubsIter :=
  { st with subs := iter_step_subs st st.subs }

/-- `operator bool` (`array.h:871-878`) as a function of the subscripts: the
major subscript (or `order[0]`) lies strictly inside its exclusive band. -/
def iter_in_range_subs (st : SubsIter) (s : List Int) : Bool :=
  if st.order ≠ [] then
    decide (lget s (lget st.order 0) < lget st.maxExcl (lget st.order 0)
      ∧ lget s (lget st.order 0) > lget st.minExcl (lget st.order 0))
  else
    decide (lget s st.major < lget st.maxExcl st.major
      ∧ lget s st.major > lget st.minExcl st.major)

/-- `operator bool` (`array.h:871-878`). -/
def iter_in_range (st : SubsIter) : Bool := iter_in_range_subs st st.subs

/-- The subscript sequence visited by a `while (iter) { …; ++iter; }` loop,
with enough fuel; the walk stops as soon as the iterator leaves its range. -/
def iter_walk : Nat → SubsIter → List (List Int)
  | 0, _ => []
  | n + 1, st => if iter_in_range st then st.subs :: iter_walk n (iter_next st) else []

/-- The `Array` handle (`array.h:946-1176`): a header plus a shared buffer.
The buffer identity models the reference-counted sharing: operations that
share keep `bufId`, operations that allocate receive a fresh one. -/
structure ArrayM (α : Type) where
  hdr : Header
  bufId : Nat
  buf : List α

/-- A default-constructed `Array{}`. -/
def arr_default {α : Type} : ArrayM α := ⟨header_default, 0, []⟩

/-- Element read `arr(subs)` (`array.h:1128-1135`): the buffer at
`subs2ind(offset, strides, dims, subs)`. -/
def aget {α : Type} [Inhabited α] (arr : ArrayM α) (subs : List Int) : α :=
  arr.buf.getD (subs2ind arr.hdr.offset arr.hdr.strides arr.hdr.dims subs).toNat default

/-- Element write `arr(subs) = v` (`array.h:1137-1144`). -/
def aset {α : Type} (arr : ArrayM α) (subs : List Int) (v : α) : ArrayM α :=
  { arr with buf := arr.buf.set (subs2ind arr.hdr.offset arr.hdr.strides arr.hdr.dims subs).toNat v }

/-- `empty(arr)` (`array.h:1305-1309`): `(!data || is_subarray) && header.empty()`;
a null data pointer is modelled as an empty buffer list. -/
def aempty {α : Type} (arr : ArrayM α) : Bool :=
  (arr.buf.isEmpty || arr.hdr.is_subarray) && arr.hdr.hempty

/-- `Array(dims, data)` (`array.h:1053-1056`): header from the shape, buffer of
`count` elements copied from the source data. -/
def mk_array {α : Type} (dims : List Int) (data : List α) (id : Nat) : ArrayM α :=
  { hdr := header_from_dims dims, bufId := id, buf := data.take (numel dims).toNat }

/-- `Array(dims)` with default-initialised storage, as used for the
destination arrays the transformation functions allocate and then fill. -/
def mk_array_fill {α : Type} [Inhabited α] (dims : List Int) (id : Nat) : ArrayM α :=
  { hdr := header_from_dims dims, bufId := id,
    buf := List.replicate (numel dims).toNat default }

/-- `clone(arr)` (`array.h:1197-1213`): empty for empty input, otherwise a
fresh array of the same shape filled by walking the source with the default
cursor. -/
def clone_arr {α : Type} [Inhabited α] (arr : ArrayM α) (fresh : Nat) : ArrayM α :=
  if aempty arr then arr_default
  else
    (iter_walk (numel arr.hdr.dims).toNat (mk_iter_default arr.hdr.dims)).foldl
      (fun res s => aset res s (aget arr s)) (mk_array_fill arr.hdr.dims fresh)

/-- `reshape(arr, new_dims)` (`array.h:1215-1260`): empty input gives an empty
array; a count mismatch throws; equal dimensions return the input itself;
a sub-array is materialised by a lock-step walk of the old and new layouts in
their default orders; otherwise the same buffer is re-headed. -/
def reshape_arr {α : Type} [Inhabited α] (arr : ArrayM α) (new_dims : List Int)
    (fresh : Nat) : Except String (ArrayM α) :=
  if aempty arr then .ok arr_default
  else if arr.hdr.count ≠ numel new_dims then
    .error "different number of elements between original and rehsaped arrays"
  else if arr.hdr.dims = new_dims then .ok arr
  else if arr.hdr.is_subarray then
    .ok (((iter_walk (numel arr.hdr.dims).toNat (mk_iter_default arr.hdr.dims)).zip
          (iter_walk (numel new_dims).toNat (mk_iter_default new_dims))).foldl
        (fun res p => aset res p.2 (aget arr p.1)) (mk_array_fill new_dims fresh))
  else
    if (header_from_dims new_dims).hempty then .ok arr_default
    else .ok { arr with hdr := header_from_dims new_dims }

/-- The shared `while (resndstor)` body of `append` (`array.h:1343-1353`) and
`insert` (`array.h:1410-1420`): positions whose subscript at the fixed axis
lies below `bnd` (or at/after `bnd + dB`) draw from the left operand, the band
`[bnd, bnd + dB)` draws from the right operand, each advancing its own cursor;
`append` instantiates `bnd` with the left dimension, `insert` with the wrapped
insertion index. -/
def draw_loop {α : Type} [Inhabited α] (lhs rhs : ArrayM α) (bnd dB ax : Int) :
    List (List Int) → SubsIter → SubsIter → ArrayM α → ArrayM α
  | [], _, _, res => res
  | s :: rest, li, ri, res =>
    if (iter_in_range li = true ∧ lget s ax < bnd) ∨ lget s ax ≥ bnd + dB then
      draw_loop lhs rhs bnd dB ax rest (iter_next li) ri (aset res s (aget lhs li.subs))
    else if iter_in_range ri = true ∧ lget s ax ≥ bnd ∧ lget s ax < bnd + dB then
      draw_loop lhs rhs bnd dB ax rest li (iter_next ri) (aset res s (aget rhs ri.subs))
    else draw_loop lhs rhs bnd dB ax rest li ri res

/-- `append(lhs, rhs, axis)` (`array.h:1311-1356`): an empty operand yields a
clone of the other with no compatibility check; otherwise the ranks must match
and the dimensions must agree off the wrapped axis, the output header grows
that axis by the right operand's extent and the three layouts are walked in
lock-step. -/
def append_axis {α : Type} [Inhabited α] (lhs rhs : ArrayM α) (axis : Int)
    (fresh : Nat) : Except String (ArrayM α) :=
  if aempty lhs then .ok (clone_arr rhs fresh)
  else if aempty rhs then .ok (clone_arr lhs fresh)
  else if lhs.hdr.dims.length ≠ rhs.hdr.dims.length then
    .error "different number of dimensions"
  else
    let fixed := modulo axis (lhs.hdr.dims.length : Int)
    if ∃ i ∈ List.range lhs.hdr.dims.length,
        (i : Int) ≠ fixed ∧ lhs.hdr.dims.getD i 0 ≠ rhs.hdr.dims.getD i 0 then
      .error "different dimension value"
    else
      let nh := header_grow lhs.hdr.dims (lget rhs.hdr.dims fixed) fixed
      if nh.hempty then .ok arr_default
      else
        let res0 : ArrayM α :=
          { hdr := nh, bufId := fresh,
            buf := List.replicate (lhs.hdr.count + rhs.hdr.count).toNat default }
        .ok (draw_loop lhs rhs (lget lhs.hdr.dims fixed) (lget rhs.hdr.dims fixed) fixed
          (iter_walk nh.count.toNat (mk_iter_default nh.dims))
          (mk_iter_default lhs.hdr.dims) (mk_iter_default rhs.hdr.dims) res0)

/-- `insert(lhs, rhs, ind, axis)` (`array.h:1377-1423`): like `append`, with
the right operand occupying `[modulo(ind, lhs.dims[axis]), … + rhs.dims[axis])`
along the wrapped axis. -/
def insert_axis {α : Type} [Inhabited α] (lhs rhs : ArrayM α) (ind axis : Int)
    (fresh : Nat) : Except String (ArrayM α) :=
  if aempty lhs then .ok (clone_arr rhs fresh)
  else if aempty rhs then .ok (clone_arr lhs fresh)
  else if lhs.hdr.dims.length ≠ rhs.hdr.dims.length then
    .error "different number of dimensions"
  else
    let fixed := modulo axis (lhs.hdr.dims.length : Int)
    if ∃ i ∈ List.range lhs.hdr.dims.length,
        (i : Int) ≠ fixed ∧ lhs.hdr.dims.getD i 0 ≠ rhs.hdr.dims.getD i 0 then
      .error "different dimension value"
    else
      let fixed_ind := modulo ind (lget lhs.hdr.dims fixed)
      let nh := header_grow lhs.hdr.dims (lget rhs.hdr.dims fixed) fixed
      if nh.hempty then .ok arr_default
      else
        let res0 : ArrayM α :=
          { hdr := nh, bufId := fresh,
            buf := List.replicate (lhs.hdr.count + rhs.hdr.count).toNat default }
        .ok (draw_loop lhs rhs fixed_ind (lget rhs.hdr.dims fixed) fixed
          (iter_walk nh.count.toNat (mk_iter_default nh.dims))
          (mk_iter_default lhs.hdr.dims) (mk_iter_default rhs.hdr.dims) res0)

/-- Whole-array `reduce(arr, func)` (`array.h:1528-1547`): the accumulator
type's default value on empty input; otherwise the first element under the
default cursor, cast, folded with the remaining elements left-to-right,
the new element as first argument of `func`. -/
def reduce_all {α β : Type} [Inhabited α] (arr : ArrayM α) (f : α → β → β)
    (castf : α → β) (dflt : β) : β :=
  if aempty arr then dflt
  else
    (iter_walk ((numel arr.hdr.dims).toNat - 1) (iter_next (mk_iter_default arr.hdr.dims))).foldl
      (fun acc s => f (aget arr s) acc)
      (castf (aget arr (mk_iter_default arr.hdr.dims).subs))

/-- The inner fold of along-axis `reduce` (`array.h:1571-1575`): a fixed
number of consecutive source elements accumulated while the source cursor
advances. -/
def reduce_inner {α β : Type} [Inhabited α] (arr : ArrayM α) (f : α → β → β) :
    Nat → SubsIter → β → β × SubsIter
  | 0, it, acc => (acc, it)
  | n + 1, it, acc => reduce_inner arr f n (iter_next it) (f (aget arr it.subs) acc)

/-- The outer `while (arr_ndstor && res_ndstor)` loop of along-axis `reduce`
(`array.h:1570-1578`). -/
def reduce_axis_loop {α β : Type} [Inhabited α] (arr : ArrayM α) (f : α → β → β)
    (castf : α → β) (cyc : Nat) :
    List (List Int) → SubsIter → ArrayM β → ArrayM β
  | [], _, res => res
  | s :: rest, ai, res =>
    if iter_in_range ai then
      let p := reduce_inner arr f cyc (iter_next ai) (castf (aget arr ai.subs))
      reduce_axis_loop arr f castf cyc rest p.2 (aset res s p.1)
    else res

/-- Along-axis `reduce(arr, func, axis)` (`array.h:1549-1581`): the output
header omits the (wrapped) axis, the source is walked with the axis-cursor,
and each output cell folds `dims[modulo(axis, rank)]` consecutive source
elements. -/
def reduce_axis {α β : Type} [Inhabited α] [Inhabited β] (arr : ArrayM α)
    (f : α → β → β) (castf : α → β) (axis : Int) (fresh : Nat) : ArrayM β :=
  if aempty arr then arr_default
  else
    let nh := header_omit arr.hdr.dims axis
    if nh.hempty then arr_default
    else
      let res0 : ArrayM β :=
        { hdr := nh, bufId := fresh,
          buf := List.replicate nh.count.toNat default }
      let cyc := lget arr.hdr.dims (modulo axis (arr.hdr.dims.length : Int))
      reduce_axis_loop arr f castf (cyc - 1).toNat
        (iter_walk nh.count.toNat (mk_iter_default nh.dims))
        (mk_iter_axis [] [] arr.hdr.dims axis) res0

/-- `transpose(arr, order)` (`array.h:1803-1828`): empty input or an empty
permuted header yields an empty array; otherwise the source is walked with the
order-cursor and the destination with the default cursor in lock-step. -/
def transpose_arr {α : Type} [Inhabited α] (arr : ArrayM α) (ord : List Int)
    (fresh : Nat) : ArrayM α :=
  if aempty arr then arr_default
  else
    let nh := header_permute arr.hdr.dims ord
    if nh.hempty then arr_default
    else
      let res0 : ArrayM α :=
        { hdr := nh, bufId := fresh,
          buf := List.replicate arr.hdr.count.toNat default }
      ((iter_walk arr.hdr.count.toNat (mk_iter_order [] [] arr.hdr.dims ord)).zip
        (iter_walk nh.count.toNat (mk_iter_default nh.dims))).foldl
        (fun res p => aset res p.2 (aget arr p.1)) res0

/-- `all_match(lhs, rhs, func)` (`array.h:2519-2544`): two empty arrays match;
one empty or differing dimensions do not; otherwise a short-circuiting
lock-step walk applies the predicate everywhere. -/
def all_match_arr {α : Type} [Inhabited α] (lhs rhs : ArrayM α) (f : α → α → Bool) : Bool :=
  if aempty lhs && aempty rhs then true
  else if aempty lhs || aempty rhs then false
  else if lhs.hdr.dims ≠ rhs.hdr.dims then false
  else
    (iter_walk (numel lhs.hdr.dims).toNat (mk_iter_default lhs.hdr.dims)).all
      (fun s => f (aget lhs s) (aget rhs s))

/-- `all_equal(lhs, rhs)` (`array.h:2584-2588`): `all_match` with `==`. -/
def all_equal_arr {α : Type} [Inhabited α] [DecidableEq α] (lhs rhs : ArrayM α) : Bool :=
  all_match_arr lhs rhs (fun a b => a == b)

/-! ### Specification-side vocabulary

The independent mathematical notions the claims are phrased with: the
row-major enumeration of a shape, flat (positional) indices, and mixed-radix
enumerations along a chain of axes.  These are the yardsticks the machine-level
definitions above are proved against. -/

/-- Row-major enumeration of all subscript tuples of a shape: the first axis
is slowest, the last axis fastest. -/
def row_major_enum : List Int → List (List Int)
  | [] => [[]]
  | d :: ds => (rangeI d).flatMap (fun i => (row_major_enum ds).map (fun t => i :: t))

/-- Row-major flat position of a subscript tuple inside a shape. -/
def flat_index : List Int → List Int → Int
  | _, [] => 0
  | [], _ => 0
  | _ :: ds, s :: ss => s * ds.prod + flat_index ds ss

/-- Insert a value at position `a` of a subscript tuple (the inverse of
erasing index `a`). -/
def insert_at (a : Nat) (j : Int) (t : List Int) : List Int :=
  t.take a ++ j :: t.drop a

/-- A subscript tuple lying inside a shape. -/
def subs_valid (dims subs : List Int) : Prop :=
  subs.length = dims.length ∧
    ∀ i < dims.length, 0 ≤ subs.getD i 0 ∧ subs.getD i 0 < dims.getD i 0

/-- All positive dimensions. -/
def dims_pos (dims : List Int) : Prop := ∀ d ∈ dims, 0 < d

/-- Mixed-radix enumeration of subscript tuples over a chain of axes, the head
of the chain varying fastest; axes outside the chain stay `0`. -/
def enum_chain (dims : List Int) : List Int → List (List Int)
  | [] => [List.replicate dims.length 0]
  | c :: rest =>
    (enum_chain dims rest).flatMap (fun s => (rangeI (lget dims c)).map (fun j => lset s c j))

/-- The axis-processing chain of the no-order cursor over `N` axes with
fastest axis `a`. -/
def chainI (N a : Nat) : List Int :=
  (a : Int) :: (descI ((N : Int) - 1) ((a : Int) + 1) ++ descI ((a : Int) - 1) 0)

/-- Left fold in the style of the whole-array `reduce`: first element cast to
the accumulator, remaining elements folded with the element as first argument;
a given default on the empty list. -/
def fold_from {α β : Type} (f : α → β → β) (castf : α → β) (dflt : β) : List α → β
  | [] => dflt
  | x :: xs => xs.foldl (fun acc v => f v acc) (castf x)

/-- The elements of an array in row-major subscript order. -/
def arr_elems {α : Type} [Inhabited α] (arr : ArrayM α) : List α :=
  (row_major_enum arr.hdr.dims).map (aget arr)

/-- A subscript tuple normalised to rank `N` the way `subs2ind` consumes it:
extra trailing entries dropped, missing leading entries taken as `0`. -/
def subs_extend (N : Nat) (subs : List Int) : List Int :=
  if N ≤ subs.length then subs.take N
  else List.replicate (N - subs.length) 0 ++ subs

/-- The layouts the library ever constructs: one introduction rule for each
`Array_header` constructor. -/
inductive Constructed : Header → Prop
  | from_dims (dims : List Int) : Constructed (header_from_dims dims)
  | slice (pd ps : List Int) (poff : Int) (ivs : List Interval) :
      Constructed (header_slice pd ps poff ivs)
  | omitted (pd : List Int) (axis : Int) : Constructed (header_omit pd axis)
  | permute (pd ord : List Int) : Constructed (header_permute pd ord)
  | grow (pd : List Int) (cnt axis : Int) : Constructed (header_grow pd cnt axis)

/-! ### Basic lemmas about `numel`, `compute_strides` and `compute_dims` -/

theorem numel_go_eq_of_pos (ds : List Int) (hp : ∀ d ∈ ds, 0 < d) (acc : Int) :
    numel_go acc ds = acc * ds.prod := by
  induction ds generalizing acc with
  | nil => simp [numel_go]
  | cons d tl ih =>
    have hd : 0 < d := hp d (by simp)
    simp only [numel_go, not_le.mpr hd, if_false]
    rw [ih (fun x hx => hp x (by simp [hx]))]
    simp [List.prod_cons]; ring

theorem numel_eq_prod (dims : List Int) (h : dims ≠ []) (hp : ∀ d ∈ dims, 0 < d) :
    numel dims = dims.prod := by
  simp only [numel, h, if_false]
  rw [numel_go_eq_of_pos dims hp 1, one_mul]

theorem numel_go_zero (ds : List Int) (h : ∃ d ∈ ds, d ≤ 0) (acc : Int) :
    numel_go acc ds = 0 := by
  induction ds generalizing acc with
  | nil => simp at h
  | cons d tl ih =>
    by_cases hd : d ≤ 0
    · simp [numel_go, hd]
    · simp only [numel_go, hd, if_false]
      rcases h with ⟨x, hx, hxle⟩
      rcases List.mem_cons.mp hx with hx | hx
      · exact absurd (hx ▸ hxle) hd
      · exact ih ⟨x, hx, hxle⟩ _

theorem numel_pos_dims (dims : List Int) (h : 0 < numel dims) :
    dims ≠ [] ∧ ∀ d ∈ dims, 0 < d := by
  constructor
  · intro he; rw [he] at h; simp [numel] at h
  · intro d hd
    by_contra hle
    push_neg at hle
    have hne : dims ≠ [] := by intro he; rw [he] at hd; simp at hd
    have hz := numel_go_zero dims ⟨d, hd, hle⟩ 1
    rw [numel, if_neg hne, hz] at h
    exact lt_irrefl 0 h

theorem numel_nonneg (dims : List Int) : 0 ≤ numel dims := by
  by_cases hne : dims = []
  · simp [numel, hne]
  · by_cases hp : ∀ d ∈ dims, 0 < d
    · rw [numel_eq_prod dims hne hp]
      exact le_of_lt (List.prod_pos hp)
    · push_neg at hp
      rcases hp with ⟨d, hd, hle⟩
      rw [numel, if_neg hne, numel_go_zero dims ⟨d, hd, hle⟩ 1]

theorem numel_pos (dims : List Int) (h : dims ≠ []) (hp : ∀ d ∈ dims, 0 < d) :
    0 < numel dims := by
  rw [numel_eq_prod dims h hp]; exact List.prod_pos hp

theorem compute_strides_length (ds : List Int) :
    (compute_strides ds).length = ds.length := by
  induction ds with
  | nil => simp [compute_strides]
  | cons d tl ih =>
    cases tl with
    | nil => simp [compute_strides]
    | cons d2 tl2 => simp only [compute_strides, List.length_cons]; simp at ih ⊢; omega

theorem compute_strides_getD_eq (ds : List Int) :
    ∀ i < ds.length, (compute_strides ds).getD i 0 = (ds.drop (i + 1)).prod := by
  induction ds with
  | nil => intro i hi; simp at hi
  | cons d tl ih =>
    intro i hi
    cases tl with
    | nil =>
      have hi0 : i = 0 := by simp at hi; omega
      subst hi0
      simp [compute_strides]
    | cons d2 tl2 =>
      cases i with
      | zero =>
        simp only [compute_strides, List.getD_cons_zero, List.drop_succ_cons, List.drop_zero]
        have h0 := ih 0 (by simp)
        have hlen : (compute_strides (d2 :: tl2)).length = tl2.length + 1 := by
          rw [compute_strides_length]; simp
        have hne : compute_strides (d2 :: tl2) ≠ [] := by
          intro he; rw [he] at hlen; simp at hlen
        have hh : (compute_strides (d2 :: tl2)).headD 1 =
            (compute_strides (d2 :: tl2)).getD 0 0 := by
          cases hcs : compute_strides (d2 :: tl2) with
          | nil => exact absurd hcs hne
          | cons a l => simp
        rw [hh, h0]
        simp [List.prod_cons]; ring
      | succ j =>
        simp only [compute_strides, List.getD_cons_succ, List.drop_succ_cons]
        exact ih j (by simpa using Nat.lt_of_succ_lt_succ hi)

theorem compute_strides_last (ds : List Int) (h : ds ≠ []) :
    (compute_strides ds).getD (ds.length - 1) 0 = 1 := by
  have hlen : 0 < ds.length := List.length_pos.mpr h
  rw [compute_strides_getD_eq ds (ds.length - 1) (by omega)]
  have h1 : ds.length - 1 + 1 = ds.length := by omega
  rw [h1]
  simp

theorem compute_strides_rec (ds : List Int) (i : Nat) (hi : i + 1 < ds.length) :
    (compute_strides ds).getD i 0 =
      (compute_strides ds).getD (i + 1) 0 * ds.getD (i + 1) 0 := by
  rw [compute_strides_getD_eq ds i (by omega), compute_strides_getD_eq ds (i + 1) hi,
    List.drop_eq_getElem_cons hi, List.getD_eq_getElem ds 0 hi, List.prod_cons]
  ring

theorem canon_dim_pos (c : Interval) (h1 : c.start ≤ c.stop) (h2 : 0 < c.step) :
    0 < (c.stop - c.start + 1 + (c.step - 1)) / c.step := by
  have hle : (1 : Int) ≤ (c.stop - c.start + 1 + (c.step - 1)) / c.step := by
    rw [Int.le_ediv_iff_mul_le h2]; omega
  omega

theorem compute_dims_pos (pd : List Int) (ivs : List Interval) (ds : List Int)
    (hp : ∀ d ∈ pd, 0 < d) (hne : pd ≠ [])
    (hcd : compute_dims pd ivs = some ds) :
    ds ≠ [] ∧ ∀ d ∈ ds, 0 < d := by
  induction pd generalizing ivs ds with
  | nil => exact absurd rfl hne
  | cons d tl ih =>
    cases ivs with
    | nil =>
      simp only [compute_dims] at hcd
      cases hcd
      exact ⟨hne, hp⟩
    | cons iv rest =>
      simp only [compute_dims] at hcd
      by_cases hdeg : (canon iv d).start > (canon iv d).stop ∨ (canon iv d).step ≤ 0
      · simp [hdeg] at hcd
      · simp only [hdeg, if_false] at hcd
        push_neg at hdeg
        rcases htl : compute_dims tl rest with _ | tail
        · rw [htl] at hcd; simp at hcd
        · rw [htl] at hcd
          simp only [Option.some.injEq] at hcd
          subst hcd
          refine ⟨by simp, ?_⟩
          intro x hx
          rcases List.mem_cons.mp hx with hx | hx
          · subst hx
            exact canon_dim_pos (canon iv d) hdeg.1 hdeg.2
          · by_cases htlne : tl = []
            · subst htlne
              simp only [compute_dims, Option.some.injEq] at htl
              subst htl
              simp at hx
            · exact (ih rest tail (fun y hy => hp y (List.mem_cons_of_mem d hy)) htlne htl).2 x hx

/-- Claim C8: for every non-empty layout produced by any of the header
constructors, `count` equals the product of `dims`; and for every layout built
from a shape only, the strides are row-major: the last stride is `1` and
`strides[i] = strides[i+1] * dims[i+1]`. -/
theorem claim_C8_layout_invariants :
    (∀ h : Header, Constructed h → h.hempty = false → h.count = h.dims.prod) ∧
    (∀ dims : List Int, (header_from_dims dims).hempty = false →
      (header_from_dims dims).strides.getD ((header_from_dims dims).dims.length - 1) 0 = 1 ∧
      ∀ i, i + 1 < (header_from_dims dims).dims.length →
        (header_from_dims dims).strides.getD i 0 =
          (header_from_dims dims).strides.getD (i + 1) 0 *
            (header_from_dims dims).dims.getD (i + 1) 0) := by
  have hofnumel : ∀ ds : List Int, 0 < numel ds → numel ds = ds.prod := by
    intro ds h
    rcases numel_pos_dims ds h with ⟨hne, hp⟩
    exact numel_eq_prod ds hne hp
  constructor
  · intro h hc hne
    cases hc with
    | from_dims dims =>
      by_cases hnum : numel dims ≤ 0
      · rw [header_from_dims, if_pos hnum] at hne ⊢
        simp at hne
      · push_neg at hnum
        rw [header_from_dims, if_neg (not_le.mpr hnum)]
        exact hofnumel dims hnum
    | slice pd ps poff ivs =>
      by_cases hnum : numel pd ≤ 0
      · rw [header_slice, if_pos hnum] at hne ⊢
        simp at hne
      · push_neg at hnum
        rcases hcd : compute_dims pd ivs with _ | ds
        · rw [header_slice, if_neg (not_le.mpr hnum), hcd] at hne ⊢
          simp at hne
        · rw [header_slice, if_neg (not_le.mpr hnum), hcd]
          rcases numel_pos_dims pd hnum with ⟨hpne, hppos⟩
          rcases compute_dims_pos pd ivs ds hppos hpne hcd with ⟨hdne, hdpos⟩
          exact hofnumel ds (numel_pos ds hdne hdpos)
    | omitted pd axis =>
      by_cases hnum : numel pd ≤ 0
      · rw [header_omit, if_pos hnum] at hne ⊢
        simp [header_default] at hne
      · push_neg at hnum
        rw [header_omit, if_neg (not_le.mpr hnum)]
        rcases numel_pos_dims pd hnum with ⟨hpne, hppos⟩
        by_cases hlen : 1 < pd.length
        · have hds : omit_dims pd axis = pd.eraseIdx (modulo axis (pd.length : Int)).toNat := by
            rw [omit_dims, if_pos hlen]
          have hdsl : pd.length - 1 ≤ (omit_dims pd axis).length := by
            rw [hds]
            by_cases hin : (modulo axis (pd.length : Int)).toNat < pd.length
            · rw [List.length_eraseIdx_of_lt hin]
            · rw [List.eraseIdx_of_length_le (by omega)]; omega
          have hdne : omit_dims pd axis ≠ [] := by
            intro he; rw [he] at hdsl; simp at hdsl; omega
          have hdpos : ∀ d ∈ omit_dims pd axis, 0 < d := by
            intro d hd
            rw [hds] at hd
            exact hppos d (List.mem_of_mem_eraseIdx hd)
          exact hofnumel _ (numel_pos _ hdne hdpos)
        · have hds : omit_dims pd axis = [1] := by rw [omit_dims, if_neg hlen]
          show numel (omit_dims pd axis) = (omit_dims pd axis).prod
          rw [hds]
          simp [numel, numel_go]
    | permute pd ord =>
      by_cases hnum : numel pd ≤ 0
      · rw [header_permute, if_pos hnum] at hne ⊢
        simp [header_default] at hne
      · push_neg at hnum
        by_cases hord : ord = []
        · rw [header_permute, if_neg (not_le.mpr hnum), if_pos hord] at hne ⊢
          simp [header_default] at hne
        · by_cases heq : numel pd ≠ numel (permute_dims pd ord)
          · rw [header_permute, if_neg (not_le.mpr hnum), if_neg hord, if_pos heq] at hne ⊢
            simp [header_default] at hne
          · push_neg at heq
            rw [header_permute, if_neg (not_le.mpr hnum), if_neg hord,
              if_neg (by simpa using heq)]
            exact hofnumel _ (heq ▸ hnum)
    | grow pd cnt axis =>
      by_cases hnum : numel pd ≤ 0
      · rw [header_grow, if_pos hnum] at hne ⊢
        simp [header_default] at hne
      · push_neg at hnum
        by_cases hdz : numel (grow_dims pd cnt axis) ≤ 0
        · rw [header_grow, if_neg (not_le.mpr hnum), if_pos hdz] at hne ⊢
          simp at hne
        · push_neg at hdz
          rw [header_grow, if_neg (not_le.mpr hnum), if_neg (not_le.mpr hdz)]
          exact hofnumel _ hdz
  · intro dims hne
    by_cases hnum : numel dims ≤ 0
    · rw [header_from_dims, if_pos hnum] at hne
      simp at hne
    · push_neg at hnum
      rcases numel_pos_dims dims hnum with ⟨hdne, _⟩
      rw [header_from_dims, if_neg (not_le.mpr hnum)]
      exact ⟨compute_strides_last dims hdne,
        fun i hi => compute_strides_rec dims i hi⟩

theorem claim_C8_layout_invariants_witness :
    (header_from_dims [2, 3]).count = (header_from_dims [2, 3]).dims.prod ∧
    (header_from_dims [2, 3]).strides.getD ((header_from_dims [2, 3]).dims.length - 1) 0 = 1 :=
  ⟨claim_C8_layout_invariants.1 _ (Constructed.from_dims [2, 3]) (by decide),
    (claim_C8_layout_invariants.2 [2, 3] (by decide)).1⟩

/-! ### Claim C1: the slice layout -/

theorem forward_step_modulo (iv : Interval) (d : Int) :
    (canon iv d).step = (forward iv).step := by
  rw [canon, interval_modulo, forward, forward]
  by_cases h : iv.step < 0 <;> simp [h]

theorem compute_dims_none_of_degenerate (pd : List Int) (ivs : List Interval)
    (hk : ivs.length ≤ pd.length)
    (hstep : ∀ iv ∈ ivs, iv.step ≠ 0)
    (hdeg : ∃ i < ivs.length,
      (canon (ivs.getD i default) (pd.getD i 0)).start >
        (canon (ivs.getD i default) (pd.getD i 0)).stop) :
    compute_dims pd ivs = none := by
  induction pd generalizing ivs with
  | nil =>
    rcases hdeg with ⟨i, hi, _⟩
    have h0 : ivs.length = 0 := by simpa using hk
    omega
  | cons d tl ih =>
    cases ivs with
    | nil => rcases hdeg with ⟨i, hi, _⟩; simp at hi
    | cons iv rest =>
      simp only [compute_dims]
      rcases hdeg with ⟨i, hi, hgt⟩
      cases i with
      | zero =>
        simp only [List.getD_cons_zero] at hgt
        simp [hgt]
      | succ j =>
        by_cases hdeg0 : (canon iv d).start > (canon iv d).stop ∨ (canon iv d).step ≤ 0
        · simp [hdeg0]
        · simp only [hdeg0, if_false]
          have hrec := ih rest (by simpa using Nat.le_of_succ_le_succ hk)
            (fun x hx => hstep x (List.mem_cons_of_mem iv hx))
            ⟨j, by simpa using Nat.lt_of_succ_lt_succ hi, by simpa using hgt⟩
          rw [hrec]

theorem map_range_getD (l : List Int) :
    (List.range l.length).map (fun i => l.getD i 0) = l := by
  refine List.ext_getElem (by simp) ?_
  intro i h1 h2
  simp only [List.getElem_map, List.getElem_range]
  rw [List.getD_eq_getElem l 0 h2]

theorem compute_dims_some_of_ok (pd : List Int) (ivs : List Interval)
    (hk : ivs.length ≤ pd.length)
    (hstep : ∀ iv ∈ ivs, iv.step ≠ 0)
    (hok : ∀ i < ivs.length,
      (canon (ivs.getD i default) (pd.getD i 0)).start ≤
        (canon (ivs.getD i default) (pd.getD i 0)).stop) :
    compute_dims pd ivs = some ((List.range pd.length).map
      (fun i => if i < ivs.length then slice_dim (ivs.getD i default) (pd.getD i 0)
        else pd.getD i 0)) := by
  induction pd generalizing ivs with
  | nil =>
    simp at hk
    rw [hk]
    simp [compute_dims]
  | cons d tl ih =>
    cases ivs with
    | nil =>
      show some (d :: tl) = some _
      congr 1
      conv_lhs => rw [← map_range_getD (d :: tl)]
      refine List.map_congr_left ?_
      intro j _
      simp
    | cons iv rest =>
      simp only [compute_dims]
      have hs := hstep iv (by simp)
      have hle0 : (canon iv d).start ≤ (canon iv d).stop := by
        have := hok 0 (by simp)
        simpa using this
      have hpos0 : 0 < (canon iv d).step := by
        rw [forward_step_modulo, forward]
        by_cases h : iv.step < 0 <;> simp [h] <;> omega
      have hdeg : ¬ ((canon iv d).start > (canon iv d).stop ∨ (canon iv d).step ≤ 0) := by
        push_neg
        exact ⟨hle0, hpos0⟩
      simp only [hdeg, if_false]
      rw [ih rest (by simpa using Nat.le_of_succ_le_succ hk)
        (fun x hx => hstep x (List.mem_cons_of_mem iv hx))
        (fun j hj => by
          have := hok (j + 1) (by simpa using Nat.succ_lt_succ hj)
          simpa using this)]
      simp only [Option.some.injEq, List.length_cons]
      rw [List.range_succ_eq_map]
      simp only [List.map_cons, List.map_map]
      congr 1
      · simp
      · refine List.map_congr_left ?_
        intro j hj
        simp only [Function.comp_apply, List.getD_cons_succ, Nat.succ_lt_succ_iff]

theorem forward_step_pos (iv : Interval) (h : iv.step ≠ 0) : 0 < (forward iv).step := by
  rw [forward]
  by_cases hlt : iv.step < 0
  · rw [if_pos hlt]
    show 0 < -iv.step
    omega
  · rw [if_neg hlt]
    omega

theorem slice_dim_ceil (iv : Interval) (d : Int)
    (_hle : (canon iv d).start ≤ (canon iv d).stop)
    (hpos : 0 < (canon iv d).step) :
    (slice_dim iv d - 1) * (canon iv d).step <
        (canon iv d).stop - (canon iv d).start + 1 ∧
      (canon iv d).stop - (canon iv d).start + 1 ≤ slice_dim iv d * (canon iv d).step := by
  set A := (canon iv d).stop - (canon iv d).start + 1 with hA
  set t := (canon iv d).step with ht
  have hq1 : slice_dim iv d * t ≤ A + t - 1 := by
    have := (Int.le_ediv_iff_mul_le hpos (a := slice_dim iv d) (b := A + (t - 1))).mp
      (le_of_eq rfl)
    omega
  have hq2 : A + t - 1 < (slice_dim iv d + 1) * t := by
    have h := Int.ediv_lt_iff_lt_mul hpos (a := A + (t - 1)) (b := slice_dim iv d + 1)
    have : slice_dim iv d < slice_dim iv d + 1 := by omega
    have := h.mp (by
      show (A + (t - 1)) / t < slice_dim iv d + 1
      have : (A + (t - 1)) / t = slice_dim iv d := rfl
      omega)
    omega
  constructor <;> nlinarith

/-- Claim C1: for a non-empty parent layout and a list of intervals (at most
one per axis, none with a zero step), the slice layout canonicalises each
interval by the Euclidean `modulo` into `[0, dims[i])` followed by `forward`
(yielding a positive step); if any canonical interval has `start > stop` the
derived layout is empty; otherwise it is non-empty with
`dims[i] = ceil((stop - start + 1) / step)` on specified axes (pinned below by
the two ceiling inequalities), `dims[i] = parent.dims[i]` on trailing axes,
`strides[i] = parent.strides[i] * step` on specified axes, and
`offset = parent.offset + Σ parent.strides[i] * start` over specified axes. -/
theorem claim_C1_slice_layout (pd ps : List Int) (poff : Int) (ivs : List Interval)
    (hpos : dims_pos pd) (hpne : pd ≠ [])
    (hlen : ps.length = pd.length) (hk : ivs.length ≤ pd.length)
    (hstep : ∀ iv ∈ ivs, iv.step ≠ 0) :
    (∀ i < ivs.length,
      0 ≤ (interval_modulo (ivs.getD i default) (pd.getD i 0)).start ∧
      (interval_modulo (ivs.getD i default) (pd.getD i 0)).start < pd.getD i 0 ∧
      0 ≤ (interval_modulo (ivs.getD i default) (pd.getD i 0)).stop ∧
      (interval_modulo (ivs.getD i default) (pd.getD i 0)).stop < pd.getD i 0 ∧
      0 < (canon (ivs.getD i default) (pd.getD i 0)).step) ∧
    ((∃ i < ivs.length,
        (canon (ivs.getD i default) (pd.getD i 0)).start >
          (canon (ivs.getD i default) (pd.getD i 0)).stop) →
      (header_slice pd ps poff ivs).hempty = true) ∧
    ((∀ i < ivs.length,
        (canon (ivs.getD i default) (pd.getD i 0)).start ≤
          (canon (ivs.getD i default) (pd.getD i 0)).stop) →
      (header_slice pd ps poff ivs).hempty = false ∧
      (∀ i < ivs.length,
        (header_slice pd ps poff ivs).dims.getD i 0 =
          slice_dim (ivs.getD i default) (pd.getD i 0) ∧
        ((slice_dim (ivs.getD i default) (pd.getD i 0) - 1) *
            (canon (ivs.getD i default) (pd.getD i 0)).step <
          (canon (ivs.getD i default) (pd.getD i 0)).stop -
            (canon (ivs.getD i default) (pd.getD i 0)).start + 1 ∧
          (canon (ivs.getD i default) (pd.getD i 0)).stop -
            (canon (ivs.getD i default) (pd.getD i 0)).start + 1 ≤
            slice_dim (ivs.getD i default) (pd.getD i 0) *
              (canon (ivs.getD i default) (pd.getD i 0)).step) ∧
        (header_slice pd ps poff ivs).strides.getD i 0 =
          ps.getD i 0 * (canon (ivs.getD i default) (pd.getD i 0)).step) ∧
      (∀ i, ivs.length ≤ i → i < pd.length →
        (header_slice pd ps poff ivs).dims.getD i 0 = pd.getD i 0) ∧
      (header_slice pd ps poff ivs).offset =
        poff + ((List.range ivs.length).map
          (fun i => ps.getD i 0 * (canon (ivs.getD i default) (pd.getD i 0)).start)).sum) := by
  have hnum : 0 < numel pd := numel_pos pd hpne hpos
  have hdpos : ∀ i < ivs.length, 0 < pd.getD i 0 := by
    intro i hi
    have hilt : i < pd.length := lt_of_lt_of_le hi hk
    rw [List.getD_eq_getElem pd 0 hilt]
    exact hpos _ (List.getElem_mem hilt)
  have hstep_pos : ∀ i < ivs.length, 0 < (canon (ivs.getD i default) (pd.getD i 0)).step := by
    intro i hi
    have hmem : ivs.getD i default ∈ ivs := by
      rw [List.getD_eq_getElem ivs default hi]
      exact List.getElem_mem hi
    rw [forward_step_modulo]
    exact forward_step_pos _ (hstep _ hmem)
  refine ⟨?_, ?_, ?_⟩
  · intro i hi
    have hd := hdpos i hi
    refine ⟨?_, ?_, ?_, ?_, hstep_pos i hi⟩
    · exact Int.emod_nonneg _ (by omega)
    · exact Int.emod_lt_of_pos _ hd
    · exact Int.emod_nonneg _ (by omega)
    · exact Int.emod_lt_of_pos _ hd
  · intro hdeg
    rw [header_slice, if_neg (not_le.mpr hnum),
      compute_dims_none_of_degenerate pd ivs hk hstep hdeg]
  · intro hok
    rw [header_slice, if_neg (not_le.mpr hnum),
      compute_dims_some_of_ok pd ivs hk hstep hok]
    refine ⟨rfl, ?_, ?_, ?_⟩
    · intro i hi
      have hilt : i < pd.length := lt_of_lt_of_le hi hk
      refine ⟨?_, slice_dim_ceil _ _ (hok i hi) (hstep_pos i hi), ?_⟩
      · show ((List.range pd.length).map _).getD i 0 = _
        rw [List.getD_eq_getElem _ 0 (by simpa using hilt)]
        simp [hi]
      · show (compute_strides_slice pd ps ivs).getD i 0 = _
        rw [compute_strides_slice]
        have hzl : (List.zipWith (fun s iv => s * (forward iv).step) ps ivs).length
            = ivs.length := by
          rw [List.length_zipWith]
          omega
        rw [List.getD_append _ _ _ _ (by omega)]
        rw [List.getD_eq_getElem _ 0 (by omega)]
        rw [List.getElem_zipWith]
        rw [← List.getD_eq_getElem ps 0 (by omega), ← List.getD_eq_getElem ivs default hi]
        rw [forward_step_modulo]
    · intro i hle hlt
      show ((List.range pd.length).map _).getD i 0 = _
      rw [List.getD_eq_getElem _ 0 (by simpa using hlt)]
      simp [Nat.not_lt.mpr hle]
    · show compute_offset pd poff ps ivs = _
      rw [compute_offset]
      by_cases hiv : ivs = []
      · subst hiv
        simp
      · have hpd : pd ≠ [] := hpne
        have hps : ps ≠ [] := by
          intro h; rw [h] at hlen; simp at hlen; exact hpd (List.length_eq_zero.mp hlen.symm)
        rw [if_neg (by simp [hpd, hps, hiv])]
        congr 1
        congr 1
        refine List.ext_getElem ?_ ?_
        · simp only [List.length_zipWith, List.length_zip, List.length_map, List.length_range]
          omega
        intro i h1 h2
        simp only [List.length_zipWith, List.length_zip] at h1
        have hi : i < ivs.length := by omega
        have hilt : i < pd.length := lt_of_lt_of_le hi hk
        rw [List.getElem_zipWith, List.getElem_map, List.getElem_zip]
        simp only [List.getElem_range]
        rw [← List.getD_eq_getElem ps 0 (by omega), ← List.getD_eq_getElem ivs default hi,
          ← List.getD_eq_getElem pd 0 hilt]

theorem claim_C1_slice_layout_witness :
    (header_slice [3, 1, 2] [2, 2, 1] 0 [⟨1, 2, 1⟩]).hempty = false ∧
    (header_slice [3, 1, 2] [2, 2, 1] 0 [⟨1, 2, 1⟩]).dims.getD 0 0 = 2 ∧
    (header_slice [3, 1, 2] [2, 2, 1] 0 [⟨1, 2, 1⟩]).offset = 2 := by
  have h := claim_C1_slice_layout [3, 1, 2] [2, 2, 1] 0 [⟨1, 2, 1⟩]
    (by intro d hd; fin_cases hd <;> norm_num) (by decide) (by decide) (by decide)
    (by intro iv hiv; fin_cases hiv; decide)
  have h3 := h.2.2 (by
    intro i hi
    have h0 : i = 0 := by
      have h1 : i < 1 := by simpa using hi
      omega
    subst h0
    decide)
  refine ⟨h3.1, ?_, ?_⟩
  · rw [(h3.2.1 0 (by decide)).1]
    decide
  · rw [h3.2.2.2]
    decide

/-! ### Claim C2: subscript resolution -/

theorem subs2ind_spec (off : Int) (strides dims subs : List Int)
    (hlen : strides.length = dims.length) (hN : 0 < dims.length) (hsub : subs ≠ []) :
    subs2ind off strides dims subs =
      off + ((List.range dims.length).map
        (fun i => strides.getD i 0 *
          modulo ((subs_extend dims.length subs).getD i 0) (dims.getD i 0))).sum := by
  have hstr : strides ≠ [] := by
    intro h; rw [h] at hlen; simp at hlen; omega
  have hdims : dims ≠ [] := by
    intro h; rw [h] at hN; simp at hN
  rw [subs2ind, if_neg (by simp [hstr, hdims, hsub])]
  dsimp only
  by_cases hk : dims.length ≤ subs.length
  · have hnu : min (min strides.length dims.length) subs.length = dims.length := by
      omega
    rw [hnu, hlen]
    have hnig : dims.length - dims.length = 0 := by omega
    rw [hnig]
    simp only [List.drop_zero]
    congr 1
    congr 1
    refine List.ext_getElem ?_ ?_
    · simp only [List.length_zipWith, List.length_zip, List.length_map, List.length_range]
      omega
    · intro i h1 h2
      simp only [List.length_zipWith, List.length_zip] at h1
      have hiN : i < dims.length := by omega
      rw [List.getElem_zipWith, List.getElem_zip, List.getElem_map, List.getElem_range]
      rw [subs_extend, if_pos hk]
      rw [List.getD_eq_getElem strides 0 (by omega), List.getD_eq_getElem dims 0 hiN,
        List.getD_eq_getElem (subs.take dims.length) 0 (by simp; omega),
        List.getElem_take]
  · push_neg at hk
    have hnu : min (min strides.length dims.length) subs.length = subs.length := by
      omega
    rw [hnu, hlen, subs_extend, if_neg (by omega)]
    set nig := dims.length - subs.length with hnigdef
    have hsplit : dims.length = nig + subs.length := by omega
    rw [hsplit, List.range_add, List.map_append, List.sum_append]
    have hzero : ((List.range nig).map
        (fun i => strides.getD i 0 *
          modulo ((List.replicate nig 0 ++ subs).getD i 0) (dims.getD i 0))).sum = 0 := by
      rw [List.map_congr_left (g := fun _ => (0 : Int)) ?_]
      · simp
      · intro i hi
        have hilt : i < nig := List.mem_range.mp hi
        rw [List.getD_append _ _ _ _ (by simpa using hilt)]
        have hrep : (List.replicate nig (0 : Int)).getD i 0 = 0 := by
          rw [List.getD_eq_getElem _ 0 (by simpa using hilt)]
          simp
        rw [hrep]
        simp [modulo]
    rw [hzero, zero_add]
    congr 1
    congr 1
    refine List.ext_getElem ?_ ?_
    · simp only [List.length_zipWith, List.length_zip, List.length_map, List.length_range,
        List.length_drop]
      omega
    · intro j h1 h2
      simp only [List.length_zipWith, List.length_zip, List.length_drop] at h1
      have hjk : j < subs.length := by omega
      rw [List.getElem_zipWith, List.getElem_zip, List.getElem_map, List.getElem_map,
        List.getElem_range]
      rw [List.getElem_drop, List.getElem_drop]
      rw [List.getD_append_right _ _ _ _ (by simp)]
      simp only [List.length_replicate]
      have hidx : nig + j - nig = j := by omega
      rw [hidx]
      rw [List.getD_eq_getElem strides 0 (by omega), List.getD_eq_getElem dims 0 (by omega),
        List.getD_eq_getElem subs 0 hjk]

/-- Claim C2: element access resolves to the flat buffer position
`offset + Σ strides[i] * (s[i] mod dims[i])` where the subscript tuple is first
normalised to the rank (extra trailing subscripts ignored, missing leading
subscripts taken as `0`); appending extra subscripts beyond the rank does not
change the resolved position; fewer subscripts behave as the trailing axes;
and the wrap is the Euclidean modulo, mapping into `[0, d)` for `0 < d`. -/
theorem claim_C2_element_access {α : Type} [Inhabited α] (arr : ArrayM α) (subs : List Int)
    (hlen : arr.hdr.strides.length = arr.hdr.dims.length)
    (hN : 0 < arr.hdr.dims.length) (hsub : subs ≠ []) :
    (aget arr subs = arr.buf.getD
      (arr.hdr.offset + ((List.range arr.hdr.dims.length).map
        (fun i => arr.hdr.strides.getD i 0 *
          modulo ((subs_extend arr.hdr.dims.length subs).getD i 0)
            (arr.hdr.dims.getD i 0))).sum).toNat default) ∧
    (∀ extra : List Int, subs.length = arr.hdr.dims.length →
      subs2ind arr.hdr.offset arr.hdr.strides arr.hdr.dims (subs ++ extra) =
        subs2ind arr.hdr.offset arr.hdr.strides arr.hdr.dims subs) ∧
    (subs.length ≤ arr.hdr.dims.length →
      subs2ind arr.hdr.offset arr.hdr.strides arr.hdr.dims subs =
        subs2ind arr.hdr.offset arr.hdr.strides arr.hdr.dims
          (List.replicate (arr.hdr.dims.length - subs.length) 0 ++ subs)) ∧
    (∀ s d : Int, 0 < d → 0 ≤ modulo s d ∧ modulo s d < d) := by
  refine ⟨?_, ?_, ?_, ?_⟩
  · rw [aget, subs2ind_spec _ _ _ _ hlen hN hsub]
  · intro extra hlenN
    rw [subs2ind_spec _ _ _ _ hlen hN hsub,
      subs2ind_spec _ _ _ _ hlen hN (by simp [hsub])]
    have hext : subs_extend arr.hdr.dims.length (subs ++ extra) =
        subs_extend arr.hdr.dims.length subs := by
      rw [subs_extend, if_pos (by simp; omega), subs_extend, if_pos (by omega)]
      rw [← hlenN, List.take_left, List.take_of_length_le (by omega)]
    rw [hext]
  · intro hle
    rw [subs2ind_spec _ _ _ _ hlen hN hsub,
      subs2ind_spec _ _ _ _ hlen hN (by simp [hsub])]
    have hext : subs_extend arr.hdr.dims.length
        (List.replicate (arr.hdr.dims.length - subs.length) 0 ++ subs) =
        subs_extend arr.hdr.dims.length subs := by
      by_cases heq : subs.length = arr.hdr.dims.length
      · rw [heq]
        simp [subs_extend]
      · rw [subs_extend, if_pos (by simp; omega), subs_extend, if_neg (by omega),
          List.take_of_length_le (by simp; omega)]
    rw [hext]
  · intro s d hd
    exact ⟨Int.emod_nonneg s (by omega), Int.emod_lt_of_pos s hd⟩

theorem claim_C2_element_access_witness :
    (aget (mk_array [2, 3] [(10 : Int), 11, 12, 13, 14, 15] 0) [1, -1] = 15) ∧
    subs2ind 0 [3, 1] [2, 3] [1, 2, 7] = subs2ind 0 [3, 1] [2, 3] [1, 2] ∧
    subs2ind 0 [3, 1] [2, 3] [2] = subs2ind 0 [3, 1] [2, 3] [0, 2] := by
  have h := claim_C2_element_access (mk_array [2, 3] [(10 : Int), 11, 12, 13, 14, 15] 0)
    [1, -1] (by decide) (by decide) (by decide)
  have h2 := claim_C2_element_access (mk_array [2, 3] [(10 : Int), 11, 12, 13, 14, 15] 0)
    [1, 2] (by decide) (by decide) (by decide)
  have h3 := claim_C2_element_access (mk_array [2, 3] [(10 : Int), 11, 12, 13, 14, 15] 0)
    [2] (by decide) (by decide) (by decide)
  refine ⟨?_, ?_, ?_⟩
  · rw [h.1]; decide
  · exact h2.2.1 [7] (by decide)
  · exact h3.2.2.1 (by decide)

/-! ### Claim C3: the permutation layout (code bug)

The permutation constructor (`array.h:415`) computes
`dims[i] = previous_dims[modulo(new_order[i], previous_dims[i])]`: the order
entry is wrapped by the *dimension value* at position `i` instead of the rank.
For the parent shape `[1, 2]` and the genuine permutation `[1, 0]` of `[0, 2)`
this reads `previous_dims[modulo(1, 1)] = previous_dims[0]` for axis 0, giving
dims `[1, 1]`, whose count `1` differs from the parent count `2`, so the
constructor yields an *empty* layout and `transpose` returns an empty array —
where the claim (`dims'[i] = P.dims[π(i)]`, i.e. `[2, 1]`, recomputed
row-major strides) requires a non-empty layout.  The spec's formula is clearly
the intent (it matches the library's own indexing documentation), and wrapping
an axis index by a dimension value has no meaning, so this is recorded as a
bug in the code. -/

theorem claim_C3_transpose_permutation_bug :
    permute_dims [1, 2] [1, 0] = [1, 1] ∧
    (header_permute [1, 2] [1, 0]).hempty = true ∧
    (header_permute [1, 2] [1, 0]).dims ≠ [2, 1] ∧
    aempty (transpose_arr (mk_array [1, 2] [(5 : Int), 6] 0) [1, 0] 1) = true ∧
    (transpose_arr (mk_array [1, 2] [(5 : Int), 6] 0) [1, 0] 1).hdr.dims ≠ [2, 1] := by
  refine ⟨by decide, by decide, by decide, ?_, ?_⟩
  · rw [transpose_arr, if_neg (by decide), if_pos (by decide)]
    decide
  · rw [transpose_arr, if_neg (by decide), if_pos (by decide)]
    decide

/-! ### Row-major enumeration, flat indices and buffer fills -/

theorem rangeI_length (d : Int) : (rangeI d).length = d.toNat := by
  simp [rangeI]

theorem mem_rangeI {j d : Int} : j ∈ rangeI d ↔ 0 ≤ j ∧ j < d := by
  constructor
  · intro hj
    rcases List.mem_map.mp hj with ⟨k, hk, hkj⟩
    subst hkj
    have := List.mem_range.mp hk
    omega
  · intro ⟨h0, hd⟩
    refine List.mem_map.mpr ⟨j.toNat, List.mem_range.mpr (by omega), by omega⟩

theorem row_major_valid (ds : List Int) (s : List Int)
    (hs : s ∈ row_major_enum ds) : subs_valid ds s := by
  induction ds generalizing s with
  | nil =>
    simp only [row_major_enum, List.mem_singleton] at hs
    subst hs
    exact ⟨rfl, fun i hi => by simp at hi⟩
  | cons d tl ih =>
    simp only [row_major_enum, List.mem_flatMap, List.mem_map] at hs
    rcases hs with ⟨j, hj, t, ht, hts⟩
    subst hts
    rcases mem_rangeI.mp hj with ⟨hj0, hjd⟩
    rcases ih t ht with ⟨hlen, hbnd⟩
    refine ⟨by simp [hlen], ?_⟩
    intro i hi
    cases i with
    | zero => simpa using ⟨hj0, hjd⟩
    | succ k =>
      simp only [List.getD_cons_succ]
      exact hbnd k (by simpa using Nat.lt_of_succ_lt_succ hi)

theorem flat_index_sum (ds s : List Int) (hlen : s.length = ds.length) :
    flat_index ds s = ((List.range ds.length).map
      (fun i => s.getD i 0 * (ds.drop (i + 1)).prod)).sum := by
  induction ds generalizing s with
  | nil =>
    have hs : s = [] := List.length_eq_zero.mp (by simpa using hlen)
    subst hs
    simp [flat_index]
  | cons d tl ih =>
    cases s with
    | nil => simp at hlen
    | cons x xs =>
      simp only [flat_index, List.length_cons]
      rw [List.range_succ_eq_map, List.map_cons, List.sum_cons, List.map_map]
      have hx : xs.length = tl.length := by simpa using hlen
      rw [ih xs hx]
      rw [show (List.range tl.length).map
            ((fun i => (x :: xs).getD i 0 * ((d :: tl).drop (i + 1)).prod) ∘ Nat.succ)
          = (List.range tl.length).map (fun i => xs.getD i 0 * (tl.drop (i + 1)).prod) from
        List.map_congr_left (fun j _ => by simp)]
      simp

theorem flat_bounds (ds : List Int) (hp : dims_pos ds) (s : List Int)
    (hv : subs_valid ds s) :
    0 ≤ flat_index ds s ∧ flat_index ds s < ds.prod := by
  induction ds generalizing s with
  | nil =>
    have hs : s = [] := List.length_eq_zero.mp hv.1
    subst hs
    simp [flat_index]
  | cons d tl ih =>
    cases s with
    | nil => exact absurd hv.1 (by simp)
    | cons x xs =>
      have hd : 0 < d := hp d (by simp)
      have htlp : dims_pos tl := fun y hy => hp y (by simp [hy])
      have hxs : subs_valid tl xs := by
        refine ⟨by simpa using hv.1, ?_⟩
        intro i hi
        have := hv.2 (i + 1) (by simpa using Nat.succ_lt_succ hi)
        simpa using this
      have hx := hv.2 0 (by simp)
      simp only [List.getD_cons_zero] at hx
      rcases ih htlp xs hxs with ⟨h0, h1⟩
      have htl : 0 < tl.prod := List.prod_pos htlp
      constructor
      · simp only [flat_index]
        nlinarith
      · simp only [flat_index, List.prod_cons]
        nlinarith [mul_le_mul_of_nonneg_right (Int.lt_iff_add_one_le.mp hx.2) (le_of_lt htl)]

theorem subs2ind_flat (ds s : List Int) (hp : dims_pos ds) (hne : ds ≠ [])
    (hv : subs_valid ds s) :
    subs2ind 0 (compute_strides ds) ds s = flat_index ds s := by
  obtain ⟨hvl, hvb⟩ := hv
  have hN : 0 < ds.length := List.length_pos.mpr hne
  have hsne : s ≠ [] := by
    intro h; rw [h] at hvl; simp at hvl; omega
  rw [subs2ind_spec 0 (compute_strides ds) ds s (compute_strides_length ds) hN hsne]
  rw [flat_index_sum ds s hvl]
  rw [zero_add]
  refine congrArg List.sum (List.map_congr_left ?_)
  intro i hi
  have hiN : i < ds.length := List.mem_range.mp hi
  rw [compute_strides_getD_eq ds i hiN]
  have hse : subs_extend ds.length s = s := by
    rw [subs_extend, if_pos (by omega), List.take_of_length_le (by omega)]
  rw [hse]
  have hd := hvb i hiN
  rw [show modulo (s.getD i 0) (ds.getD i 0) = s.getD i 0 from
    Int.emod_eq_of_lt hd.1 hd.2]
  ring

theorem toNat_mul_pos (a b : Int) (ha : 0 ≤ a) (hb : 0 ≤ b) :
    (a * b).toNat = a.toNat * b.toNat := by
  rcases Int.eq_ofNat_of_zero_le ha with ⟨m, rfl⟩
  rcases Int.eq_ofNat_of_zero_le hb with ⟨n, rfl⟩
  rw [← Int.ofNat_mul]
  simp only [Int.toNat_ofNat]

theorem row_major_length (ds : List Int) (hp : dims_pos ds) :
    (row_major_enum ds).length = ds.prod.toNat := by
  induction ds with
  | nil => simp [row_major_enum]
  | cons d tl ih =>
    have hd : 0 < d := hp d (by simp)
    have htlp : dims_pos tl := fun y hy => hp y (by simp [hy])
    have htl : 0 < tl.prod := List.prod_pos htlp
    simp only [row_major_enum, List.length_flatMap]
    have hin : (rangeI d).map (List.length ∘ fun j => (row_major_enum tl).map (fun t => j :: t))
        = (rangeI d).map (fun _ => tl.prod.toNat) := by
      refine List.map_congr_left ?_
      intro j _
      simp [Function.comp, ih htlp]
    rw [hin, List.map_const', List.sum_replicate, rangeI_length]
    simp only [smul_eq_mul, List.prod_cons]
    rw [toNat_mul_pos d tl.prod (by omega) (by omega)]

theorem range_mul_blocks (n P : Nat) :
    List.range (n * P) = (List.range n).flatMap
      (fun i => (List.range P).map (fun f => i * P + f)) := by
  induction n with
  | zero => simp
  | succ m ih =>
    have hmul : (m + 1) * P = m * P + P := by ring
    rw [hmul, List.range_add, ih, List.range_succ, List.flatMap_append]
    congr 1
    simp only [List.flatMap_cons, List.flatMap_nil, List.append_nil]

theorem map_flat_row_major (ds : List Int) (hp : dims_pos ds) :
    (row_major_enum ds).map (fun s => (flat_index ds s).toNat) =
      List.range ds.prod.toNat := by
  induction ds with
  | nil => decide
  | cons d tl ih =>
    have hd : 0 < d := hp d (by simp)
    have htlp : dims_pos tl := fun y hy => hp y (by simp [hy])
    have htl : 0 < tl.prod := List.prod_pos htlp
    have hP : (row_major_enum tl).length = tl.prod.toNat := row_major_length tl htlp
    simp only [row_major_enum, List.map_flatMap]
    have hprod : (d :: tl).prod.toNat = d.toNat * tl.prod.toNat := by
      simp only [List.prod_cons]
      rw [toNat_mul_pos d tl.prod (by omega) (by omega)]
    rw [hprod, range_mul_blocks]
    have hr : (rangeI d).map Int.toNat = List.range d.toNat := by
      simp only [rangeI, List.map_map]
      have hcomp : (Int.toNat ∘ fun (k : Nat) => (k : Int)) = id := by
        funext k
        simp
      rw [hcomp, List.map_id]
    rw [← hr, List.flatMap_map]
    refine List.flatMap_congr ?_
    intro j hj
    rcases mem_rangeI.mp hj with ⟨hj0, hjd⟩
    simp only [List.map_map]
    rw [← ih htlp]
    simp only [List.map_map]
    refine List.map_congr_left ?_
    intro t ht
    simp only [Function.comp_apply]
    have hvt := row_major_valid tl t ht
    have hb := flat_bounds tl htlp t hvt
    have hmul : (j * tl.prod).toNat = j.toNat * tl.prod.toNat :=
      toNat_mul_pos j tl.prod hj0 (by omega)
    have hnn : 0 ≤ j * tl.prod := mul_nonneg hj0 (by omega)
    simp only [flat_index]
    omega

theorem foldl_set_getD_of_ne {α γ : Type} (l : List γ) (pos : γ → Nat)
    (v : γ → α) (b : List α) (p : Nat) (d : α)
    (h : ∀ x ∈ l, pos x ≠ p) :
    (l.foldl (fun b x => b.set (pos x) (v x)) b).getD p d = b.getD p d := by
  induction l generalizing b with
  | nil => simp
  | cons x xs ih =>
    simp only [List.foldl_cons]
    rw [ih _ (fun y hy => h y (by simp [hy]))]
    rcases lt_or_ge p b.length with hlt | hge
    · rw [List.getD_eq_getElem _ _ (by simpa using hlt),
        List.getD_eq_getElem _ _ hlt]
      rw [List.getElem_set_ne (h x (by simp))]
    · rw [List.getD_eq_default _ _ (by simpa using hge),
        List.getD_eq_default _ _ hge]

theorem foldl_set_getD {α γ : Type} (l : List γ) (pos : γ → Nat)
    (v : γ → α) (b : List α) (d : α)
    (hnd : (l.map pos).Nodup) (hbd : ∀ x ∈ l, pos x < b.length)
    (s : γ) (hs : s ∈ l) :
    (l.foldl (fun b x => b.set (pos x) (v x)) b).getD (pos s) d = v s := by
  induction l generalizing b with
  | nil => simp at hs
  | cons x xs ih =>
    simp only [List.foldl_cons]
    rcases List.mem_cons.mp hs with hsx | hsx
    · subst hsx
      rw [foldl_set_getD_of_ne xs pos v _ _ _ ?_]
      · rw [List.getD_eq_getElem _ _ (by simp; exact hbd s (by simp)),
          List.getElem_set_eq (by simpa using hbd s (by simp))]
      · intro y hy
        have := (List.nodup_cons.mp hnd).1
        intro hcon
        exact this (hcon ▸ List.mem_map_of_mem pos hy)
    · refine ih _ ?_ ?_ hsx
      · exact (List.nodup_cons.mp hnd).2
      · intro y hy
        simpa using hbd y (by simp [hy])

/-! ### Machine-level lemmas: subscript cells, descending index lists, chains -/

theorem lget_replicate (N : Nat) (x : Int) (i : Int) (hi : i.toNat < N) :
    lget (List.replicate N x) i = x := by
  rw [lget, List.getD_eq_getElem _ _ (by simpa using hi)]
  simp

theorem lget_lset_eq (s : List Int) (i : Int) (v : Int) (hi : i.toNat < s.length) :
    lget (lset s i v) i = v := by
  rw [lget, lset, List.getD_eq_getElem _ _ (by simpa using hi)]
  simp [List.getElem_set_self]

theorem lget_lset_ne (s : List Int) (i j : Int) (v : Int) (hne : i.toNat ≠ j.toNat) :
    lget (lset s i v) j = lget s j := by
  rw [lget, lset, lget]
  rcases lt_or_ge j.toNat s.length with hlt | hge
  · rw [List.getD_eq_getElem (s.set i.toNat v) 0
        (show j.toNat < (s.set i.toNat v).length by simpa using hlt),
      List.getD_eq_getElem s 0 hlt]
    exact List.getElem_set_ne hne _
  · rw [List.getD_eq_default (s.set i.toNat v) 0
        (show (s.set i.toNat v).length ≤ j.toNat by simpa using hge),
      List.getD_eq_default s 0 hge]

theorem lset_lset (s : List Int) (i : Int) (a b : Int) :
    lset (lset s i a) i b = lset s i b := by
  rw [lset, lset, lset, List.set_set]

theorem lset_self (s : List Int) (i : Int) (v : Int) (hv : lget s i = v)
    (hi : i.toNat < s.length) : lset s i v = s := by
  subst hv
  refine List.ext_getElem (by simp [lset]) ?_
  intro k h1 h2
  simp only [lset] at h1 ⊢
  by_cases hk : i.toNat = k
  · subst hk
    rw [List.getElem_set_self]
    rw [lget, List.getD_eq_getElem _ _ hi]
  · rw [List.getElem_set_ne hk]

theorem lset_length (s : List Int) (i : Int) (v : Int) :
    (lset s i v).length = s.length := by
  simp [lset]

theorem getD_lset_nat (s : List Int) (i : Int) (v : Int) (j : Nat)
    (hne : i.toNat ≠ j) : (lset s i v).getD j 0 = s.getD j 0 := by
  rcases lt_or_ge j s.length with hlt | hge
  · rw [lset, List.getD_eq_getElem (s.set i.toNat v) 0
        (show j < (s.set i.toNat v).length by simpa using hlt),
      List.getD_eq_getElem s 0 hlt]
    exact List.getElem_set_ne hne _
  · rw [lset, List.getD_eq_default (s.set i.toNat v) 0
        (show (s.set i.toNat v).length ≤ j by simpa using hge),
      List.getD_eq_default s 0 hge]

theorem descI_length (hi lo : Int) : (descI hi lo).length = (hi - lo + 1).toNat := by
  simp [descI]

theorem mem_descI {x hi lo : Int} : x ∈ descI hi lo ↔ lo ≤ x ∧ x ≤ hi := by
  constructor
  · intro hx
    simp only [descI, List.mem_map, List.mem_range] at hx
    rcases hx with ⟨k, hk, rfl⟩
    omega
  · intro ⟨h1, h2⟩
    simp only [descI, List.mem_map, List.mem_range]
    exact ⟨(hi - x).toNat, by omega, by omega⟩

theorem nodup_descI (hi lo : Int) : (descI hi lo).Nodup := by
  rw [descI]
  refine List.Nodup.map ?_ (List.nodup_range _)
  intro a b hab
  simp only at hab
  omega

theorem descI_cons_top (hi lo : Int) (h : lo ≤ hi) :
    descI hi lo = hi :: descI (hi - 1) lo := by
  rw [descI, descI]
  have hlen : (hi - lo + 1).toNat = (hi - 1 - lo + 1).toNat + 1 := by omega
  rw [hlen, List.range_succ_eq_map]
  simp only [List.map_cons, List.map_map]
  congr 1
  · simp
  · refine List.map_congr_left ?_
    intro k _
    simp only [Function.comp_apply]
    push_cast
    ring

theorem descI_snoc_bottom (hi lo : Int) (h : lo ≤ hi) :
    descI hi lo = descI hi (lo + 1) ++ [lo] := by
  rw [descI, descI]
  have hlen : (hi - lo + 1).toNat = (hi - (lo + 1) + 1).toNat + 1 := by omega
  rw [hlen, List.range_succ, List.map_append]
  congr 1
  simp only [List.map_cons, List.map_nil]
  congr 1
  omega

theorem descI_map_succ (hi lo : Int) :
    (descI hi lo).map (fun x => x + 1) = descI (hi + 1) (lo + 1) := by
  rw [descI, descI]
  have hlen : (hi - lo + 1).toNat = (hi + 1 - (lo + 1) + 1).toNat := by omega
  rw [List.map_map, hlen]
  refine List.map_congr_left ?_
  intro k _
  simp only [Function.comp_apply]
  ring

theorem rangeI_snoc (d : Int) (hd : 0 ≤ d) :
    rangeI d ++ [d] = rangeI (d + 1) := by
  rw [rangeI, rangeI]
  have hlen : (d + 1).toNat = d.toNat + 1 := by omega
  rw [hlen, List.range_succ, List.map_append]
  congr 1
  simp only [List.map_cons, List.map_nil]
  congr 1
  omega

theorem chainI_ne_nil (N a : Nat) : chainI N a ≠ [] := by
  simp [chainI]

theorem mem_chainI {N a : Nat} (haN : a < N) {c : Int} :
    c ∈ chainI N a ↔ 0 ≤ c ∧ c < (N : Int) := by
  simp only [chainI, List.mem_cons, List.mem_append, mem_descI]
  omega

theorem nodup_chainI (N a : Nat) (haN : a < N) : (chainI N a).Nodup := by
  rw [chainI]
  refine List.nodup_cons.mpr ⟨?_, ?_⟩
  · simp only [List.mem_append, mem_descI]
    omega
  · refine List.Nodup.append (nodup_descI _ _) (nodup_descI _ _) ?_
    intro x hx hy
    rw [mem_descI] at hx hy
    omega

theorem descI_getLast? (hi lo : Int) (h : lo ≤ hi) :
    (descI hi lo).getLast? = some lo := by
  rw [descI_snoc_bottom hi lo h, List.getLast?_concat]

theorem chainI_getLast? (N a : Nat) (haN : a < N) :
    (chainI N a).getLast? = some (if 0 < a then (0 : Int) else if 1 < N then 1 else 0) := by
  rw [chainI]
  by_cases ha : 0 < a
  · rw [if_pos ha]
    rw [show ((a : Int) :: (descI ((N : Int) - 1) ((a : Int) + 1) ++ descI ((a : Int) - 1) 0))
        = [(a : Int)] ++ (descI ((N : Int) - 1) ((a : Int) + 1) ++ descI ((a : Int) - 1) 0)
        from rfl]
    rw [List.getLast?_append, List.getLast?_append]
    rw [descI_getLast? ((a : Int) - 1) 0 (by omega)]
    simp
  · rw [if_neg ha]
    have ha0 : a = 0 := by omega
    subst ha0
    have hd0 : descI (((0 : Nat) : Int) - 1) 0 = [] := by
      rw [descI]
      norm_num
    rw [hd0, List.append_nil]
    by_cases hN : 1 < N
    · rw [if_pos hN]
      rw [show (((0 : Nat) : Int) :: descI ((N : Int) - 1) (((0 : Nat) : Int) + 1))
          = [((0 : Nat) : Int)] ++ descI ((N : Int) - 1) (((0 : Nat) : Int) + 1) from rfl]
      rw [List.getLast?_append]
      rw [show (((0 : Nat) : Int) + 1) = (1 : Int) by norm_num]
      rw [descI_getLast? ((N : Int) - 1) 1 (by push_cast; omega)]
      simp
    · rw [if_neg hN]
      have hN1 : N = 1 := by omega
      subst hN1
      have hdesc : descI (((1 : Nat) : Int) - 1) (((0 : Nat) : Int) + 1) = [] := by
        rw [descI]
        norm_num
      rw [hdesc]
      simp

/-! ### The bounded increment on the standard band `(-1, dims)` -/

theorem getD_replicate_zero (n i : Nat) : (List.replicate n (0 : Int)).getD i 0 = 0 := by
  rcases lt_or_ge i n with h | h
  · rw [List.getD_eq_getElem _ _ (by simpa using h)]
    simp
  · rw [List.getD_eq_default _ _ (by simpa using h)]

theorem inc_subscript_lt (minE maxE : List Int) (mjr : Int) (s : List Int) (i : Int)
    (h : lget s i + 1 < lget maxE i) :
    inc_subscript minE maxE mjr s i = (lset s i (lget s i + 1), false) := by
  simp only [inc_subscript]
  rw [if_pos (show lget s i < lget maxE i by omega)]
  rw [if_neg (show ¬(lget s i + 1 = lget maxE i) by omega)]

theorem inc_subscript_carry (minE maxE : List Int) (mjr : Int) (s : List Int) (i : Int)
    (hlt : lget s i < lget maxE i) (heq : lget s i + 1 = lget maxE i)
    (hmin : lget minE i = -1) (hne : i ≠ mjr) :
    inc_subscript minE maxE mjr s i = (lset s i 0, true) := by
  simp only [inc_subscript]
  rw [if_pos hlt, if_pos heq, if_pos hne, hmin]
  norm_num

theorem inc_subscript_carry_major (minE maxE : List Int) (s : List Int) (i : Int)
    (hlt : lget s i < lget maxE i) (heq : lget s i + 1 = lget maxE i) :
    inc_subscript minE maxE i s i = (lset s i (lget maxE i), true) := by
  simp only [inc_subscript]
  rw [if_pos hlt, if_pos heq, if_neg (show ¬ i ≠ i by simp), heq]

/-! ### Gluing `Chain'` facts across `flatMap` blocks -/

theorem chain_flatMap_of {α β : Type} (R : β → β → Prop) (S : α → α → Prop)
    (f : α → List β) :
    ∀ l : List α,
    (∀ a ∈ l, (f a).Chain' R) →
    (∀ a ∈ l, f a ≠ []) →
    l.Chain' S →
    (∀ a ∈ l, ∀ b ∈ l, S a b → ∀ x ∈ (f a).getLast?, ∀ y ∈ (f b).head?, R x y) →
    (l.flatMap f).Chain' R
  | [], _, _, _, _ => by simp
  | [a], hblk, _, _, _ => by simpa using hblk a (by simp)
  | a :: b :: l, hblk, hne, hS, hcross => by
    rw [List.flatMap_cons, List.chain'_append]
    refine ⟨hblk a (by simp), ?_, ?_⟩
    · exact chain_flatMap_of R S f (b :: l) (fun x hx => hblk x (List.mem_cons_of_mem a hx))
        (fun x hx => hne x (List.mem_cons_of_mem a hx)) hS.tail
        (fun x hx y hy hxy =>
          hcross x (List.mem_cons_of_mem a hx) y (List.mem_cons_of_mem a hy) hxy)
    · intro x hx y hy
      obtain ⟨c, L, hcL⟩ := List.exists_cons_of_ne_nil (hne b (by simp))
      have hhead : ((b :: l).flatMap f).head? = some c := by
        rw [List.flatMap_cons, hcL]
        simp
      rw [hhead] at hy
      have hcy : c = y := by simpa using hy
      subst hcy
      refine hcross a (by simp) b (by simp) (List.chain'_cons.mp hS).1 x hx c ?_
      rw [hcL]
      simp

theorem chain_map_rangeI {β : Type} (R : β → β → Prop) (g : Int → β) (d : Int)
    (h : ∀ j : Int, 0 ≤ j → j + 1 < d → R (g j) (g (j + 1))) :
    ((rangeI d).map g).Chain' R := by
  rw [List.chain'_map, rangeI, List.chain'_map]
  rcases hn : d.toNat with _ | n
  · simp
  · rw [List.chain'_range_succ]
    intro m hm
    have h2 : ((m : Int)) + 1 < d := by omega
    have := h m (by omega) h2
    simpa using this

/-! ### Ends of blocks and of block lists -/

theorem flatMap_head_some {α β : Type} (f : α → List β) :
    ∀ l : List α, (∀ a ∈ l, f a ≠ []) →
      (l.flatMap f).head? = l.head?.bind (fun a => (f a).head?)
  | [], _ => by simp
  | a :: l, hne => by
    rw [List.flatMap_cons, List.head?_append]
    obtain ⟨c, L, hcL⟩ := List.exists_cons_of_ne_nil (hne a (by simp))
    simp [hcL]

theorem flatMap_getLast_some {α β : Type} (f : α → List β) :
    ∀ l : List α, (∀ a ∈ l, f a ≠ []) →
      (l.flatMap f).getLast? = l.getLast?.bind (fun a => (f a).getLast?)
  | [], _ => by simp
  | [a], _ => by simp
  | a :: b :: l, hne => by
    rw [List.flatMap_cons, List.getLast?_append,
      flatMap_getLast_some f (b :: l) (fun x hx => hne x (List.mem_cons_of_mem a hx))]
    have hbl : (b :: l) ≠ [] := by simp
    obtain ⟨x, hx⟩ : ∃ x, (b :: l).getLast? = some x :=
      ⟨(b :: l).getLast hbl, List.getLast?_eq_getLast _ hbl⟩
    have hxm : x ∈ b :: l := by
      have := List.getLast_mem hbl
      rw [List.getLast?_eq_getLast _ hbl] at hx
      injection hx with h
      rw [← h]
      exact this
    obtain ⟨c, L, hcL⟩ := List.exists_cons_of_ne_nil (hne x (List.mem_cons_of_mem a hxm))
    have hfc : ∃ v, (f x).getLast? = some v := by
      rw [hcL]
      exact ⟨(c :: L).getLast (by simp), List.getLast?_eq_getLast _ (by simp)⟩
    obtain ⟨v, hv⟩ := hfc
    rw [List.getLast?_cons_cons, hx]
    simp [hv]

theorem rangeI_ne_nil (d : Int) (hd : 0 < d) : rangeI d ≠ [] := by
  intro h
  have := rangeI_length d
  rw [h] at this
  simp at this
  omega

theorem rangeI_head? (d : Int) (hd : 0 < d) : (rangeI d).head? = some 0 := by
  rw [rangeI]
  rcases hn : d.toNat with _ | n
  · omega
  · rw [List.range_succ_eq_map]
    simp

theorem rangeI_getLast? (d : Int) (hd : 0 < d) : (rangeI d).getLast? = some (d - 1) := by
  have h : rangeI (d - 1) ++ [d - 1] = rangeI d := by
    have h2 := rangeI_snoc (d - 1) (by omega)
    rw [show d - 1 + 1 = d by ring] at h2
    exact h2
  rw [← h, List.getLast?_concat]

/-! ### Invariants of the mixed-radix enumeration -/

theorem enum_chain_mem (dims : List Int) :
    ∀ ch : List Int, (∀ c ∈ ch, 0 ≤ c ∧ c < (dims.length : Int)) → ch.Nodup →
    ∀ s ∈ enum_chain dims ch,
      s.length = dims.length ∧
      (∀ i : Nat, ((i : Int) ∉ ch) → s.getD i 0 = 0) ∧
      ∀ c ∈ ch, 0 ≤ lget s c ∧ lget s c < lget dims c
  | [], _, _ => by
    intro s hs
    simp only [enum_chain, List.mem_singleton] at hs
    subst hs
    exact ⟨by simp, fun i _ => getD_replicate_zero _ _, by simp⟩
  | c :: rest, hv, hnd => by
    intro s hs
    simp only [enum_chain, List.mem_flatMap, List.mem_map] at hs
    obtain ⟨s', hs', j, hj, rfl⟩ := hs
    rw [mem_rangeI] at hj
    have hvr : ∀ x ∈ rest, 0 ≤ x ∧ x < (dims.length : Int) :=
      fun x hx => hv x (List.mem_cons_of_mem c hx)
    have ih := enum_chain_mem dims rest hvr (List.nodup_cons.mp hnd).2 s' hs'
    have hc := hv c (by simp)
    have hcN : c.toNat < dims.length := by omega
    have hlen : s'.length = dims.length := ih.1
    refine ⟨by rw [lset_length, hlen], ?_, ?_⟩
    · intro i hi
      have hic : (i : Int) ≠ c := fun h => hi (by rw [h]; exact List.mem_cons_self c rest)
      rw [getD_lset_nat s' c j i (by omega)]
      exact ih.2.1 i (fun h => hi (List.mem_cons_of_mem c h))
    · intro x hx
      rcases List.mem_cons.mp hx with hxc | hxr
      · subst hxc
        rw [lget_lset_eq s' x j (by omega)]
        exact hj
      · have hxne : x ≠ c := fun h => (List.nodup_cons.mp hnd).1 (h ▸ hxr)
        have hx0 := hvr x hxr
        rw [lget_lset_ne s' c x j (by omega)]
        exact ih.2.2 x hxr

theorem enum_chain_chain (dims : List Int) (hpos : dims_pos dims) (mjr : Int) :
    ∀ ch : List Int,
    (∀ c ∈ ch, 0 ≤ c ∧ c < (dims.length : Int)) → ch.Nodup →
    (ch ≠ [] → ch.getLast? = some mjr) →
    (enum_chain dims ch).Chain'
      (fun a b => inc_chain (List.replicate dims.length (-1)) dims mjr ch a = b)
  | [], _, _, _ => by
    simp only [enum_chain]
    exact List.chain'_singleton _
  | c :: rest, hv, hnd, hlast => by
    have hc := hv c (by simp)
    have hcN : c.toNat < dims.length := by omega
    have hd : 0 < lget dims c := by
      rw [lget, List.getD_eq_getElem _ _ hcN]
      exact hpos _ (List.getElem_mem _)
    have hvr : ∀ x ∈ rest, 0 ≤ x ∧ x < (dims.length : Int) :=
      fun x hx => hv x (List.mem_cons_of_mem c hx)
    have hndr := (List.nodup_cons.mp hnd).2
    have hcnr := (List.nodup_cons.mp hnd).1
    have hwithin : ∀ s : List Int, s.length = dims.length →
        ∀ j : Int, 0 ≤ j → j + 1 < lget dims c →
        inc_chain (List.replicate dims.length (-1)) dims mjr (c :: rest) (lset s c j)
          = lset s c (j + 1) := by
      intro s hsl j hj0 hj1
      have hgl : lget (lset s c j) c = j := lget_lset_eq s c j (by omega)
      have hlt : lget (lset s c j) c + 1 < lget dims c := by omega
      simp only [inc_chain]
      rw [inc_subscript_lt _ _ _ _ _ hlt]
      show lset (lset s c j) c (lget (lset s c j) c + 1) = lset s c (j + 1)
      rw [hgl, lset_lset]
    by_cases hre : rest = []
    · subst hre
      have hmj : mjr = c := by
        have h := hlast (by simp)
        simp at h
        omega
      simp only [enum_chain, List.flatMap_cons, List.flatMap_nil, List.append_nil]
      refine chain_map_rangeI _ _ _ ?_
      intro j hj0 hj1
      exact hwithin _ (by simp) j hj0 hj1
    · show ((enum_chain dims rest).flatMap
        (fun s => (rangeI (lget dims c)).map (fun j => lset s c j))).Chain' _
      refine chain_flatMap_of _
        (fun a b => inc_chain (List.replicate dims.length (-1)) dims mjr rest a = b) _
        (enum_chain dims rest) ?_ ?_ ?_ ?_
      · intro s hs
        have hm := enum_chain_mem dims rest hvr hndr s hs
        exact chain_map_rangeI _ _ _ (fun j hj0 hj1 => hwithin s hm.1 j hj0 hj1)
      · intro s _ hcon
        exact rangeI_ne_nil _ hd (List.map_eq_nil_iff.mp hcon)
      · refine enum_chain_chain dims hpos mjr rest hvr hndr ?_
        intro _
        obtain ⟨x, L, rfl⟩ := List.exists_cons_of_ne_nil hre
        have h := hlast (by simp)
        rwa [List.getLast?_cons_cons] at h
      · intro a ha b hb hS x hx y hy
        rw [List.getLast?_map, rangeI_getLast? _ hd] at hx
        rw [List.head?_map, rangeI_head? _ hd] at hy
        simp only [Option.map_some', Option.mem_def, Option.some_inj] at hx hy
        subst hx
        subst hy
        have hcm : c ≠ mjr := by
          intro hcm
          obtain ⟨x', L', rfl⟩ := List.exists_cons_of_ne_nil hre
          have h := hlast (by simp)
          rw [List.getLast?_cons_cons, List.getLast?_eq_getLast _ (by simp)] at h
          have hmem : mjr ∈ x' :: L' := by
            rw [← Option.some_inj.mp h]
            exact List.getLast_mem (by simp)
          exact hcnr (hcm ▸ hmem)
        have hma := enum_chain_mem dims rest hvr hndr a ha
        have hmb := enum_chain_mem dims rest hvr hndr b hb
        have haz : lget a c = 0 := by
          rw [lget]
          exact hma.2.1 c.toNat (by rw [Int.toNat_of_nonneg hc.1]; exact hcnr)
        have hbz : lget b c = 0 := by
          rw [lget]
          exact hmb.2.1 c.toNat (by rw [Int.toNat_of_nonneg hc.1]; exact hcnr)
        have hgl : lget (lset a c (lget dims c - 1)) c = lget dims c - 1 :=
          lget_lset_eq a c _ (by rw [hma.1]; exact hcN)
        simp only [inc_chain]
        rw [inc_subscript_carry _ _ _ _ _ (by omega) (by omega)
          (lget_replicate _ _ _ hcN) hcm]
        show inc_chain (List.replicate dims.length (-1)) dims mjr rest
            (lset (lset a c (lget dims c - 1)) c 0) = lset b c 0
        rw [lset_lset, lset_self a c 0 haz (by rw [hma.1]; exact hcN), hS,
          lset_self b c 0 hbz (by rw [hmb.1]; exact hcN)]

theorem lget_dims_pos (dims : List Int) (hpos : dims_pos dims) (c : Int)
    (hcN : c.toNat < dims.length) : 0 < lget dims c := by
  rw [lget, List.getD_eq_getElem _ _ hcN]
  exact hpos _ (List.getElem_mem _)

theorem enum_chain_head (dims : List Int) (hpos : dims_pos dims) :
    ∀ ch : List Int, (∀ c ∈ ch, 0 ≤ c ∧ c < (dims.length : Int)) →
    (enum_chain dims ch).head? = some (List.replicate dims.length 0)
  | [], _ => by simp [enum_chain]
  | c :: rest, hv => by
    have hc := hv c (by simp)
    have hcN : c.toNat < dims.length := by omega
    have hd : 0 < lget dims c := lget_dims_pos dims hpos c hcN
    have ih := enum_chain_head dims hpos rest (fun x hx => hv x (List.mem_cons_of_mem c hx))
    show ((enum_chain dims rest).flatMap
      (fun s => (rangeI (lget dims c)).map (fun j => lset s c j))).head? = _
    rw [flatMap_head_some _ _ (fun s _ hcon => rangeI_ne_nil _ hd (List.map_eq_nil_iff.mp hcon)),
      ih, Option.some_bind, List.head?_map, rangeI_head? _ hd, Option.map_some']
    rw [lset_self _ _ _ (by rw [lget]; exact getD_replicate_zero _ _) (by simpa using hcN)]

theorem enum_chain_getLast (dims : List Int) (hpos : dims_pos dims) :
    ∀ ch : List Int, (∀ c ∈ ch, 0 ≤ c ∧ c < (dims.length : Int)) → ch.Nodup →
    ∃ s, (enum_chain dims ch).getLast? = some s ∧ s.length = dims.length ∧
      ∀ c ∈ ch, lget s c = lget dims c - 1
  | [], _, _ => ⟨List.replicate dims.length 0, by simp [enum_chain], by simp, by simp⟩
  | c :: rest, hv, hnd => by
    have hc := hv c (by simp)
    have hcN : c.toNat < dims.length := by omega
    have hd : 0 < lget dims c := lget_dims_pos dims hpos c hcN
    have hcnr := (List.nodup_cons.mp hnd).1
    obtain ⟨s, hs, hsl, hsp⟩ := enum_chain_getLast dims hpos rest
      (fun x hx => hv x (List.mem_cons_of_mem c hx)) (List.nodup_cons.mp hnd).2
    refine ⟨lset s c (lget dims c - 1), ?_, by rw [lset_length, hsl], ?_⟩
    · show ((enum_chain dims rest).flatMap
        (fun s => (rangeI (lget dims c)).map (fun j => lset s c j))).getLast? = _
      rw [flatMap_getLast_some _ _
          (fun x _ hcon => rangeI_ne_nil _ hd (List.map_eq_nil_iff.mp hcon)),
        hs, Option.some_bind, List.getLast?_map, rangeI_getLast? _ hd, Option.map_some']
    · intro x hx
      rcases List.mem_cons.mp hx with hxc | hxr
      · subst hxc
        exact lget_lset_eq s x _ (by rw [hsl]; exact hcN)
      · have hxv := hv x hx
        have hxne : x ≠ c := fun h => hcnr (h ▸ hxr)
        rw [lget_lset_ne s c x _ (by omega)]
        exact hsp x hxr

theorem inc_chain_last_major (dims : List Int) (hpos : dims_pos dims) (mjr : Int) :
    ∀ ch : List Int, ch.getLast? = some mjr →
    (∀ c ∈ ch, 0 ≤ c ∧ c < (dims.length : Int)) → ch.Nodup →
    ∀ s : List Int, s.length = dims.length →
    (∀ c ∈ ch, lget s c = lget dims c - 1) →
    lget (inc_chain (List.replicate dims.length (-1)) dims mjr ch s) mjr
      = lget dims mjr
  | [], hlast, _, _ => by simp at hlast
  | [c], hlast, hv, _ => by
    intro s hsl hsp
    have hc := hv c (by simp)
    have hcN : c.toNat < dims.length := by omega
    have hd : 0 < lget dims c := lget_dims_pos dims hpos c hcN
    have hmc : mjr = c := by simpa using hlast.symm
    subst hmc
    have hsc : lget s mjr = lget dims mjr - 1 := hsp mjr (by simp)
    simp only [inc_chain]
    rw [inc_subscript_carry_major _ _ _ _ (by omega) (by omega)]
    show lget (lset s mjr (lget dims mjr)) mjr = lget dims mjr
    exact lget_lset_eq s mjr _ (by rw [hsl]; exact hcN)
  | c :: c2 :: rest, hlast, hv, hnd => by
    intro s hsl hsp
    have hc := hv c (by simp)
    have hcN : c.toNat < dims.length := by omega
    have hd : 0 < lget dims c := lget_dims_pos dims hpos c hcN
    have hcnr : c ∉ c2 :: rest := (List.nodup_cons.mp hnd).1
    have hmem : mjr ∈ c2 :: rest := by
      rw [List.getLast?_cons_cons, List.getLast?_eq_getLast _ (by simp)] at hlast
      rw [Option.some_inj.mp hlast.symm]
      exact List.getLast_mem (by simp)
    have hcm : c ≠ mjr := fun h => hcnr (h ▸ hmem)
    have hsc : lget s c = lget dims c - 1 := hsp c (by simp)
    simp only [inc_chain]
    rw [inc_subscript_carry _ _ _ _ _ (by omega) (by omega)
      (lget_replicate _ _ _ hcN) hcm]
    show lget (inc_chain (List.replicate dims.length (-1)) dims mjr (c2 :: rest)
      (lset s c 0)) mjr = lget dims mjr
    refine inc_chain_last_major dims hpos mjr (c2 :: rest)
      (by rw [← List.getLast?_cons_cons (a := c)]; exact hlast)
      (fun x hx => hv x (List.mem_cons_of_mem c hx)) (List.nodup_cons.mp hnd).2
      (lset s c 0) (by rw [lset_length, hsl]) ?_
    intro x hx
    have hxv := hv x (List.mem_cons_of_mem c hx)
    have hxne : x ≠ c := fun h => hcnr (h ▸ hx)
    rw [lget_lset_ne s c x 0 (by omega)]
    exact hsp x (List.mem_cons_of_mem c hx)

/-! ### Extracting a cursor walk from a `Chain'` certificate -/

theorem iter_next_subs (st : SubsIter) : (iter_next st).subs = iter_step_subs st st.subs := rfl

theorem iter_step_subs_next (st : SubsIter) (s : List Int) :
    iter_step_subs (iter_next st) s = iter_step_subs st s := rfl

theorem iter_in_range_subs_next (st : SubsIter) (s : List Int) :
    iter_in_range_subs (iter_next st) s = iter_in_range_subs st s := rfl

theorem iter_walk_of_chain :
    ∀ (l : List (List Int)) (st : SubsIter) (fuel : Nat),
    l.head? = some st.subs →
    (∀ s ∈ l, iter_in_range_subs st s = true) →
    l.Chain' (fun a b => iter_step_subs st a = b) →
    (∀ x, l.getLast? = some x → iter_in_range_subs st (iter_step_subs st x) = false) →
    l.length ≤ fuel →
    iter_walk fuel st = l
  | [], _, _, hhead, _, _, _, _ => by simp at hhead
  | [a], st, fuel, hhead, hinr, _, hlast, hfuel => by
    have ha : a = st.subs := by simpa using hhead
    rcases fuel with _ | n
    · simp at hfuel
    · rw [iter_walk, if_pos (show iter_in_range st = true by
        show iter_in_range_subs st st.subs = true
        rw [← ha]
        exact hinr a (by simp))]
      rw [show st.subs = a from ha.symm]
      rcases n with _ | m
      · rw [iter_walk]
      · rw [iter_walk, if_neg ?_]
        show ¬ iter_in_range_subs (iter_next st) (iter_next st).subs = true
        rw [iter_in_range_subs_next, iter_next_subs, ← ha]
        rw [hlast a (by simp)]
        simp
  | a :: b :: l, st, fuel, hhead, hinr, hchain, hlast, hfuel => by
    have ha : a = st.subs := by simpa using hhead
    rcases fuel with _ | n
    · simp at hfuel
    · rw [iter_walk, if_pos (show iter_in_range st = true by
        show iter_in_range_subs st st.subs = true
        rw [← ha]
        exact hinr a (by simp))]
      rw [show st.subs = a from ha.symm]
      have hab : iter_step_subs st a = b := (List.chain'_cons.mp hchain).1
      have hrec := iter_walk_of_chain (b :: l) (iter_next st) n
        (by rw [iter_next_subs, ← ha, hab]; simp)
        (fun s hs => by rw [iter_in_range_subs_next]; exact hinr s (List.mem_cons_of_mem a hs))
        (by
          refine List.Chain'.imp ?_ (List.chain'_cons.mp hchain).2
          intro x y hxy
          rw [iter_step_subs_next]
          exact hxy)
        (fun x hx => by
          rw [iter_in_range_subs_next, iter_step_subs_next]
          exact hlast x (by rw [← List.getLast?_cons_cons (a := a)] at hx; exact hx))
        (by simpa using Nat.le_of_succ_le_succ hfuel)
      rw [hrec]

/-! ### The fields of the default and axis cursors -/

theorem find_major_pos (axisv nsubs : Int) (minE dims : List Int)
    (hd0 : lget dims (if axisv > 0 then 0 else if nsubs > 1 then 1 else 0) ≠ 0) :
    find_major_axis axisv nsubs minE dims
      = if axisv > 0 then 0 else if nsubs > 1 then 1 else 0 := by
  simp only [find_major_axis]
  exact if_neg (fun h => hd0 h.2)

theorem mjr0_default (N : Nat) (hN : 0 < N) :
    (if ((N : Int) - 1) > 0 then (0 : Int) else if (N : Int) > 1 then 1 else 0) = 0 := by
  by_cases h : ((N : Int) - 1) > 0
  · rw [if_pos h]
  · rw [if_neg h, if_neg (by omega)]

theorem mk_iter_default_fields (dims : List Int) (hne : dims ≠ []) (hpos : dims_pos dims) :
    mk_iter_default dims = SubsIter.mk (dims.length : Int) (List.replicate dims.length 0)
      (List.replicate dims.length 0) (List.replicate dims.length (-1)) dims
      ((dims.length : Int) - 1) [] 0 := by
  have hlen : 0 < dims.length := List.length_pos.mpr hne
  have h0 : 0 < lget dims 0 := lget_dims_pos dims hpos 0 (by simpa using hlen)
  have hne0 : ¬ dims.length = 0 := by omega
  simp only [mk_iter_default, mk_iter_order, iter_subs_init, iter_min_init, iter_max_init,
    List.length_nil, Nat.zero_max, ge_iff_le, Nat.le_zero, hne0, hne, if_false, ite_false,
    ne_eq, not_true_eq_false, not_false_eq_true, ite_true, if_true]
  rw [find_major_pos _ _ _ _ (by rw [mjr0_default dims.length hlen]; omega)]
  rw [mjr0_default dims.length hlen]

theorem mk_iter_axis_fields (dims : List Int) (axis : Int) (hne : dims ≠ [])
    (hpos : dims_pos dims) :
    mk_iter_axis [] [] dims axis = SubsIter.mk (dims.length : Int)
      (List.replicate dims.length 0) (List.replicate dims.length 0)
      (List.replicate dims.length (-1)) dims (modulo axis (dims.length : Int)) []
      (if modulo axis (dims.length : Int) > 0 then 0
       else if (dims.length : Int) > 1 then 1 else 0) := by
  have hlen : 0 < dims.length := List.length_pos.mpr hne
  have hne0 : ¬ dims.length = 0 := by omega
  have hd0 : lget dims (if modulo axis (dims.length : Int) > 0 then 0
      else if (dims.length : Int) > 1 then 1 else 0) ≠ 0 := by
    have h0 : 0 < lget dims 0 := lget_dims_pos dims hpos 0 (by simpa using hlen)
    by_cases h : modulo axis (dims.length : Int) > 0
    · rw [if_pos h]; omega
    · rw [if_neg h]
      by_cases h1 : (dims.length : Int) > 1
      · rw [if_pos h1]
        have := lget_dims_pos dims hpos 1 (by omega)
        omega
      · rw [if_neg h1]; omega
  simp only [mk_iter_axis, iter_subs_init, iter_min_init, iter_max_init,
    List.length_nil, Nat.zero_max, hne0, hne, if_false, ite_false,
    ne_eq, not_true_eq_false, not_false_eq_true, ite_true, if_true]
  rw [find_major_pos _ _ _ _ hd0]

theorem chain_of_iter_default (dims : List Int) (hne : dims ≠ []) (hpos : dims_pos dims) :
    chain_of_iter (mk_iter_default dims) = descI ((dims.length : Int) - 1) 0 := by
  have hlen : 0 < dims.length := List.length_pos.mpr hne
  rw [mk_iter_default_fields dims hne hpos, chain_of_iter]
  show ((dims.length : Int) - 1) :: (descI ((dims.length : Int) - 1)
      (((dims.length : Int) - 1) + 1) ++ descI (((dims.length : Int) - 1) - 1) 0) = _
  have h1 : descI ((dims.length : Int) - 1) (((dims.length : Int) - 1) + 1) = [] := by
    rw [descI, show ((dims.length : Int) - 1 - (((dims.length : Int) - 1) + 1) + 1) = 0 by ring]
    simp
  rw [h1, List.nil_append, descI_cons_top ((dims.length : Int) - 1) 0 (by omega)]

theorem chain_of_iter_axis (dims : List Int) (axis : Int) (hne : dims ≠ [])
    (hpos : dims_pos dims) :
    chain_of_iter (mk_iter_axis [] [] dims axis)
      = chainI dims.length (modulo axis (dims.length : Int)).toNat := by
  have hlen : 0 < dims.length := List.length_pos.mpr hne
  have ha0 : 0 ≤ modulo axis (dims.length : Int) := Int.emod_nonneg axis (by omega)
  rw [mk_iter_axis_fields dims axis hne hpos, chain_of_iter, chainI,
    Int.toNat_of_nonneg ha0]

/-! ### The default cursor walks the mixed-radix enumeration of its chain -/

theorem iter_walk_default_enum (dims : List Int) (hne : dims ≠ []) (hpos : dims_pos dims)
    (fuel : Nat)
    (hfuel : (enum_chain dims (descI ((dims.length : Int) - 1) 0)).length ≤ fuel) :
    iter_walk fuel (mk_iter_default dims)
      = enum_chain dims (descI ((dims.length : Int) - 1) 0) := by
  have hlen : 0 < dims.length := List.length_pos.mpr hne
  have hvch : ∀ c ∈ descI ((dims.length : Int) - 1) 0, 0 ≤ c ∧ c < (dims.length : Int) := by
    intro c hc
    rw [mem_descI] at hc
    omega
  have hndch := nodup_descI ((dims.length : Int) - 1) 0
  have hlast : (descI ((dims.length : Int) - 1) 0).getLast? = some 0 :=
    descI_getLast? _ _ (by omega)
  have h0N : (0 : Int).toNat < dims.length := by simpa using hlen
  have hord : (mk_iter_default dims).order = [] := by
    rw [mk_iter_default_fields dims hne hpos]
  have hminE : (mk_iter_default dims).minExcl = List.replicate dims.length (-1) := by
    rw [mk_iter_default_fields dims hne hpos]
  have hmaxE : (mk_iter_default dims).maxExcl = dims := by
    rw [mk_iter_default_fields dims hne hpos]
  have hmjr : (mk_iter_default dims).major = 0 := by
    rw [mk_iter_default_fields dims hne hpos]
  have hsubs : (mk_iter_default dims).subs = List.replicate dims.length 0 := by
    rw [mk_iter_default_fields dims hne hpos]
  have hstep : ∀ s, iter_step_subs (mk_iter_default dims) s
      = inc_chain (List.replicate dims.length (-1)) dims 0
          (descI ((dims.length : Int) - 1) 0) s := by
    intro s
    rw [iter_step_subs, hord, if_neg (by simp), hminE, hmaxE, hmjr,
      chain_of_iter_default dims hne hpos]
  have hinr : ∀ s, iter_in_range_subs (mk_iter_default dims) s
      = decide (lget s 0 < lget dims 0 ∧ lget s 0 > -1) := by
    intro s
    rw [iter_in_range_subs, hord, if_neg (by simp), hmaxE, hmjr, hminE,
      lget_replicate _ _ _ h0N]
  refine iter_walk_of_chain _ _ _ ?_ ?_ ?_ ?_ hfuel
  · rw [enum_chain_head dims hpos _ hvch, hsubs]
  · intro s hs
    have hm := enum_chain_mem dims _ hvch hndch s hs
    have h0m : (0 : Int) ∈ descI ((dims.length : Int) - 1) 0 := by
      rw [mem_descI]
      omega
    have hb := hm.2.2 0 h0m
    rw [hinr s]
    simp only [decide_eq_true_eq]
    exact ⟨hb.2, by omega⟩
  · refine List.Chain'.imp ?_ (enum_chain_chain dims hpos 0 _ hvch hndch (fun _ => hlast))
    intro a b hab
    rw [hstep a]
    exact hab
  · intro x hx
    obtain ⟨s, hs, hsl, hsp⟩ := enum_chain_getLast dims hpos _ hvch hndch
    rw [hs] at hx
    have hxs : s = x := by simpa using hx
    subst hxs
    rw [hstep, hinr]
    have hout := inc_chain_last_major dims hpos 0 _ hlast hvch hndch s hsl hsp
    rw [hout]
    simp

theorem iter_walk_axis_enum (dims : List Int) (axis : Int) (hne : dims ≠ [])
    (hpos : dims_pos dims) (fuel : Nat)
    (hfuel : (enum_chain dims
      (chainI dims.length (modulo axis (dims.length : Int)).toNat)).length ≤ fuel) :
    iter_walk fuel (mk_iter_axis [] [] dims axis)
      = enum_chain dims (chainI dims.length (modulo axis (dims.length : Int)).toNat) := by
  have hlen : 0 < dims.length := List.length_pos.mpr hne
  have ha0 : 0 ≤ modulo axis (dims.length : Int) := Int.emod_nonneg axis (by omega)
  have hmod : modulo axis (dims.length : Int) = axis % (dims.length : Int) := rfl
  have haN : (modulo axis (dims.length : Int)).toNat < dims.length := by
    have := Int.emod_lt_of_pos axis (show (0 : Int) < (dims.length : Int) by omega)
    omega
  have hvch : ∀ c ∈ chainI dims.length (modulo axis (dims.length : Int)).toNat,
      0 ≤ c ∧ c < (dims.length : Int) := by
    intro c hc
    rw [mem_chainI haN] at hc
    exact hc
  have hndch := nodup_chainI dims.length (modulo axis (dims.length : Int)).toNat haN
  have hlast := chainI_getLast? dims.length (modulo axis (dims.length : Int)).toNat haN
  have hmjreq : (if modulo axis (dims.length : Int) > 0 then (0 : Int)
      else if (dims.length : Int) > 1 then 1 else 0)
      = (if 0 < (modulo axis (dims.length : Int)).toNat then (0 : Int)
         else if 1 < dims.length then 1 else 0) := by
    by_cases h1 : modulo axis (dims.length : Int) > 0
    · rw [if_pos h1, if_pos (show 0 < (modulo axis (dims.length : Int)).toNat by omega)]
    · rw [if_neg h1, if_neg (show ¬ 0 < (modulo axis (dims.length : Int)).toNat by omega)]
      by_cases h2 : (dims.length : Int) > 1
      · rw [if_pos h2, if_pos (show 1 < dims.length by omega)]
      · rw [if_neg h2, if_neg (show ¬ 1 < dims.length by omega)]
  have hMb : 0 ≤ (if 0 < (modulo axis (dims.length : Int)).toNat then (0 : Int)
      else if 1 < dims.length then 1 else 0)
      ∧ (if 0 < (modulo axis (dims.length : Int)).toNat then (0 : Int)
         else if 1 < dims.length then 1 else 0) < (dims.length : Int) := by
    constructor
    · split
      · omega
      · split
        · omega
        · omega
    · split
      · omega
      · split
        · omega
        · omega
  have hMN : (if 0 < (modulo axis (dims.length : Int)).toNat then (0 : Int)
      else if 1 < dims.length then 1 else 0).toNat < dims.length := by omega
  have hord : (mk_iter_axis [] [] dims axis).order = [] := by
    rw [mk_iter_axis_fields dims axis hne hpos]
  have hminE : (mk_iter_axis [] [] dims axis).minExcl = List.replicate dims.length (-1) := by
    rw [mk_iter_axis_fields dims axis hne hpos]
  have hmaxE : (mk_iter_axis [] [] dims axis).maxExcl = dims := by
    rw [mk_iter_axis_fields dims axis hne hpos]
  have hmjr : (mk_iter_axis [] [] dims axis).major
      = (if 0 < (modulo axis (dims.length : Int)).toNat then (0 : Int)
         else if 1 < dims.length then 1 else 0) := by
    rw [mk_iter_axis_fields dims axis hne hpos, ← hmjreq]
  have hsubs : (mk_iter_axis [] [] dims axis).subs = List.replicate dims.length 0 := by
    rw [mk_iter_axis_fields dims axis hne hpos]
  have hstep : ∀ s, iter_step_subs (mk_iter_axis [] [] dims axis) s
      = inc_chain (List.replicate dims.length (-1)) dims
          (if 0 < (modulo axis (dims.length : Int)).toNat then (0 : Int)
           else if 1 < dims.length then 1 else 0)
          (chainI dims.length (modulo axis (dims.length : Int)).toNat) s := by
    intro s
    rw [iter_step_subs, hord, if_neg (by simp), hminE, hmaxE, hmjr,
      chain_of_iter_axis dims axis hne hpos]
  have hinr : ∀ s, iter_in_range_subs (mk_iter_axis [] [] dims axis) s
      = decide (lget s (if 0 < (modulo axis (dims.length : Int)).toNat then (0 : Int)
          else if 1 < dims.length then 1 else 0)
        < lget dims (if 0 < (modulo axis (dims.length : Int)).toNat then (0 : Int)
          else if 1 < dims.length then 1 else 0)
        ∧ lget s (if 0 < (modulo axis (dims.length : Int)).toNat then (0 : Int)
          else if 1 < dims.length then 1 else 0) > -1) := by
    intro s
    rw [iter_in_range_subs, hord, if_neg (by simp), hmaxE, hmjr, hminE,
      lget_replicate _ _ _ hMN]
  refine iter_walk_of_chain _ _ _ ?_ ?_ ?_ ?_ hfuel
  · rw [enum_chain_head dims hpos _ hvch, hsubs]
  · intro s hs
    have hm := enum_chain_mem dims _ hvch hndch s hs
    have hMm : (if 0 < (modulo axis (dims.length : Int)).toNat then (0 : Int)
        else if 1 < dims.length then 1 else 0)
        ∈ chainI dims.length (modulo axis (dims.length : Int)).toNat := by
      rw [mem_chainI haN]
      exact hMb
    have hb := hm.2.2 _ hMm
    rw [hinr s]
    simp only [decide_eq_true_eq]
    exact ⟨hb.2, by omega⟩
  · refine List.Chain'.imp ?_ (enum_chain_chain dims hpos _ _ hvch hndch (fun _ => hlast))
    intro a b hab
    rw [hstep a]
    exact hab
  · intro x hx
    obtain ⟨s, hs, hsl, hsp⟩ := enum_chain_getLast dims hpos _ hvch hndch
    rw [hs] at hx
    have hxs : s = x := by simpa using hx
    subst hxs
    rw [hstep, hinr]
    have hout := inc_chain_last_major dims hpos _ _ hlast hvch hndch s hsl hsp
    rw [hout]
    simp

/-! ### The enumeration of specific chains in terms of the row-major order -/

theorem flatMap_singleton_map {α β : Type} (f : α → β) :
    ∀ l : List α, (l.flatMap fun x => [f x]) = l.map f
  | [] => rfl
  | a :: l => by
    rw [List.flatMap_cons, List.map_cons, flatMap_singleton_map f l]
    rfl

theorem enum_chain_shift (d : Int) (ds : List Int) :
    ∀ ch : List Int, (∀ c ∈ ch, 0 ≤ c) →
    enum_chain (d :: ds) (ch.map (fun c => c + 1))
      = (enum_chain ds ch).map (fun s => 0 :: s)
  | [], _ => by simp [enum_chain, List.replicate_succ]
  | c :: rest, hv => by
    have hc : 0 ≤ c := hv c (by simp)
    have ih := enum_chain_shift d ds rest (fun x hx => hv x (List.mem_cons_of_mem c hx))
    rw [List.map_cons]
    show (enum_chain (d :: ds) (rest.map (fun c => c + 1))).flatMap
        (fun s => (rangeI (lget (d :: ds) (c + 1))).map (fun j => lset s (c + 1) j))
      = ((enum_chain ds rest).flatMap
        (fun s => (rangeI (lget ds c)).map (fun j => lset s c j))).map (fun s => 0 :: s)
    rw [ih, List.flatMap_map, List.map_flatMap]
    refine List.flatMap_congr ?_
    intro s _
    have hl : lget (d :: ds) (c + 1) = lget ds c := by
      rw [lget, lget, show (c + 1).toNat = c.toNat + 1 by omega]
      simp
    rw [hl, List.map_map]
    refine List.map_congr_left ?_
    intro j _
    show lset (0 :: s) (c + 1) j = 0 :: lset s c j
    rw [lset, lset, show (c + 1).toNat = c.toNat + 1 by omega]
    rfl

theorem enum_chain_append_last (dims : List Int) :
    ∀ ch : List Int, ∀ c : Int, 0 ≤ c → c ∉ ch → (∀ x ∈ ch, 0 ≤ x) →
    enum_chain dims (ch ++ [c])
      = (rangeI (lget dims c)).flatMap
          (fun j => (enum_chain dims ch).map (fun s => lset s c j))
  | [], c, hc0, _, _ => by
    simp only [List.nil_append, enum_chain, List.flatMap_cons, List.flatMap_nil,
      List.append_nil, List.map_cons, List.map_nil]
    rw [flatMap_singleton_map]
  | x :: ch2, c, hc0, hcn, hv => by
    have hx0 : 0 ≤ x := hv x (by simp)
    have hxc : x ≠ c := by
      intro h
      exact hcn (by simp [h])
    show (enum_chain dims (ch2 ++ [c])).flatMap
        (fun s => (rangeI (lget dims x)).map (fun j => lset s x j)) = _
    rw [enum_chain_append_last dims ch2 c hc0 (fun h => hcn (List.mem_cons_of_mem x h))
      (fun y hy => hv y (List.mem_cons_of_mem x hy))]
    rw [List.flatMap_assoc]
    refine List.flatMap_congr ?_
    intro j _
    rw [show enum_chain dims (x :: ch2) = (enum_chain dims ch2).flatMap
        (fun s => (rangeI (lget dims x)).map (fun j => lset s x j)) from rfl]
    rw [List.flatMap_map, List.map_flatMap]
    refine List.flatMap_congr ?_
    intro s _
    rw [List.map_map]
    refine List.map_congr_left ?_
    intro i _
    show lset (lset s c j) x i = lset (lset s x i) c j
    rw [lset, lset, lset, lset]
    exact List.set_comm _ _ _ (by omega)

theorem enum_chain_default (dims : List Int) :
    enum_chain dims (descI ((dims.length : Int) - 1) 0) = row_major_enum dims := by
  induction dims with
  | nil =>
    have h : descI (((List.length ([] : List Int)) : Int) - 1) 0 = [] := by
      rw [descI]
      norm_num
    rw [h]
    simp [enum_chain, row_major_enum]
  | cons d ds ih =>
    have hlen : (((d :: ds).length : Nat) : Int) - 1 = ((ds.length : Nat) : Int) := by
      simp
    rw [hlen, descI_snoc_bottom ((ds.length : Nat) : Int) 0 (by positivity),
      show ((0 : Int) + 1) = 1 by norm_num]
    rw [enum_chain_append_last (d :: ds) (descI ((ds.length : Nat) : Int) 1) 0 le_rfl
      (by rw [mem_descI]; omega)
      (fun y hy => by rw [mem_descI] at hy; omega)]
    have hdesc : descI ((ds.length : Nat) : Int) 1
        = (descI (((ds.length : Nat) : Int) - 1) 0).map (fun c => c + 1) := by
      have h2 := descI_map_succ (((ds.length : Nat) : Int) - 1) 0
      rw [show (((ds.length : Nat) : Int) - 1 + 1) = ((ds.length : Nat) : Int) by ring,
        show ((0 : Int) + 1) = 1 by norm_num] at h2
      exact h2.symm
    rw [hdesc, enum_chain_shift d ds _ (fun x hx => by rw [mem_descI] at hx; omega), ih]
    have hl0 : lget (d :: ds) 0 = d := by
      rw [lget]
      rfl
    rw [hl0]
    show _ = (rangeI d).flatMap (fun i => (row_major_enum ds).map (fun t => i :: t))
    refine List.flatMap_congr ?_
    intro j _
    rw [List.map_map]
    refine List.map_congr_left ?_
    intro t _
    show lset (0 :: t) 0 j = j :: t
    rw [lset]
    rfl

theorem chainI_succ (N a : Nat) :
    chainI (N + 1) (a + 1) = (chainI N a).map (fun c => c + 1) ++ [0] := by
  rw [chainI, chainI, List.map_cons, List.map_append, List.cons_append,
    descI_map_succ, descI_map_succ, List.append_assoc]
  have e0 : (((a + 1 : Nat)) : Int) = ((a : Nat) : Int) + 1 := by push_cast; ring
  have e1 : descI (((N + 1 : Nat) : Int) - 1) ((((a + 1 : Nat)) : Int) + 1)
      = descI (((N : Nat) : Int) - 1 + 1) (((a : Nat) : Int) + 1 + 1) := by
    rw [show (((N + 1 : Nat) : Int) - 1) = ((N : Nat) : Int) - 1 + 1 by push_cast; ring,
      show ((((a + 1 : Nat)) : Int) + 1) = ((a : Nat) : Int) + 1 + 1 by push_cast; ring]
  have e2 : descI ((((a + 1 : Nat)) : Int) - 1) 0
      = descI (((a : Nat) : Int) - 1 + 1) (0 + 1) ++ [0] := by
    rw [show ((((a + 1 : Nat)) : Int) - 1) = ((a : Nat) : Int) by push_cast; ring,
      show (((a : Nat) : Int) - 1 + 1) = ((a : Nat) : Int) by ring,
      show ((0 : Int) + 1) = 1 by norm_num]
    exact descI_snoc_bottom ((a : Nat) : Int) 0 (by positivity)
  rw [e1, e2, e0]

theorem enum_chain_axis :
    ∀ (a : Nat) (dims : List Int), a < dims.length →
    enum_chain dims (chainI dims.length a)
      = (row_major_enum (dims.eraseIdx a)).flatMap
          (fun t => (rangeI (lget dims ((a : Nat) : Int))).map (fun j => insert_at a j t))
  | 0, [], ha => by simp at ha
  | 0, d :: ds, _ => by
    have hch : chainI (d :: ds).length 0
        = (0 : Int) :: ((descI (((ds.length : Nat) : Int) - 1) 0).map (fun c => c + 1)) := by
      rw [chainI]
      have hd1 : descI ((((0 : Nat)) : Int) - 1) 0 = [] := by
        rw [descI]
        norm_num
      rw [hd1, List.append_nil]
      have h2 := descI_map_succ (((ds.length : Nat) : Int) - 1) 0
      rw [show (((ds.length : Nat) : Int) - 1 + 1) = ((ds.length : Nat) : Int) by ring,
        show ((0 : Int) + 1) = 1 by norm_num] at h2
      rw [show ((((d :: ds).length : Nat)) : Int) - 1 = ((ds.length : Nat) : Int) by simp,
        show ((((0 : Nat)) : Int) + 1) = (1 : Int) by norm_num,
        show (((0 : Nat)) : Int) = (0 : Int) by norm_num, ← h2]
    rw [hch]
    show ((enum_chain (d :: ds) ((descI (((ds.length : Nat) : Int) - 1) 0).map
        (fun c => c + 1))).flatMap
      (fun s => (rangeI (lget (d :: ds) 0)).map (fun j => lset s 0 j))) = _
    rw [enum_chain_shift d ds _ (fun x hx => by rw [mem_descI] at hx; omega),
      enum_chain_default ds]
    rw [List.eraseIdx_cons_zero]
    rw [show lget (d :: ds) (((0 : Nat)) : Int) = lget (d :: ds) 0 by norm_num]
    rw [List.flatMap_map]
    refine List.flatMap_congr ?_
    intro t _
    refine List.map_congr_left ?_
    intro j _
    show lset (0 :: t) 0 j = insert_at 0 j t
    rw [lset, insert_at]
    rfl
  | a + 1, [], ha => by simp at ha
  | a + 1, d :: ds, ha => by
    have haN : a < ds.length := by simpa using ha
    have ih := enum_chain_axis a ds haN
    have hch : chainI (d :: ds).length (a + 1)
        = (chainI ds.length a).map (fun c => c + 1) ++ [0] := by
      rw [show (d :: ds).length = ds.length + 1 from rfl, chainI_succ]
    rw [hch]
    rw [enum_chain_append_last (d :: ds) _ 0 le_rfl
      (by
        intro hmem
        rw [List.mem_map] at hmem
        obtain ⟨y, hy, hy0⟩ := hmem
        have := (mem_chainI haN).mp hy
        omega)
      (fun y hy => by
        rw [List.mem_map] at hy
        obtain ⟨z, hz, rfl⟩ := hy
        have := (mem_chainI haN).mp hz
        omega)]
    rw [enum_chain_shift d ds _ (fun x hx => ((mem_chainI haN).mp hx).1), ih]
    rw [show (d :: ds).eraseIdx (a + 1) = d :: ds.eraseIdx a from rfl]
    show _ = ((rangeI d).flatMap
        (fun i => (row_major_enum (ds.eraseIdx a)).map (fun t => i :: t))).flatMap
      (fun t => (rangeI (lget (d :: ds) (((a + 1 : Nat)) : Int))).map
        (fun j => insert_at (a + 1) j t))
    rw [List.flatMap_assoc]
    have hl0 : lget (d :: ds) 0 = d := by
      rw [lget]
      rfl
    rw [hl0]
    have hla : lget (d :: ds) (((a + 1 : Nat)) : Int) = lget ds ((a : Nat) : Int) := by
      rw [lget, lget, show ((((a + 1 : Nat)) : Int)).toNat = ((a : Nat) : Int).toNat + 1 by omega]
      simp
    refine List.flatMap_congr ?_
    intro i _
    rw [List.map_flatMap, List.flatMap_map, List.map_flatMap]
    refine List.flatMap_congr ?_
    intro t _
    rw [List.map_map, List.map_map]
    refine List.map_congr_left ?_
    intro j _
    show lset (0 :: insert_at a j t) 0 i = insert_at (a + 1) j (i :: t)
    rw [lset, insert_at, insert_at, List.take_succ_cons, List.drop_succ_cons]
    rfl

theorem prod_eraseIdx (l : List Int) :
    ∀ i : Nat, i < l.length → l.prod = (l.eraseIdx i).prod * l.getD i 0
  | 0, hi => by
    cases l with
    | nil => simp at hi
    | cons d ds =>
      rw [List.eraseIdx_cons_zero, List.getD_cons_zero, List.prod_cons]
      ring
  | i + 1, hi => by
    cases l with
    | nil => simp at hi
    | cons d ds =>
      rw [List.eraseIdx_cons_succ, List.getD_cons_succ, List.prod_cons, List.prod_cons,
        prod_eraseIdx ds i (by simpa using hi)]
      ring

theorem dims_pos_eraseIdx (dims : List Int) (hpos : dims_pos dims) (i : Nat) :
    dims_pos (dims.eraseIdx i) :=
  fun d hd => hpos d (List.eraseIdx_subset _ _ hd)

theorem iter_walk_default_row_major (dims : List Int) (hne : dims ≠ [])
    (hpos : dims_pos dims) (fuel : Nat) (hfuel : (numel dims).toNat ≤ fuel) :
    iter_walk fuel (mk_iter_default dims) = row_major_enum dims := by
  rw [iter_walk_default_enum dims hne hpos fuel (by
      rw [enum_chain_default, row_major_length dims hpos, ← numel_eq_prod dims hne hpos]
      exact hfuel),
    enum_chain_default]

theorem iter_walk_axis_insert (dims : List Int) (axis : Int) (hne : dims ≠ [])
    (hpos : dims_pos dims) (fuel : Nat) (hfuel : (numel dims).toNat ≤ fuel) :
    iter_walk fuel (mk_iter_axis [] [] dims axis)
      = (row_major_enum (dims.eraseIdx (modulo axis (dims.length : Int)).toNat)).flatMap
          (fun t => (rangeI (lget dims (modulo axis (dims.length : Int)))).map
            (fun j => insert_at (modulo axis (dims.length : Int)).toNat j t)) := by
  have hlen : 0 < dims.length := List.length_pos.mpr hne
  have ha0 : 0 ≤ modulo axis (dims.length : Int) := Int.emod_nonneg axis (by omega)
  have hmod : modulo axis (dims.length : Int) = axis % (dims.length : Int) := rfl
  have haN : (modulo axis (dims.length : Int)).toNat < dims.length := by
    have := Int.emod_lt_of_pos axis (show (0 : Int) < (dims.length : Int) by omega)
    omega
  have hlg : lget dims ((((modulo axis (dims.length : Int)).toNat : Nat)) : Int)
      = lget dims (modulo axis (dims.length : Int)) := by
    rw [lget, lget, Int.toNat_natCast]
  have hdA : 0 < lget dims (modulo axis (dims.length : Int)) :=
    lget_dims_pos dims hpos _ haN
  have herpos : dims_pos (dims.eraseIdx (modulo axis (dims.length : Int)).toNat) :=
    dims_pos_eraseIdx dims hpos _
  have hgetD : lget dims (modulo axis (dims.length : Int))
      = dims.getD (modulo axis (dims.length : Int)).toNat 0 := rfl
  have hlenfuel : (enum_chain dims
      (chainI dims.length (modulo axis (dims.length : Int)).toNat)).length ≤ fuel := by
    rw [enum_chain_axis _ dims haN, List.length_flatMap, hlg]
    have hin : (row_major_enum (dims.eraseIdx (modulo axis (dims.length : Int)).toNat)).map
        (List.length ∘ fun t => (rangeI (lget dims (modulo axis (dims.length : Int)))).map
          (fun j => insert_at (modulo axis (dims.length : Int)).toNat j t))
        = (row_major_enum (dims.eraseIdx (modulo axis (dims.length : Int)).toNat)).map
          (fun _ => (lget dims (modulo axis (dims.length : Int))).toNat) := by
      refine List.map_congr_left ?_
      intro t _
      simp [Function.comp, rangeI_length]
    rw [hin, List.map_const', List.sum_replicate, row_major_length _ herpos, smul_eq_mul]
    have hprod := prod_eraseIdx dims (modulo axis (dims.length : Int)).toNat haN
    have herpos2 : 0 < (dims.eraseIdx (modulo axis (dims.length : Int)).toNat).prod :=
      List.prod_pos herpos
    rw [← toNat_mul_pos _ _ (by omega) (by omega), hgetD, ← hprod,
      ← numel_eq_prod dims hne hpos]
    exact hfuel
  rw [iter_walk_axis_enum dims axis hne hpos fuel hlenfuel, enum_chain_axis _ dims haN, hlg]

/-! ### Claims C7 and C9 -/

theorem row_major_head (dims : List Int) (hpos : dims_pos dims) :
    (row_major_enum dims).head? = some (List.replicate dims.length 0) := by
  rw [← enum_chain_default]
  refine enum_chain_head dims hpos _ ?_
  intro c hc
  rw [mem_descI] at hc
  omega

/-- C7: whole-array `reduce(A, f)` takes as initial value the first element of
`A` in default (row-major) cursor order, cast to the accumulator type, and
folds the remaining elements left-to-right in default order; an empty `A`
yields the accumulator default value. -/
theorem claim_C7_reduce_all {α β : Type} [Inhabited α] (arr : ArrayM α) (f : α → β → β)
    (castf : α → β) (dflt : β)
    (hpos : dims_pos arr.hdr.dims) (hne : arr.hdr.dims ≠ []) :
    (aempty arr = false →
      reduce_all arr f castf dflt = fold_from f castf dflt (arr_elems arr))
    ∧ (aempty arr = true → reduce_all arr f castf dflt = dflt) := by
  constructor
  · intro hemp
    rw [reduce_all, if_neg (by simp [hemp])]
    have hnum : 0 < (numel arr.hdr.dims).toNat := by
      have := numel_pos arr.hdr.dims hne hpos
      omega
    have hw := iter_walk_default_row_major arr.hdr.dims hne hpos
      (numel arr.hdr.dims).toNat le_rfl
    obtain ⟨tail, hrm⟩ : ∃ tail, row_major_enum arr.hdr.dims
        = List.replicate arr.hdr.dims.length 0 :: tail := by
      have hh := row_major_head arr.hdr.dims hpos
      cases hr : row_major_enum arr.hdr.dims with
      | nil =>
        rw [hr] at hh
        simp at hh
      | cons a t =>
        rw [hr] at hh
        simp only [List.head?_cons, Option.some_inj] at hh
        exact ⟨t, by rw [hh]⟩
    obtain ⟨n, hn⟩ : ∃ n, (numel arr.hdr.dims).toNat = n + 1 :=
      ⟨(numel arr.hdr.dims).toNat - 1, by omega⟩
    rw [hn, hrm] at hw
    rw [iter_walk] at hw
    by_cases hir : iter_in_range (mk_iter_default arr.hdr.dims) = true
    · rw [if_pos hir] at hw
      injection hw with hw1 hw2
      rw [show (numel arr.hdr.dims).toNat - 1 = n by omega, hw2, hw1]
      rw [arr_elems, hrm, List.map_cons]
      simp only [fold_from]
      rw [List.foldl_map]
    · rw [if_neg hir] at hw
      simp at hw
  · intro hemp
    rw [reduce_all, if_pos (by rw [hemp])]

theorem claim_C7_reduce_all_witness :
    (dims_pos (mk_array [2, 2] [10, 20, 30, 40] 0 : ArrayM Int).hdr.dims
      ∧ (mk_array [2, 2] [10, 20, 30, 40] 0 : ArrayM Int).hdr.dims ≠ [])
    ∧ ((aempty (mk_array [2, 2] [10, 20, 30, 40] 0 : ArrayM Int) = false →
        reduce_all (mk_array [2, 2] [10, 20, 30, 40] 0 : ArrayM Int)
          (fun v acc => acc + v) (fun v => v) 0
          = fold_from (fun (v : Int) (acc : Int) => acc + v) (fun v => v) 0
              (arr_elems (mk_array [2, 2] [10, 20, 30, 40] 0 : ArrayM Int)))
      ∧ (aempty (mk_array [2, 2] [10, 20, 30, 40] 0 : ArrayM Int) = true →
        reduce_all (mk_array [2, 2] [10, 20, 30, 40] 0 : ArrayM Int)
          (fun v acc => acc + v) (fun v => v) 0 = 0)) :=
  ⟨⟨by rw [dims_pos]; decide, by decide⟩,
    claim_C7_reduce_all (mk_array [2, 2] [10, 20, 30, 40] 0 : ArrayM Int)
      (fun v acc => acc + v) (fun v => v) 0 (by rw [dims_pos]; decide) (by decide)⟩

/-- C9: `all_match(A, B, ==)` coincides with `all_equal(A, B)` on every pair of
arrays; two empty arrays match and are equal; two non-empty arrays of differing
shapes are unequal and fail `all_match` for every predicate, with no error. -/
theorem claim_C9_all_match_equiv {α : Type} [Inhabited α] [DecidableEq α]
    (lhs rhs : ArrayM α) :
    (all_match_arr lhs rhs (fun a b => a == b) = all_equal_arr lhs rhs)
    ∧ (aempty lhs = true → aempty rhs = true →
        all_equal_arr lhs rhs = true
        ∧ all_match_arr lhs rhs (fun a b => a == b) = true)
    ∧ (aempty lhs = false → aempty rhs = false → lhs.hdr.dims ≠ rhs.hdr.dims →
        all_equal_arr lhs rhs = false
        ∧ ∀ f : α → α → Bool, all_match_arr lhs rhs f = false) := by
  refine ⟨rfl, ?_, ?_⟩
  · intro h1 h2
    constructor
    · rw [all_equal_arr, all_match_arr, if_pos (by rw [h1, h2]; rfl)]
    · rw [all_match_arr, if_pos (by rw [h1, h2]; rfl)]
  · intro h1 h2 hd
    refine ⟨?_, fun f => ?_⟩
    · rw [all_equal_arr, all_match_arr]
      rw [if_neg (by simp [h1]), if_neg (by simp [h1, h2]), if_pos hd]
    · rw [all_match_arr]
      rw [if_neg (by simp [h1]), if_neg (by simp [h1, h2]), if_pos hd]

theorem claim_C9_all_match_equiv_witness :
    (all_match_arr (mk_array [2] [1, 2] 0 : ArrayM Int) (mk_array [3] [1, 2, 3] 1)
        (fun a b => a == b)
      = all_equal_arr (mk_array [2] [1, 2] 0 : ArrayM Int) (mk_array [3] [1, 2, 3] 1))
    ∧ (aempty (mk_array [2] [1, 2] 0 : ArrayM Int) = true →
        aempty (mk_array [3] [1, 2, 3] 1 : ArrayM Int) = true →
        all_equal_arr (mk_array [2] [1, 2] 0 : ArrayM Int) (mk_array [3] [1, 2, 3] 1) = true
        ∧ all_match_arr (mk_array [2] [1, 2] 0 : ArrayM Int) (mk_array [3] [1, 2, 3] 1)
            (fun a b => a == b) = true)
    ∧ (aempty (mk_array [2] [1, 2] 0 : ArrayM Int) = false →
        aempty (mk_array [3] [1, 2, 3] 1 : ArrayM Int) = false →
        (mk_array [2] [1, 2] 0 : ArrayM Int).hdr.dims
          ≠ (mk_array [3] [1, 2, 3] 1 : ArrayM Int).hdr.dims →
        all_equal_arr (mk_array [2] [1, 2] 0 : ArrayM Int) (mk_array [3] [1, 2, 3] 1) = false
        ∧ ∀ f : Int → Int → Bool,
            all_match_arr (mk_array [2] [1, 2] 0 : ArrayM Int) (mk_array [3] [1, 2, 3] 1) f
              = false) :=
  claim_C9_all_match_equiv (mk_array [2] [1, 2] 0 : ArrayM Int) (mk_array [3] [1, 2, 3] 1)

/-! ### Folding element writes over a fresh destination -/

theorem foldl_aset_spec {α γ : Type} (f : γ → List Int) (v : γ → α) :
    ∀ (l : List γ) (a0 : ArrayM α),
    l.foldl (fun res x => aset res (f x) (v x)) a0
      = { a0 with buf := l.foldl (fun b x =>
          b.set (subs2ind a0.hdr.offset a0.hdr.strides a0.hdr.dims (f x)).toNat (v x)) a0.buf }
  | [], _ => rfl
  | x :: l, a0 => by
    rw [List.foldl_cons, List.foldl_cons, foldl_aset_spec f v l _]
    rfl

theorem header_from_dims_fields (dims : List Int) (hne : dims ≠ []) (hpos : dims_pos dims) :
    header_from_dims dims
      = Header.mk dims (compute_strides dims) 0 (numel dims) false false := by
  rw [header_from_dims, if_neg (by have := numel_pos dims hne hpos; omega)]

theorem aget_from_dims {α : Type} [Inhabited α] (dims : List Int) (buf : List α) (id : Nat)
    (hne : dims ≠ []) (hpos : dims_pos dims) (t : List Int) (hv : subs_valid dims t) :
    aget (ArrayM.mk (header_from_dims dims) id buf) t
      = buf.getD (flat_index dims t).toNat default := by
  rw [aget, header_from_dims_fields dims hne hpos]
  show buf.getD (subs2ind 0 (compute_strides dims) dims t).toNat default = _
  rw [subs2ind_flat dims t hpos hne hv]

theorem arr_elems_mk {α : Type} [Inhabited α] (h : Header) (id : Nat) (b : List α) :
    arr_elems (ArrayM.mk h id b)
      = (row_major_enum h.dims).map
          (fun t => b.getD (subs2ind h.offset h.strides h.dims t).toNat default) := rfl

theorem clone_arr_spec {α : Type} [Inhabited α] (arr : ArrayM α) (fresh : Nat)
    (hemp : aempty arr = false) (hne : arr.hdr.dims ≠ []) (hpos : dims_pos arr.hdr.dims) :
    (clone_arr arr fresh).hdr = header_from_dims arr.hdr.dims
    ∧ (clone_arr arr fresh).bufId = fresh
    ∧ arr_elems (clone_arr arr fresh) = arr_elems arr := by
  have hnum := numel_pos arr.hdr.dims hne hpos
  have hprodeq := numel_eq_prod arr.hdr.dims hne hpos
  rw [clone_arr, if_neg (by simp [hemp])]
  rw [iter_walk_default_row_major arr.hdr.dims hne hpos _ le_rfl]
  rw [foldl_aset_spec (fun s => s) (fun s => aget arr s) (row_major_enum arr.hdr.dims)
    (mk_array_fill arr.hdr.dims fresh)]
  refine ⟨rfl, rfl, ?_⟩
  rw [arr_elems_mk]
  have hh : (mk_array_fill arr.hdr.dims fresh : ArrayM α).hdr
      = header_from_dims arr.hdr.dims := rfl
  have hb : (mk_array_fill arr.hdr.dims fresh : ArrayM α).buf
      = List.replicate (numel arr.hdr.dims).toNat default := rfl
  rw [hh, hb, header_from_dims_fields arr.hdr.dims hne hpos]
  dsimp only
  rw [arr_elems]
  refine List.map_congr_left ?_
  intro t ht
  refine foldl_set_getD (row_major_enum arr.hdr.dims)
    (fun s => (subs2ind 0 (compute_strides arr.hdr.dims) arr.hdr.dims s).toNat)
    (fun s => aget arr s) _ default ?_ ?_ t ht
  · have hmap : (row_major_enum arr.hdr.dims).map
        (fun s => (subs2ind 0 (compute_strides arr.hdr.dims) arr.hdr.dims s).toNat)
        = (row_major_enum arr.hdr.dims).map (fun s => (flat_index arr.hdr.dims s).toNat) := by
      refine List.map_congr_left ?_
      intro s hs
      rw [subs2ind_flat arr.hdr.dims s hpos hne (row_major_valid arr.hdr.dims s hs)]
    rw [hmap, map_flat_row_major arr.hdr.dims hpos]
    exact List.nodup_range _
  · intro s hs
    have hvs := row_major_valid arr.hdr.dims s hs
    have hfb := flat_bounds arr.hdr.dims hpos s hvs
    dsimp only
    rw [subs2ind_flat arr.hdr.dims s hpos hne hvs, List.length_replicate]
    omega

/-- C10: an empty left operand makes `append` and `insert` return a clone of
the right operand, an empty right operand a clone of the left, with no rank or
per-axis dimension compatibility check; the clone is a faithful copy (fresh
buffer, same shape, same elements in row-major order). -/
theorem claim_C10_empty_operands {α : Type} [Inhabited α] (lhs rhs : ArrayM α)
    (axis ind : Int) (fresh : Nat) :
    (aempty lhs = true →
      append_axis lhs rhs axis fresh = .ok (clone_arr rhs fresh)
      ∧ insert_axis lhs rhs ind axis fresh = .ok (clone_arr rhs fresh))
    ∧ (aempty lhs = false → aempty rhs = true →
      append_axis lhs rhs axis fresh = .ok (clone_arr lhs fresh)
      ∧ insert_axis lhs rhs ind axis fresh = .ok (clone_arr lhs fresh))
    ∧ (aempty rhs = false → rhs.hdr.dims ≠ [] → dims_pos rhs.hdr.dims →
      (clone_arr rhs fresh).hdr = header_from_dims rhs.hdr.dims
      ∧ (clone_arr rhs fresh).bufId = fresh
      ∧ arr_elems (clone_arr rhs fresh) = arr_elems rhs) := by
  refine ⟨?_, ?_, ?_⟩
  · intro h1
    constructor
    · rw [append_axis, if_pos (by rw [h1])]
    · rw [insert_axis, if_pos (by rw [h1])]
  · intro h1 h2
    constructor
    · rw [append_axis, if_neg (by simp [h1]), if_pos (by rw [h2])]
    · rw [insert_axis, if_neg (by simp [h1]), if_pos (by rw [h2])]
  · intro h1 h2 h3
    exact clone_arr_spec rhs fresh h1 h2 h3

theorem claim_C10_empty_operands_witness :
    (aempty (arr_default : ArrayM Int) = true →
      append_axis (arr_default : ArrayM Int) (mk_array [2, 2] [1, 2, 3, 4] 1) 0 7
        = .ok (clone_arr (mk_array [2, 2] [1, 2, 3, 4] 1) 7)
      ∧ insert_axis (arr_default : ArrayM Int) (mk_array [2, 2] [1, 2, 3, 4] 1) 0 0 7
        = .ok (clone_arr (mk_array [2, 2] [1, 2, 3, 4] 1) 7))
    ∧ (aempty (arr_default : ArrayM Int) = false →
      aempty (mk_array [2, 2] [1, 2, 3, 4] 1 : ArrayM Int) = true →
      append_axis (arr_default : ArrayM Int) (mk_array [2, 2] [1, 2, 3, 4] 1) 0 7
        = .ok (clone_arr (arr_default : ArrayM Int) 7)
      ∧ insert_axis (arr_default : ArrayM Int) (mk_array [2, 2] [1, 2, 3, 4] 1) 0 0 7
        = .ok (clone_arr (arr_default : ArrayM Int) 7))
    ∧ (aempty (mk_array [2, 2] [1, 2, 3, 4] 1 : ArrayM Int) = false →
      (mk_array [2, 2] [1, 2, 3, 4] 1 : ArrayM Int).hdr.dims ≠ [] →
      dims_pos (mk_array [2, 2] [1, 2, 3, 4] 1 : ArrayM Int).hdr.dims →
      (clone_arr (mk_array [2, 2] [1, 2, 3, 4] 1 : ArrayM Int) 7).hdr
          = header_from_dims (mk_array [2, 2] [1, 2, 3, 4] 1 : ArrayM Int).hdr.dims
      ∧ (clone_arr (mk_array [2, 2] [1, 2, 3, 4] 1 : ArrayM Int) 7).bufId = 7
      ∧ arr_elems (clone_arr (mk_array [2, 2] [1, 2, 3, 4] 1 : ArrayM Int) 7)
          = arr_elems (mk_array [2, 2] [1, 2, 3, 4] 1 : ArrayM Int)) :=
  claim_C10_empty_operands (arr_default : ArrayM Int) (mk_array [2, 2] [1, 2, 3, 4] 1) 0 0 7

/-! ### Lock-step filling of a fresh layout and claim C5 -/

theorem lockstep_fill_elems {α : Type} [Inhabited α] (arr : ArrayM α) (nd : List Int)
    (fresh : Nat) (hposn : dims_pos nd) (hnen : nd ≠ [])
    (src : List (List Int)) (hlen : src.length = (row_major_enum nd).length) :
    arr_elems (ArrayM.mk (header_from_dims nd) fresh
        ((src.zip (row_major_enum nd)).foldl
          (fun b p => b.set (subs2ind (header_from_dims nd).offset
            (header_from_dims nd).strides (header_from_dims nd).dims p.2).toNat (aget arr p.1))
          (List.replicate (numel nd).toNat default)))
      = src.map (aget arr) := by
  have hnum := numel_pos nd hnen hposn
  have hprodeq := numel_eq_prod nd hnen hposn
  rw [arr_elems_mk, header_from_dims_fields nd hnen hposn]
  dsimp only
  have hndp : ((src.zip (row_major_enum nd)).map
      (fun p => (subs2ind 0 (compute_strides nd) nd p.2).toNat)).Nodup := by
    have h1 : (src.zip (row_major_enum nd)).map
        (fun p => (subs2ind 0 (compute_strides nd) nd p.2).toNat)
        = ((src.zip (row_major_enum nd)).map Prod.snd).map
            (fun t => (subs2ind 0 (compute_strides nd) nd t).toNat) := by
      rw [List.map_map]
      rfl
    rw [h1, List.map_snd_zip _ _ (by omega)]
    have h2 : (row_major_enum nd).map (fun t => (subs2ind 0 (compute_strides nd) nd t).toNat)
        = (row_major_enum nd).map (fun t => (flat_index nd t).toNat) := by
      refine List.map_congr_left ?_
      intro s hs
      rw [subs2ind_flat nd s hposn hnen (row_major_valid nd s hs)]
    rw [h2, map_flat_row_major nd hposn]
    exact List.nodup_range _
  have hbd : ∀ p ∈ src.zip (row_major_enum nd),
      (subs2ind 0 (compute_strides nd) nd p.2).toNat
        < (List.replicate (numel nd).toNat (default : α)).length := by
    intro p hp
    rcases p with ⟨x, y⟩
    have hy := (List.of_mem_zip hp).2
    have hvy := row_major_valid nd y hy
    have hfb := flat_bounds nd hposn y hvy
    rw [List.length_replicate]
    show (subs2ind 0 (compute_strides nd) nd y).toNat < _
    rw [subs2ind_flat nd y hposn hnen hvy]
    omega
  refine List.ext_getElem (by rw [List.length_map, List.length_map, hlen]) ?_
  intro i h1 h2
  rw [List.getElem_map, List.getElem_map]
  have hiz : i < (src.zip (row_major_enum nd)).length := by
    rw [List.length_zip]
    simp only [List.length_map] at h1 h2
    omega
  have h2s : i < src.length := by simp only [List.length_map] at h2; exact h2
  have h1r : i < (row_major_enum nd).length := by simp only [List.length_map] at h1; exact h1
  have hz : (src.zip (row_major_enum nd))[i] = (src[i], (row_major_enum nd)[i]) :=
    List.getElem_zip
  have hmem : (src.zip (row_major_enum nd))[i] ∈ src.zip (row_major_enum nd) :=
    List.getElem_mem hiz
  have hfold := foldl_set_getD (src.zip (row_major_enum nd))
    (fun p => (subs2ind 0 (compute_strides nd) nd p.2).toNat)
    (fun p => aget arr p.1) (List.replicate (numel nd).toNat default) default
    hndp hbd _ hmem
  rw [hz] at hfold
  exact hfold

/-- C5: for a non-empty array, `reshape` fails with shape-mismatch exactly when
the element count differs from the product of the new dimensions; with equal
dims it returns the handle itself over the same buffer; a view is materialised
into a fresh buffer holding the same elements, filled by walking old and new
layouts in lock-step in their default orders; any other array is re-headed
over the same buffer. -/
theorem claim_C5_reshape {α : Type} [Inhabited α] (arr : ArrayM α) (nd : List Int)
    (fresh : Nat) (hemp : aempty arr = false)
    (hpos : dims_pos arr.hdr.dims) (hne : arr.hdr.dims ≠ [])
    (hposn : dims_pos nd) (hnen : nd ≠ [])
    (hcount : arr.hdr.count = numel arr.hdr.dims) :
    ((∃ e, reshape_arr arr nd fresh = .error e) ↔ arr.hdr.count ≠ numel nd)
    ∧ (arr.hdr.dims = nd → reshape_arr arr nd fresh = .ok arr)
    ∧ (arr.hdr.dims ≠ nd → arr.hdr.count = numel nd → arr.hdr.is_subarray = true →
        ∃ r, reshape_arr arr nd fresh = .ok r ∧ r.bufId = fresh
          ∧ r.hdr = header_from_dims nd ∧ arr_elems r = arr_elems arr)
    ∧ (arr.hdr.dims ≠ nd → arr.hdr.count = numel nd → arr.hdr.is_subarray = false →
        reshape_arr arr nd fresh
          = .ok (ArrayM.mk (header_from_dims nd) arr.bufId arr.buf)) := by
  have hnumn := numel_pos nd hnen hposn
  have hnum := numel_pos arr.hdr.dims hne hpos
  have hhe : (header_from_dims nd).hempty = false := by
    rw [header_from_dims_fields nd hnen hposn]
  refine ⟨⟨?_, ?_⟩, ?_, ?_, ?_⟩
  · rintro ⟨e, he⟩
    intro hc
    rw [reshape_arr, if_neg (by simp [hemp]), if_neg (fun h => h hc)] at he
    by_cases hd : arr.hdr.dims = nd
    · rw [if_pos hd] at he
      exact absurd he (by simp)
    · rw [if_neg hd] at he
      by_cases hs : arr.hdr.is_subarray = true
      · rw [if_pos hs] at he
        exact absurd he (by simp)
      · rw [if_neg hs, if_neg (by simp [hhe])] at he
        exact absurd he (by simp)
  · intro hc
    exact ⟨"different number of elements between original and rehsaped arrays",
      by rw [reshape_arr, if_neg (by simp [hemp]), if_pos hc]⟩
  · intro hd
    rw [reshape_arr, if_neg (by simp [hemp]),
      if_neg (show ¬ arr.hdr.count ≠ numel nd by rw [hd] at hcount; omega), if_pos hd]
  · intro hd hc hsub
    rw [reshape_arr, if_neg (by simp [hemp]), if_neg (fun h => h hc), if_neg hd,
      if_pos hsub]
    have hlen2 : (row_major_enum arr.hdr.dims).length = (row_major_enum nd).length := by
      rw [row_major_length _ hpos, row_major_length _ hposn]
      have e1 := numel_eq_prod arr.hdr.dims hne hpos
      have e2 := numel_eq_prod nd hnen hposn
      omega
    rw [iter_walk_default_row_major arr.hdr.dims hne hpos _ le_rfl,
      iter_walk_default_row_major nd hnen hposn _ le_rfl,
      foldl_aset_spec Prod.snd (fun p => aget arr p.1) _ (mk_array_fill nd fresh)]
    refine ⟨_, rfl, rfl, rfl, ?_⟩
    have hl := lockstep_fill_elems arr nd fresh hposn hnen (row_major_enum arr.hdr.dims) hlen2
    exact hl.trans (by rw [arr_elems])
  · intro hd hc hsub
    rw [reshape_arr, if_neg (by simp [hemp]), if_neg (fun h => h hc), if_neg hd,
      if_neg (by simp [hsub]), if_neg (by simp [hhe])]

theorem claim_C5_reshape_witness :
    (aempty (mk_array [2, 2] [1, 2, 3, 4] 0 : ArrayM Int) = false
      ∧ dims_pos (mk_array [2, 2] [1, 2, 3, 4] 0 : ArrayM Int).hdr.dims
      ∧ (mk_array [2, 2] [1, 2, 3, 4] 0 : ArrayM Int).hdr.dims ≠ []
      ∧ dims_pos [4, 1] ∧ ([4, 1] : List Int) ≠ []
      ∧ (mk_array [2, 2] [1, 2, 3, 4] 0 : ArrayM Int).hdr.count
          = numel (mk_array [2, 2] [1, 2, 3, 4] 0 : ArrayM Int).hdr.dims)
    ∧ (((∃ e, reshape_arr (mk_array [2, 2] [1, 2, 3, 4] 0 : ArrayM Int) [4, 1] 9 = .error e)
        ↔ (mk_array [2, 2] [1, 2, 3, 4] 0 : ArrayM Int).hdr.count ≠ numel [4, 1])
      ∧ ((mk_array [2, 2] [1, 2, 3, 4] 0 : ArrayM Int).hdr.dims = [4, 1] →
          reshape_arr (mk_array [2, 2] [1, 2, 3, 4] 0 : ArrayM Int) [4, 1] 9
            = .ok (mk_array [2, 2] [1, 2, 3, 4] 0))
      ∧ ((mk_array [2, 2] [1, 2, 3, 4] 0 : ArrayM Int).hdr.dims ≠ [4, 1] →
          (mk_array [2, 2] [1, 2, 3, 4] 0 : ArrayM Int).hdr.count = numel [4, 1] →
          (mk_array [2, 2] [1, 2, 3, 4] 0 : ArrayM Int).hdr.is_subarray = true →
          ∃ r, reshape_arr (mk_array [2, 2] [1, 2, 3, 4] 0 : ArrayM Int) [4, 1] 9 = .ok r
            ∧ r.bufId = 9 ∧ r.hdr = header_from_dims [4, 1]
            ∧ arr_elems r = arr_elems (mk_array [2, 2] [1, 2, 3, 4] 0 : ArrayM Int))
      ∧ ((mk_array [2, 2] [1, 2, 3, 4] 0 : ArrayM Int).hdr.dims ≠ [4, 1] →
          (mk_array [2, 2] [1, 2, 3, 4] 0 : ArrayM Int).hdr.count = numel [4, 1] →
          (mk_array [2, 2] [1, 2, 3, 4] 0 : ArrayM Int).hdr.is_subarray = false →
          reshape_arr (mk_array [2, 2] [1, 2, 3, 4] 0 : ArrayM Int) [4, 1] 9
            = .ok (ArrayM.mk (header_from_dims [4, 1])
                (mk_array [2, 2] [1, 2, 3, 4] 0 : ArrayM Int).bufId
                (mk_array [2, 2] [1, 2, 3, 4] 0 : ArrayM Int).buf))) :=
  ⟨⟨by decide, by rw [dims_pos]; decide, by decide, by rw [dims_pos]; decide, by decide,
      by decide⟩,
    claim_C5_reshape (mk_array [2, 2] [1, 2, 3, 4] 0 : ArrayM Int) [4, 1] 9 (by decide)
      (by rw [dims_pos]; decide) (by decide) (by rw [dims_pos]; decide) (by decide)
      (by decide)⟩

/-! ### Shape surgery helpers for `append` -/

theorem rangeI_decompose (bnd d : Int) (h0 : 0 ≤ bnd) (hbd : bnd ≤ d) :
    rangeI d = rangeI bnd ++ (rangeI (d - bnd)).map (fun k => k + bnd) := by
  rw [rangeI, rangeI, rangeI]
  have hsplit : d.toNat = bnd.toNat + (d - bnd).toNat := by omega
  rw [hsplit, List.range_add, List.map_append, List.map_map, List.map_map]
  congr 1
  refine List.map_congr_left ?_
  intro k _
  simp only [Function.comp_apply]
  omega

theorem eraseIdx_set_same (l : List Int) :
    ∀ (a : Nat) (v : Int), (l.set a v).eraseIdx a = l.eraseIdx a := by
  induction l with
  | nil => intro a v; rfl
  | cons x xs ih =>
    intro a v
    cases a with
    | zero => rfl
    | succ b =>
      rw [List.set_cons_succ, List.eraseIdx_cons_succ, List.eraseIdx_cons_succ, ih b v]

theorem grow_dims_set (pd : List Int) (cnt a : Int) (ha0 : 0 ≤ a)
    (haN : a.toNat < pd.length) :
    grow_dims pd cnt a = pd.set a.toNat (pd.getD a.toNat 0 + cnt) := by
  refine List.ext_getElem (by simp [grow_dims]) ?_
  intro k h1 h2
  have hk : k < pd.length := by simpa using h2
  simp only [grow_dims] at h1 ⊢
  rw [List.getElem_map, List.getElem_range]
  by_cases hak : a.toNat = k
  · subst hak
    rw [if_pos (by omega), List.getElem_set_self]
  · rw [if_neg (by omega), List.getElem_set_ne hak, List.getD_eq_getElem _ _ hk]

theorem dims_pos_set (pd : List Int) (hpos : dims_pos pd) (a : Nat) (v : Int)
    (hv : 0 < v) : dims_pos (pd.set a v) := by
  intro d hd
  rcases List.mem_or_eq_of_mem_set hd with h | h
  · exact hpos d h
  · omega

theorem header_grow_fields (pd : List Int) (cnt a : Int) (hne : pd ≠ [])
    (hpos : dims_pos pd) (ha0 : 0 ≤ a) (haN : a.toNat < pd.length) (hcnt : 0 < cnt) :
    header_grow pd cnt a = Header.mk (pd.set a.toNat (pd.getD a.toNat 0 + cnt))
      (compute_strides (pd.set a.toNat (pd.getD a.toNat 0 + cnt))) 0
      (numel (pd.set a.toNat (pd.getD a.toNat 0 + cnt))) false false := by
  have hda : 0 < pd.getD a.toNat 0 := by
    rw [List.getD_eq_getElem _ _ haN]
    exact hpos _ (List.getElem_mem _)
  have hgpos : dims_pos (pd.set a.toNat (pd.getD a.toNat 0 + cnt)) :=
    dims_pos_set pd hpos _ _ (by omega)
  have hgne : pd.set a.toNat (pd.getD a.toNat 0 + cnt) ≠ [] := by
    intro h
    have hl := congrArg List.length h
    rw [List.length_set] at hl
    simp only [List.length_nil] at hl
    omega
  have hnumg := numel_pos _ hgne hgpos
  rw [header_grow, grow_dims_set pd cnt a ha0 haN,
    if_neg (by have := numel_pos pd hne hpos; omega), if_neg (by omega)]

theorem prod_set (pd : List Int) (a : Nat) (v : Int) (haN : a < pd.length) :
    (pd.set a v).prod = (pd.eraseIdx a).prod * v := by
  have h1 := prod_eraseIdx (pd.set a v) a (by simpa using haN)
  rw [eraseIdx_set_same] at h1
  rw [h1, List.getD_eq_getElem _ _ (by simpa using haN), List.getElem_set_self]

/-! ### Row-major enumeration filtered along one axis -/

theorem row_major_filter_lt (bnd : Int) :
    ∀ (D : List Int) (a : Nat), a < D.length → 0 ≤ bnd → bnd ≤ D.getD a 0 →
    (row_major_enum D).filter (fun t => decide (t.getD a 0 < bnd))
      = row_major_enum (D.set a bnd)
  | [], a, ha, _, _ => by simp at ha
  | d :: ds, 0, _, h0, hbd => by
    rw [show row_major_enum (d :: ds) = (rangeI d).flatMap
        (fun i => (row_major_enum ds).map (fun t => i :: t)) from rfl]
    rw [List.filter_flatMap]
    rw [show (d :: ds).set 0 bnd = bnd :: ds from rfl]
    rw [show row_major_enum (bnd :: ds) = (rangeI bnd).flatMap
        (fun i => (row_major_enum ds).map (fun t => i :: t)) from rfl]
    have hd0 : bnd ≤ d := by simpa using hbd
    rw [rangeI_decompose bnd d h0 hd0, List.flatMap_append]
    have h1 : (rangeI bnd).flatMap (fun i => List.filter (fun t => decide (t.getD 0 0 < bnd))
        ((row_major_enum ds).map (fun t => i :: t)))
        = (rangeI bnd).flatMap (fun i => (row_major_enum ds).map (fun t => i :: t)) := by
      refine List.flatMap_congr ?_
      intro i hi
      rw [mem_rangeI] at hi
      rw [List.filter_map,
        show ((fun t => decide ((t : List Int).getD 0 0 < bnd)) ∘ (fun t => i :: t))
          = (fun (t : List Int) => decide (i < bnd)) from rfl]
      simp only [decide_eq_true hi.2, List.filter_true]
    have h2 : ((rangeI (d - bnd)).map (fun k => k + bnd)).flatMap
        (fun i => List.filter (fun t => decide (t.getD 0 0 < bnd))
          ((row_major_enum ds).map (fun t => i :: t))) = [] := by
      rw [List.flatMap_map]
      have h3 : ∀ k ∈ rangeI (d - bnd),
          List.filter (fun t => decide (t.getD 0 0 < bnd))
            ((row_major_enum ds).map (fun t => (k + bnd) :: t)) = ([] : List (List Int)) := by
        intro k hk
        rw [mem_rangeI] at hk
        rw [List.filter_map,
          show ((fun t => decide ((t : List Int).getD 0 0 < bnd)) ∘ (fun t => (k + bnd) :: t))
            = (fun (t : List Int) => decide (k + bnd < bnd)) from rfl]
        simp only [decide_eq_false (show ¬ (k + bnd < bnd) by omega), List.filter_false]
        simp
      rw [List.flatMap_congr h3]
      simp
    rw [h1, h2, List.append_nil]
  | d :: ds, a + 1, ha, h0, hbd => by
    have haN : a < ds.length := by simpa using ha
    have hbd2 : bnd ≤ ds.getD a 0 := by simpa using hbd
    rw [show row_major_enum (d :: ds) = (rangeI d).flatMap
        (fun i => (row_major_enum ds).map (fun t => i :: t)) from rfl]
    rw [List.filter_flatMap]
    rw [show (d :: ds).set (a + 1) bnd = d :: ds.set a bnd from rfl]
    rw [show row_major_enum (d :: ds.set a bnd) = (rangeI d).flatMap
        (fun i => (row_major_enum (ds.set a bnd)).map (fun t => i :: t)) from rfl]
    refine List.flatMap_congr ?_
    intro i _
    rw [List.filter_map,
      show ((fun t => decide ((t : List Int).getD (a + 1) 0 < bnd)) ∘ (fun t => i :: t))
        = (fun (t : List Int) => decide (t.getD a 0 < bnd)) from rfl]
    rw [row_major_filter_lt bnd ds a haN h0 hbd2]

theorem row_major_filter_ge (bnd : Int) :
    ∀ (D : List Int) (a : Nat), a < D.length → 0 ≤ bnd → bnd ≤ D.getD a 0 →
    (row_major_enum D).filter (fun t => decide (bnd ≤ t.getD a 0))
      = (row_major_enum (D.set a (D.getD a 0 - bnd))).map
          (fun t => t.set a (t.getD a 0 + bnd))
  | [], a, ha, _, _ => by simp at ha
  | d :: ds, 0, _, h0, hbd => by
    rw [show row_major_enum (d :: ds) = (rangeI d).flatMap
        (fun i => (row_major_enum ds).map (fun t => i :: t)) from rfl]
    rw [List.filter_flatMap]
    rw [show (d :: ds).set 0 ((d :: ds).getD 0 0 - bnd) = (d - bnd) :: ds from rfl]
    rw [show row_major_enum ((d - bnd) :: ds) = (rangeI (d - bnd)).flatMap
        (fun i => (row_major_enum ds).map (fun t => i :: t)) from rfl]
    have hd0 : bnd ≤ d := by simpa using hbd
    rw [rangeI_decompose bnd d h0 hd0, List.flatMap_append]
    have h1 : (rangeI bnd).flatMap (fun i => List.filter (fun t => decide (bnd ≤ t.getD 0 0))
        ((row_major_enum ds).map (fun t => i :: t))) = ([] : List (List Int)) := by
      have h3 : ∀ i ∈ rangeI bnd,
          List.filter (fun t => decide (bnd ≤ t.getD 0 0))
            ((row_major_enum ds).map (fun t => i :: t)) = ([] : List (List Int)) := by
        intro i hi
        rw [mem_rangeI] at hi
        rw [List.filter_map,
          show ((fun t => decide (bnd ≤ (t : List Int).getD 0 0)) ∘ (fun t => i :: t))
            = (fun (t : List Int) => decide (bnd ≤ i)) from rfl]
        simp only [decide_eq_false (show ¬ (bnd ≤ i) by omega), List.filter_false]
        simp
      rw [List.flatMap_congr h3]
      simp
    have h2 : ((rangeI (d - bnd)).map (fun k => k + bnd)).flatMap
        (fun i => List.filter (fun t => decide (bnd ≤ t.getD 0 0))
          ((row_major_enum ds).map (fun t => i :: t)))
        = List.map (fun t => t.set 0 (t.getD 0 0 + bnd))
            ((rangeI (d - bnd)).flatMap
              (fun i => (row_major_enum ds).map (fun t => i :: t))) := by
      rw [List.flatMap_map, List.map_flatMap]
      refine List.flatMap_congr ?_
      intro k hk
      rw [mem_rangeI] at hk
      rw [List.filter_map,
        show ((fun t => decide (bnd ≤ (t : List Int).getD 0 0)) ∘ (fun t => (k + bnd) :: t))
          = (fun (t : List Int) => decide (bnd ≤ k + bnd)) from rfl]
      simp only [decide_eq_true (show bnd ≤ k + bnd by omega), List.filter_true]
      rw [List.map_map]
      rfl
    rw [h1, h2, List.nil_append]
  | d :: ds, a + 1, ha, h0, hbd => by
    have haN : a < ds.length := by simpa using ha
    have hbd2 : bnd ≤ ds.getD a 0 := by simpa using hbd
    rw [show row_major_enum (d :: ds) = (rangeI d).flatMap
        (fun i => (row_major_enum ds).map (fun t => i :: t)) from rfl]
    rw [List.filter_flatMap]
    rw [show (d :: ds).set (a + 1) ((d :: ds).getD (a + 1) 0 - bnd)
        = d :: ds.set a (ds.getD a 0 - bnd) from rfl]
    rw [show row_major_enum (d :: ds.set a (ds.getD a 0 - bnd)) = (rangeI d).flatMap
        (fun i => (row_major_enum (ds.set a (ds.getD a 0 - bnd))).map (fun t => i :: t))
      from rfl]
    rw [List.map_flatMap]
    refine List.flatMap_congr ?_
    intro i _
    rw [List.filter_map,
      show ((fun t => decide (bnd ≤ (t : List Int).getD (a + 1) 0)) ∘ (fun t => i :: t))
        = (fun (t : List Int) => decide (bnd ≤ t.getD a 0)) from rfl]
    rw [row_major_filter_ge bnd ds a haN h0 hbd2, List.map_map, List.map_map]
    rfl

/-! ### The lock-step draw loop of `append` -/

theorem iter_walk_cons_elim (st : SubsIter) (n : Nat) (s : List Int)
    (rest : List (List Int)) (h : iter_walk (n + 1) st = s :: rest) :
    iter_in_range st = true ∧ st.subs = s ∧ iter_walk n (iter_next st) = rest := by
  rw [iter_walk] at h
  by_cases hir : iter_in_range st = true
  · rw [if_pos hir] at h
    injection h with h1 h2
    exact ⟨hir, h1, h2⟩
  · rw [if_neg hir] at h
    simp at h

theorem draw_loop_append_spec {α : Type} [Inhabited α] (lhs rhs : ArrayM α) (dA dB a : Int) :
    ∀ (cells : List (List Int)) (li ri : SubsIter) (res : ArrayM α),
    (∀ t ∈ cells, lget t a < dA + dB) →
    iter_walk (cells.filter (fun t => decide (lget t a < dA))).length li
      = cells.filter (fun t => decide (lget t a < dA)) →
    iter_walk ((cells.filter (fun t => decide (dA ≤ lget t a))).map
        (fun t => lset t a (lget t a - dA))).length ri
      = (cells.filter (fun t => decide (dA ≤ lget t a))).map
          (fun t => lset t a (lget t a - dA)) →
    draw_loop lhs rhs dA dB a cells li ri res
      = cells.foldl (fun r t => aset r t (if lget t a < dA then aget lhs t
          else aget rhs (lset t a (lget t a - dA)))) res
  | [], li, ri, res, _, _, _ => rfl
  | t :: rest, li, ri, res, hbnd, hwl, hwr => by
    have hbt : lget t a < dA + dB := hbnd t (by simp)
    by_cases hlt : lget t a < dA
    · rw [List.filter_cons_of_pos (by simp [hlt])] at hwl
      rw [List.filter_cons_of_neg (by simp; omega)] at hwr
      rw [List.length_cons] at hwl
      obtain ⟨hinr, hsubs, hwln⟩ := iter_walk_cons_elim li _ _ _ hwl
      rw [draw_loop, if_pos (Or.inl ⟨hinr, hlt⟩), hsubs]
      rw [draw_loop_append_spec lhs rhs dA dB a rest (iter_next li) ri _
        (fun x hx => hbnd x (List.mem_cons_of_mem t hx)) hwln hwr]
      rw [List.foldl_cons, if_pos hlt]
    · rw [List.filter_cons_of_neg (by simp [hlt])] at hwl
      rw [List.filter_cons_of_pos (by simp; omega), List.map_cons] at hwr
      rw [List.length_cons] at hwr
      obtain ⟨hinr, hsubs, hwrn⟩ := iter_walk_cons_elim ri _ _ _ hwr
      rw [draw_loop, if_neg ?_, if_pos ⟨hinr, by omega, hbt⟩, hsubs]
      · rw [draw_loop_append_spec lhs rhs dA dB a rest li (iter_next ri) _
          (fun x hx => hbnd x (List.mem_cons_of_mem t hx)) hwl hwrn]
        rw [List.foldl_cons, if_neg hlt]
      · rintro (⟨_, hc⟩ | hge)
        · exact hlt hc
        · omega

/-- C6: for non-empty operands of equal rank, `append(A, B, axis)` fails with
shape-mismatch exactly on an off-axis dimension disagreement; otherwise the
result grows the modulo-wrapped (hence possibly negatively specified) axis by
the right operand extent, and every result cell whose subscript at the axis
lies below `A.dims[axis]` holds the corresponding element of `A` while the
remaining cells hold the corresponding element of `B` shifted back along the
axis. -/
theorem claim_C6_append {α : Type} [Inhabited α] (lhs rhs : ArrayM α) (axis : Int)
    (fresh : Nat)
    (hel : aempty lhs = false) (her : aempty rhs = false)
    (hnel : lhs.hdr.dims ≠ []) (hposl : dims_pos lhs.hdr.dims)
    (hposr : dims_pos rhs.hdr.dims)
    (hrank : lhs.hdr.dims.length = rhs.hdr.dims.length)
    (hcl : lhs.hdr.count = numel lhs.hdr.dims)
    (hcr : rhs.hdr.count = numel rhs.hdr.dims) :
    ((∃ i ∈ List.range lhs.hdr.dims.length,
        (i : Int) ≠ modulo axis ((lhs.hdr.dims.length : Nat) : Int)
        ∧ lhs.hdr.dims.getD i 0 ≠ rhs.hdr.dims.getD i 0) →
      append_axis lhs rhs axis fresh = .error "different dimension value")
    ∧ ((∀ i < lhs.hdr.dims.length,
          (i : Int) ≠ modulo axis ((lhs.hdr.dims.length : Nat) : Int) →
          lhs.hdr.dims.getD i 0 = rhs.hdr.dims.getD i 0) →
      ∃ r, append_axis lhs rhs axis fresh = .ok r
        ∧ r.hdr.dims = lhs.hdr.dims.set (modulo axis ((lhs.hdr.dims.length : Nat) : Int)).toNat (lget lhs.hdr.dims (modulo axis ((lhs.hdr.dims.length : Nat) : Int)) + lget rhs.hdr.dims (modulo axis ((lhs.hdr.dims.length : Nat) : Int)))
        ∧ ∀ t ∈ row_major_enum r.hdr.dims,
            (lget t (modulo axis ((lhs.hdr.dims.length : Nat) : Int)) < lget lhs.hdr.dims (modulo axis ((lhs.hdr.dims.length : Nat) : Int)) → aget r t = aget lhs t)
            ∧ (lget lhs.hdr.dims (modulo axis ((lhs.hdr.dims.length : Nat) : Int)) ≤ lget t (modulo axis ((lhs.hdr.dims.length : Nat) : Int)) →
              aget r t = aget rhs (lset t (modulo axis ((lhs.hdr.dims.length : Nat) : Int)) (lget t (modulo axis ((lhs.hdr.dims.length : Nat) : Int)) - lget lhs.hdr.dims (modulo axis ((lhs.hdr.dims.length : Nat) : Int)))))) := by
  have hN : 0 < lhs.hdr.dims.length := List.length_pos.mpr hnel
  have hm0 : 0 ≤ modulo axis ((lhs.hdr.dims.length : Nat) : Int) := Int.emod_nonneg axis (by omega)
  have hmodeq : modulo axis ((lhs.hdr.dims.length : Nat) : Int) = axis % ((lhs.hdr.dims.length : Nat) : Int) := rfl
  have haN : (modulo axis ((lhs.hdr.dims.length : Nat) : Int)).toNat < lhs.hdr.dims.length := by
    have := Int.emod_lt_of_pos axis
      (show (0 : Int) < ((lhs.hdr.dims.length : Nat) : Int) by omega)
    omega
  have hner : rhs.hdr.dims ≠ [] := by
    intro h
    rw [h] at hrank
    simp only [List.length_nil] at hrank
    omega
  have hdA : 0 < lget lhs.hdr.dims (modulo axis ((lhs.hdr.dims.length : Nat) : Int)) := lget_dims_pos _ hposl _ haN
  have hdB : 0 < lget rhs.hdr.dims (modulo axis ((lhs.hdr.dims.length : Nat) : Int)) := lget_dims_pos _ hposr _ (by omega)
  have hDAe : lget lhs.hdr.dims (modulo axis ((lhs.hdr.dims.length : Nat) : Int)) = lhs.hdr.dims.getD ((modulo axis ((lhs.hdr.dims.length : Nat) : Int)).toNat) 0 := rfl
  have hDBe : lget rhs.hdr.dims (modulo axis ((lhs.hdr.dims.length : Nat) : Int)) = rhs.hdr.dims.getD ((modulo axis ((lhs.hdr.dims.length : Nat) : Int)).toNat) 0 := rfl
  constructor
  · intro hex
    simp only [append_axis]
    rw [if_neg (by simp [hel]), if_neg (by simp [her]), if_neg (fun h => h hrank),
      if_pos hex]
  · intro hag
    have hnoex : ¬ ∃ i ∈ List.range lhs.hdr.dims.length,
        (i : Int) ≠ modulo axis ((lhs.hdr.dims.length : Nat) : Int)
        ∧ lhs.hdr.dims.getD i 0 ≠ rhs.hdr.dims.getD i 0 := by
      rintro ⟨i, hi, hine, hdne⟩
      exact hdne (hag i (List.mem_range.mp hi) hine)
    have hRe : rhs.hdr.dims = lhs.hdr.dims.set ((modulo axis ((lhs.hdr.dims.length : Nat) : Int)).toNat) (lget rhs.hdr.dims (modulo axis ((lhs.hdr.dims.length : Nat) : Int))) := by
      refine List.ext_getElem (by rw [List.length_set]; omega) ?_
      intro k h1 h2
      by_cases hk : ((modulo axis ((lhs.hdr.dims.length : Nat) : Int)).toNat) = k
      · subst hk
        rw [List.getElem_set_self]
        rw [hDBe, List.getD_eq_getElem _ _ h1]
      · rw [List.getElem_set_ne hk]
        have hx := hag k (by omega) (by omega)
        rw [List.getD_eq_getElem _ _ (by omega), List.getD_eq_getElem _ _ h1] at hx
        exact hx.symm
    simp only [append_axis]
    rw [if_neg (by simp [hel]), if_neg (by simp [her]), if_neg (fun h => h hrank),
      if_neg hnoex,
      header_grow_fields lhs.hdr.dims (lget rhs.hdr.dims (modulo axis ((lhs.hdr.dims.length : Nat) : Int))) (modulo axis ((lhs.hdr.dims.length : Nat) : Int)) hnel hposl hm0 haN hdB,
      if_neg (by simp)]
    dsimp only
    have hGpos : dims_pos (lhs.hdr.dims.set (modulo axis ((lhs.hdr.dims.length : Nat) : Int)).toNat (lhs.hdr.dims.getD (modulo axis ((lhs.hdr.dims.length : Nat) : Int)).toNat 0 + lget rhs.hdr.dims (modulo axis ((lhs.hdr.dims.length : Nat) : Int)))) := dims_pos_set _ hposl _ _ (by rw [← hDAe]; omega)
    have hGne : (lhs.hdr.dims.set (modulo axis ((lhs.hdr.dims.length : Nat) : Int)).toNat (lhs.hdr.dims.getD (modulo axis ((lhs.hdr.dims.length : Nat) : Int)).toNat 0 + lget rhs.hdr.dims (modulo axis ((lhs.hdr.dims.length : Nat) : Int)))) ≠ [] := by
      intro h
      have hl := congrArg List.length h
      rw [List.length_set] at hl
      simp only [List.length_nil] at hl
      omega
    have hGnum := numel_pos _ hGne hGpos
    have hGget : (lhs.hdr.dims.set (modulo axis ((lhs.hdr.dims.length : Nat) : Int)).toNat (lhs.hdr.dims.getD (modulo axis ((lhs.hdr.dims.length : Nat) : Int)).toNat 0 + lget rhs.hdr.dims (modulo axis ((lhs.hdr.dims.length : Nat) : Int)))).getD ((modulo axis ((lhs.hdr.dims.length : Nat) : Int)).toNat) 0 = lhs.hdr.dims.getD ((modulo axis ((lhs.hdr.dims.length : Nat) : Int)).toNat) 0 + lget rhs.hdr.dims (modulo axis ((lhs.hdr.dims.length : Nat) : Int)) := by
      rw [List.getD_eq_getElem _ _ (by rw [List.length_set]; exact haN),
        List.getElem_set_self]
    have hset1 : (lhs.hdr.dims.set (modulo axis ((lhs.hdr.dims.length : Nat) : Int)).toNat (lhs.hdr.dims.getD (modulo axis ((lhs.hdr.dims.length : Nat) : Int)).toNat 0 + lget rhs.hdr.dims (modulo axis ((lhs.hdr.dims.length : Nat) : Int)))).set ((modulo axis ((lhs.hdr.dims.length : Nat) : Int)).toNat) (lget lhs.hdr.dims (modulo axis ((lhs.hdr.dims.length : Nat) : Int))) = lhs.hdr.dims := by
      rw [List.set_set]
      exact lset_self lhs.hdr.dims (modulo axis ((lhs.hdr.dims.length : Nat) : Int)) (lget lhs.hdr.dims (modulo axis ((lhs.hdr.dims.length : Nat) : Int))) rfl haN
    have hvald : lhs.hdr.dims.getD ((modulo axis ((lhs.hdr.dims.length : Nat) : Int)).toNat) 0 + lget rhs.hdr.dims (modulo axis ((lhs.hdr.dims.length : Nat) : Int)) - lget lhs.hdr.dims (modulo axis ((lhs.hdr.dims.length : Nat) : Int)) = lget rhs.hdr.dims (modulo axis ((lhs.hdr.dims.length : Nat) : Int)) := by
      rw [← hDAe]
      ring
    have hset2 : (lhs.hdr.dims.set (modulo axis ((lhs.hdr.dims.length : Nat) : Int)).toNat (lhs.hdr.dims.getD (modulo axis ((lhs.hdr.dims.length : Nat) : Int)).toNat 0 + lget rhs.hdr.dims (modulo axis ((lhs.hdr.dims.length : Nat) : Int)))).set ((modulo axis ((lhs.hdr.dims.length : Nat) : Int)).toNat) ((lhs.hdr.dims.set (modulo axis ((lhs.hdr.dims.length : Nat) : Int)).toNat (lhs.hdr.dims.getD (modulo axis ((lhs.hdr.dims.length : Nat) : Int)).toNat 0 + lget rhs.hdr.dims (modulo axis ((lhs.hdr.dims.length : Nat) : Int)))).getD ((modulo axis ((lhs.hdr.dims.length : Nat) : Int)).toNat) 0 - lget lhs.hdr.dims (modulo axis ((lhs.hdr.dims.length : Nat) : Int))) = rhs.hdr.dims := by
      rw [hGget, hvald, List.set_set]
      exact hRe.symm
    have hFL : (row_major_enum (lhs.hdr.dims.set (modulo axis ((lhs.hdr.dims.length : Nat) : Int)).toNat (lhs.hdr.dims.getD (modulo axis ((lhs.hdr.dims.length : Nat) : Int)).toNat 0 + lget rhs.hdr.dims (modulo axis ((lhs.hdr.dims.length : Nat) : Int))))).filter (fun t => decide (lget t (modulo axis ((lhs.hdr.dims.length : Nat) : Int)) < lget lhs.hdr.dims (modulo axis ((lhs.hdr.dims.length : Nat) : Int))))
        = row_major_enum lhs.hdr.dims := by
      have h1 := row_major_filter_lt (lget lhs.hdr.dims (modulo axis ((lhs.hdr.dims.length : Nat) : Int))) (lhs.hdr.dims.set (modulo axis ((lhs.hdr.dims.length : Nat) : Int)).toNat (lhs.hdr.dims.getD (modulo axis ((lhs.hdr.dims.length : Nat) : Int)).toNat 0 + lget rhs.hdr.dims (modulo axis ((lhs.hdr.dims.length : Nat) : Int)))) ((modulo axis ((lhs.hdr.dims.length : Nat) : Int)).toNat)
        (by rw [List.length_set]; exact haN) (by omega)
        (by rw [hGget]; omega)
      rw [hset1] at h1
      exact h1
    have hFG : (row_major_enum (lhs.hdr.dims.set (modulo axis ((lhs.hdr.dims.length : Nat) : Int)).toNat (lhs.hdr.dims.getD (modulo axis ((lhs.hdr.dims.length : Nat) : Int)).toNat 0 + lget rhs.hdr.dims (modulo axis ((lhs.hdr.dims.length : Nat) : Int))))).filter (fun t => decide (lget lhs.hdr.dims (modulo axis ((lhs.hdr.dims.length : Nat) : Int)) ≤ lget t (modulo axis ((lhs.hdr.dims.length : Nat) : Int))))
        = (row_major_enum rhs.hdr.dims).map
            (fun t => t.set ((modulo axis ((lhs.hdr.dims.length : Nat) : Int)).toNat) (t.getD ((modulo axis ((lhs.hdr.dims.length : Nat) : Int)).toNat) 0 + lget lhs.hdr.dims (modulo axis ((lhs.hdr.dims.length : Nat) : Int)))) := by
      have h1 := row_major_filter_ge (lget lhs.hdr.dims (modulo axis ((lhs.hdr.dims.length : Nat) : Int))) (lhs.hdr.dims.set (modulo axis ((lhs.hdr.dims.length : Nat) : Int)).toNat (lhs.hdr.dims.getD (modulo axis ((lhs.hdr.dims.length : Nat) : Int)).toNat 0 + lget rhs.hdr.dims (modulo axis ((lhs.hdr.dims.length : Nat) : Int)))) ((modulo axis ((lhs.hdr.dims.length : Nat) : Int)).toNat)
        (by rw [List.length_set]; exact haN) (by omega)
        (by rw [hGget]; omega)
      rw [hset2] at h1
      exact h1
    have hmapR : ((row_major_enum (lhs.hdr.dims.set (modulo axis ((lhs.hdr.dims.length : Nat) : Int)).toNat (lhs.hdr.dims.getD (modulo axis ((lhs.hdr.dims.length : Nat) : Int)).toNat 0 + lget rhs.hdr.dims (modulo axis ((lhs.hdr.dims.length : Nat) : Int))))).filter
          (fun t => decide (lget lhs.hdr.dims (modulo axis ((lhs.hdr.dims.length : Nat) : Int)) ≤ lget t (modulo axis ((lhs.hdr.dims.length : Nat) : Int))))).map
            (fun t => lset t (modulo axis ((lhs.hdr.dims.length : Nat) : Int)) (lget t (modulo axis ((lhs.hdr.dims.length : Nat) : Int)) - lget lhs.hdr.dims (modulo axis ((lhs.hdr.dims.length : Nat) : Int))))
        = row_major_enum rhs.hdr.dims := by
      rw [hFG, List.map_map]
      have hdu : ∀ t ∈ row_major_enum rhs.hdr.dims,
          ((fun t => lset t (modulo axis ((lhs.hdr.dims.length : Nat) : Int)) (lget t (modulo axis ((lhs.hdr.dims.length : Nat) : Int)) - lget lhs.hdr.dims (modulo axis ((lhs.hdr.dims.length : Nat) : Int))))
            ∘ (fun t => t.set ((modulo axis ((lhs.hdr.dims.length : Nat) : Int)).toNat) (t.getD ((modulo axis ((lhs.hdr.dims.length : Nat) : Int)).toNat) 0 + lget lhs.hdr.dims (modulo axis ((lhs.hdr.dims.length : Nat) : Int))))) t = id t := by
        intro t ht
        have hv := row_major_valid _ t ht
        have htl : ((modulo axis ((lhs.hdr.dims.length : Nat) : Int)).toNat) < t.length := by rw [hv.1]; omega
        show lset (t.set ((modulo axis ((lhs.hdr.dims.length : Nat) : Int)).toNat) (t.getD ((modulo axis ((lhs.hdr.dims.length : Nat) : Int)).toNat) 0 + lget lhs.hdr.dims (modulo axis ((lhs.hdr.dims.length : Nat) : Int)))) (modulo axis ((lhs.hdr.dims.length : Nat) : Int))
            (lget (t.set ((modulo axis ((lhs.hdr.dims.length : Nat) : Int)).toNat) (t.getD ((modulo axis ((lhs.hdr.dims.length : Nat) : Int)).toNat) 0 + lget lhs.hdr.dims (modulo axis ((lhs.hdr.dims.length : Nat) : Int)))) (modulo axis ((lhs.hdr.dims.length : Nat) : Int)) - lget lhs.hdr.dims (modulo axis ((lhs.hdr.dims.length : Nat) : Int))) = t
        have hup : lget (t.set ((modulo axis ((lhs.hdr.dims.length : Nat) : Int)).toNat) (t.getD ((modulo axis ((lhs.hdr.dims.length : Nat) : Int)).toNat) 0 + lget lhs.hdr.dims (modulo axis ((lhs.hdr.dims.length : Nat) : Int)))) (modulo axis ((lhs.hdr.dims.length : Nat) : Int))
            = t.getD ((modulo axis ((lhs.hdr.dims.length : Nat) : Int)).toNat) 0 + lget lhs.hdr.dims (modulo axis ((lhs.hdr.dims.length : Nat) : Int)) := by
          rw [lget, List.getD_eq_getElem _ _ (by rw [List.length_set]; exact htl),
            List.getElem_set_self]
        rw [hup, show t.getD ((modulo axis ((lhs.hdr.dims.length : Nat) : Int)).toNat) 0 + lget lhs.hdr.dims (modulo axis ((lhs.hdr.dims.length : Nat) : Int)) - lget lhs.hdr.dims (modulo axis ((lhs.hdr.dims.length : Nat) : Int)) = t.getD ((modulo axis ((lhs.hdr.dims.length : Nat) : Int)).toNat) 0 by ring]
        rw [lset, List.set_set]
        exact lset_self t (modulo axis ((lhs.hdr.dims.length : Nat) : Int)) (t.getD ((modulo axis ((lhs.hdr.dims.length : Nat) : Int)).toNat) 0) rfl htl
      rw [List.map_congr_left hdu, List.map_id]
    have hwalkD : iter_walk (row_major_enum lhs.hdr.dims).length
        (mk_iter_default lhs.hdr.dims) = row_major_enum lhs.hdr.dims :=
      iter_walk_default_row_major lhs.hdr.dims hnel hposl _
        (by rw [row_major_length _ hposl, ← numel_eq_prod _ hnel hposl])
    have hwalkR : iter_walk (row_major_enum rhs.hdr.dims).length
        (mk_iter_default rhs.hdr.dims) = row_major_enum rhs.hdr.dims :=
      iter_walk_default_row_major rhs.hdr.dims hner hposr _
        (by rw [row_major_length _ hposr, ← numel_eq_prod _ hner hposr])
    have hwl : iter_walk ((row_major_enum (lhs.hdr.dims.set (modulo axis ((lhs.hdr.dims.length : Nat) : Int)).toNat (lhs.hdr.dims.getD (modulo axis ((lhs.hdr.dims.length : Nat) : Int)).toNat 0 + lget rhs.hdr.dims (modulo axis ((lhs.hdr.dims.length : Nat) : Int))))).filter
          (fun t => decide (lget t (modulo axis ((lhs.hdr.dims.length : Nat) : Int)) < lget lhs.hdr.dims (modulo axis ((lhs.hdr.dims.length : Nat) : Int))))).length
        (mk_iter_default lhs.hdr.dims)
        = (row_major_enum (lhs.hdr.dims.set (modulo axis ((lhs.hdr.dims.length : Nat) : Int)).toNat (lhs.hdr.dims.getD (modulo axis ((lhs.hdr.dims.length : Nat) : Int)).toNat 0 + lget rhs.hdr.dims (modulo axis ((lhs.hdr.dims.length : Nat) : Int))))).filter (fun t => decide (lget t (modulo axis ((lhs.hdr.dims.length : Nat) : Int)) < lget lhs.hdr.dims (modulo axis ((lhs.hdr.dims.length : Nat) : Int)))) := by
      rw [hFL]
      exact hwalkD
    have hwr : iter_walk (((row_major_enum (lhs.hdr.dims.set (modulo axis ((lhs.hdr.dims.length : Nat) : Int)).toNat (lhs.hdr.dims.getD (modulo axis ((lhs.hdr.dims.length : Nat) : Int)).toNat 0 + lget rhs.hdr.dims (modulo axis ((lhs.hdr.dims.length : Nat) : Int))))).filter
          (fun t => decide (lget lhs.hdr.dims (modulo axis ((lhs.hdr.dims.length : Nat) : Int)) ≤ lget t (modulo axis ((lhs.hdr.dims.length : Nat) : Int))))).map
            (fun t => lset t (modulo axis ((lhs.hdr.dims.length : Nat) : Int)) (lget t (modulo axis ((lhs.hdr.dims.length : Nat) : Int)) - lget lhs.hdr.dims (modulo axis ((lhs.hdr.dims.length : Nat) : Int))))).length
        (mk_iter_default rhs.hdr.dims)
        = ((row_major_enum (lhs.hdr.dims.set (modulo axis ((lhs.hdr.dims.length : Nat) : Int)).toNat (lhs.hdr.dims.getD (modulo axis ((lhs.hdr.dims.length : Nat) : Int)).toNat 0 + lget rhs.hdr.dims (modulo axis ((lhs.hdr.dims.length : Nat) : Int))))).filter
            (fun t => decide (lget lhs.hdr.dims (modulo axis ((lhs.hdr.dims.length : Nat) : Int)) ≤ lget t (modulo axis ((lhs.hdr.dims.length : Nat) : Int))))).map
              (fun t => lset t (modulo axis ((lhs.hdr.dims.length : Nat) : Int)) (lget t (modulo axis ((lhs.hdr.dims.length : Nat) : Int)) - lget lhs.hdr.dims (modulo axis ((lhs.hdr.dims.length : Nat) : Int)))) := by
      rw [hmapR]
      exact hwalkR
    have hb : ∀ t ∈ row_major_enum (lhs.hdr.dims.set (modulo axis ((lhs.hdr.dims.length : Nat) : Int)).toNat (lhs.hdr.dims.getD (modulo axis ((lhs.hdr.dims.length : Nat) : Int)).toNat 0 + lget rhs.hdr.dims (modulo axis ((lhs.hdr.dims.length : Nat) : Int)))), lget t (modulo axis ((lhs.hdr.dims.length : Nat) : Int)) < lget lhs.hdr.dims (modulo axis ((lhs.hdr.dims.length : Nat) : Int)) + lget rhs.hdr.dims (modulo axis ((lhs.hdr.dims.length : Nat) : Int)) := by
      intro t ht
      have hv := row_major_valid _ t ht
      have h2 := hv.2 ((modulo axis ((lhs.hdr.dims.length : Nat) : Int)).toNat) (by rw [List.length_set]; exact haN)
      rw [hGget] at h2
      show t.getD ((modulo axis ((lhs.hdr.dims.length : Nat) : Int)).toNat) 0 < lget lhs.hdr.dims (modulo axis ((lhs.hdr.dims.length : Nat) : Int)) + lget rhs.hdr.dims (modulo axis ((lhs.hdr.dims.length : Nat) : Int))
      rw [hDAe]
      omega
    have hsum : lhs.hdr.count + rhs.hdr.count = numel (lhs.hdr.dims.set (modulo axis ((lhs.hdr.dims.length : Nat) : Int)).toNat (lhs.hdr.dims.getD (modulo axis ((lhs.hdr.dims.length : Nat) : Int)).toNat 0 + lget rhs.hdr.dims (modulo axis ((lhs.hdr.dims.length : Nat) : Int)))) := by
      have hprodG : (lhs.hdr.dims.set (modulo axis ((lhs.hdr.dims.length : Nat) : Int)).toNat (lhs.hdr.dims.getD (modulo axis ((lhs.hdr.dims.length : Nat) : Int)).toNat 0 + lget rhs.hdr.dims (modulo axis ((lhs.hdr.dims.length : Nat) : Int)))).prod
          = (lhs.hdr.dims.eraseIdx ((modulo axis ((lhs.hdr.dims.length : Nat) : Int)).toNat)).prod * (lhs.hdr.dims.getD ((modulo axis ((lhs.hdr.dims.length : Nat) : Int)).toNat) 0 + lget rhs.hdr.dims (modulo axis ((lhs.hdr.dims.length : Nat) : Int))) :=
        prod_set lhs.hdr.dims ((modulo axis ((lhs.hdr.dims.length : Nat) : Int)).toNat) _ haN
      have hprodD : lhs.hdr.dims.prod
          = (lhs.hdr.dims.eraseIdx ((modulo axis ((lhs.hdr.dims.length : Nat) : Int)).toNat)).prod * lhs.hdr.dims.getD ((modulo axis ((lhs.hdr.dims.length : Nat) : Int)).toNat) 0 :=
        prod_eraseIdx lhs.hdr.dims ((modulo axis ((lhs.hdr.dims.length : Nat) : Int)).toNat) haN
      have hprodR : rhs.hdr.dims.prod = (lhs.hdr.dims.eraseIdx ((modulo axis ((lhs.hdr.dims.length : Nat) : Int)).toNat)).prod * (lget rhs.hdr.dims (modulo axis ((lhs.hdr.dims.length : Nat) : Int))) := by
        conv_lhs => rw [hRe]
        exact prod_set lhs.hdr.dims ((modulo axis ((lhs.hdr.dims.length : Nat) : Int)).toNat) (lget rhs.hdr.dims (modulo axis ((lhs.hdr.dims.length : Nat) : Int))) haN
      rw [hcl, hcr, numel_eq_prod lhs.hdr.dims hnel hposl,
        numel_eq_prod rhs.hdr.dims hner hposr, numel_eq_prod _ hGne hGpos,
        hprodG, hprodD, hprodR]
      ring
    have hnd : ((row_major_enum (lhs.hdr.dims.set (modulo axis ((lhs.hdr.dims.length : Nat) : Int)).toNat (lhs.hdr.dims.getD (modulo axis ((lhs.hdr.dims.length : Nat) : Int)).toNat 0 + lget rhs.hdr.dims (modulo axis ((lhs.hdr.dims.length : Nat) : Int))))).map
        (fun s => (subs2ind 0 (compute_strides (lhs.hdr.dims.set (modulo axis ((lhs.hdr.dims.length : Nat) : Int)).toNat (lhs.hdr.dims.getD (modulo axis ((lhs.hdr.dims.length : Nat) : Int)).toNat 0 + lget rhs.hdr.dims (modulo axis ((lhs.hdr.dims.length : Nat) : Int))))) (lhs.hdr.dims.set (modulo axis ((lhs.hdr.dims.length : Nat) : Int)).toNat (lhs.hdr.dims.getD (modulo axis ((lhs.hdr.dims.length : Nat) : Int)).toNat 0 + lget rhs.hdr.dims (modulo axis ((lhs.hdr.dims.length : Nat) : Int)))) s).toNat)).Nodup := by
      have hmap2 : (row_major_enum (lhs.hdr.dims.set (modulo axis ((lhs.hdr.dims.length : Nat) : Int)).toNat (lhs.hdr.dims.getD (modulo axis ((lhs.hdr.dims.length : Nat) : Int)).toNat 0 + lget rhs.hdr.dims (modulo axis ((lhs.hdr.dims.length : Nat) : Int))))).map
          (fun s => (subs2ind 0 (compute_strides (lhs.hdr.dims.set (modulo axis ((lhs.hdr.dims.length : Nat) : Int)).toNat (lhs.hdr.dims.getD (modulo axis ((lhs.hdr.dims.length : Nat) : Int)).toNat 0 + lget rhs.hdr.dims (modulo axis ((lhs.hdr.dims.length : Nat) : Int))))) (lhs.hdr.dims.set (modulo axis ((lhs.hdr.dims.length : Nat) : Int)).toNat (lhs.hdr.dims.getD (modulo axis ((lhs.hdr.dims.length : Nat) : Int)).toNat 0 + lget rhs.hdr.dims (modulo axis ((lhs.hdr.dims.length : Nat) : Int)))) s).toNat)
          = (row_major_enum (lhs.hdr.dims.set (modulo axis ((lhs.hdr.dims.length : Nat) : Int)).toNat (lhs.hdr.dims.getD (modulo axis ((lhs.hdr.dims.length : Nat) : Int)).toNat 0 + lget rhs.hdr.dims (modulo axis ((lhs.hdr.dims.length : Nat) : Int))))).map (fun s => (flat_index (lhs.hdr.dims.set (modulo axis ((lhs.hdr.dims.length : Nat) : Int)).toNat (lhs.hdr.dims.getD (modulo axis ((lhs.hdr.dims.length : Nat) : Int)).toNat 0 + lget rhs.hdr.dims (modulo axis ((lhs.hdr.dims.length : Nat) : Int)))) s).toNat) := by
        refine List.map_congr_left ?_
        intro s hs
        rw [subs2ind_flat _ s hGpos hGne (row_major_valid _ s hs)]
      rw [hmap2, map_flat_row_major _ hGpos]
      exact List.nodup_range _
    have hbdd : ∀ s ∈ row_major_enum (lhs.hdr.dims.set (modulo axis ((lhs.hdr.dims.length : Nat) : Int)).toNat (lhs.hdr.dims.getD (modulo axis ((lhs.hdr.dims.length : Nat) : Int)).toNat 0 + lget rhs.hdr.dims (modulo axis ((lhs.hdr.dims.length : Nat) : Int)))),
        (subs2ind 0 (compute_strides (lhs.hdr.dims.set (modulo axis ((lhs.hdr.dims.length : Nat) : Int)).toNat (lhs.hdr.dims.getD (modulo axis ((lhs.hdr.dims.length : Nat) : Int)).toNat 0 + lget rhs.hdr.dims (modulo axis ((lhs.hdr.dims.length : Nat) : Int))))) (lhs.hdr.dims.set (modulo axis ((lhs.hdr.dims.length : Nat) : Int)).toNat (lhs.hdr.dims.getD (modulo axis ((lhs.hdr.dims.length : Nat) : Int)).toNat 0 + lget rhs.hdr.dims (modulo axis ((lhs.hdr.dims.length : Nat) : Int)))) s).toNat
          < (List.replicate (lhs.hdr.count + rhs.hdr.count).toNat (default : α)).length := by
      intro s hs
      have hvs := row_major_valid _ s hs
      have hfb := flat_bounds (lhs.hdr.dims.set (modulo axis ((lhs.hdr.dims.length : Nat) : Int)).toNat (lhs.hdr.dims.getD (modulo axis ((lhs.hdr.dims.length : Nat) : Int)).toNat 0 + lget rhs.hdr.dims (modulo axis ((lhs.hdr.dims.length : Nat) : Int)))) hGpos s hvs
      rw [List.length_replicate, subs2ind_flat _ s hGpos hGne hvs]
      have hq := numel_eq_prod (lhs.hdr.dims.set (modulo axis ((lhs.hdr.dims.length : Nat) : Int)).toNat (lhs.hdr.dims.getD (modulo axis ((lhs.hdr.dims.length : Nat) : Int)).toNat 0 + lget rhs.hdr.dims (modulo axis ((lhs.hdr.dims.length : Nat) : Int)))) hGne hGpos
      omega
    rw [iter_walk_default_row_major (lhs.hdr.dims.set (modulo axis ((lhs.hdr.dims.length : Nat) : Int)).toNat (lhs.hdr.dims.getD (modulo axis ((lhs.hdr.dims.length : Nat) : Int)).toNat 0 + lget rhs.hdr.dims (modulo axis ((lhs.hdr.dims.length : Nat) : Int)))) hGne hGpos _ le_rfl]
    rw [draw_loop_append_spec lhs rhs (lget lhs.hdr.dims (modulo axis ((lhs.hdr.dims.length : Nat) : Int))) (lget rhs.hdr.dims (modulo axis ((lhs.hdr.dims.length : Nat) : Int))) (modulo axis ((lhs.hdr.dims.length : Nat) : Int)) (row_major_enum (lhs.hdr.dims.set (modulo axis ((lhs.hdr.dims.length : Nat) : Int)).toNat (lhs.hdr.dims.getD (modulo axis ((lhs.hdr.dims.length : Nat) : Int)).toNat 0 + lget rhs.hdr.dims (modulo axis ((lhs.hdr.dims.length : Nat) : Int)))))
      (mk_iter_default lhs.hdr.dims) (mk_iter_default rhs.hdr.dims) _ hb hwl hwr]
    rw [foldl_aset_spec (fun t => t)
      (fun t => if lget t (modulo axis ((lhs.hdr.dims.length : Nat) : Int)) < lget lhs.hdr.dims (modulo axis ((lhs.hdr.dims.length : Nat) : Int)) then aget lhs t
        else aget rhs (lset t (modulo axis ((lhs.hdr.dims.length : Nat) : Int)) (lget t (modulo axis ((lhs.hdr.dims.length : Nat) : Int)) - lget lhs.hdr.dims (modulo axis ((lhs.hdr.dims.length : Nat) : Int))))) _ _]
    dsimp only
    refine ⟨_, rfl, rfl, ?_⟩
    intro t ht
    have htG : t ∈ row_major_enum (lhs.hdr.dims.set (modulo axis ((lhs.hdr.dims.length : Nat) : Int)).toNat (lhs.hdr.dims.getD (modulo axis ((lhs.hdr.dims.length : Nat) : Int)).toNat 0 + lget rhs.hdr.dims (modulo axis ((lhs.hdr.dims.length : Nat) : Int)))) := ht
    constructor
    · intro hlt
      have hfs := foldl_set_getD (row_major_enum (lhs.hdr.dims.set (modulo axis ((lhs.hdr.dims.length : Nat) : Int)).toNat (lhs.hdr.dims.getD (modulo axis ((lhs.hdr.dims.length : Nat) : Int)).toNat 0 + lget rhs.hdr.dims (modulo axis ((lhs.hdr.dims.length : Nat) : Int)))))
        (fun s => (subs2ind 0 (compute_strides (lhs.hdr.dims.set (modulo axis ((lhs.hdr.dims.length : Nat) : Int)).toNat (lhs.hdr.dims.getD (modulo axis ((lhs.hdr.dims.length : Nat) : Int)).toNat 0 + lget rhs.hdr.dims (modulo axis ((lhs.hdr.dims.length : Nat) : Int))))) (lhs.hdr.dims.set (modulo axis ((lhs.hdr.dims.length : Nat) : Int)).toNat (lhs.hdr.dims.getD (modulo axis ((lhs.hdr.dims.length : Nat) : Int)).toNat 0 + lget rhs.hdr.dims (modulo axis ((lhs.hdr.dims.length : Nat) : Int)))) s).toNat)
        (fun t => if lget t (modulo axis ((lhs.hdr.dims.length : Nat) : Int)) < lget lhs.hdr.dims (modulo axis ((lhs.hdr.dims.length : Nat) : Int)) then aget lhs t
          else aget rhs (lset t (modulo axis ((lhs.hdr.dims.length : Nat) : Int)) (lget t (modulo axis ((lhs.hdr.dims.length : Nat) : Int)) - lget lhs.hdr.dims (modulo axis ((lhs.hdr.dims.length : Nat) : Int)))))
        (List.replicate (lhs.hdr.count + rhs.hdr.count).toNat default) default
        hnd hbdd t htG
      dsimp only at hfs
      rw [if_pos hlt] at hfs
      exact hfs
    · intro hge
      have hfs := foldl_set_getD (row_major_enum (lhs.hdr.dims.set (modulo axis ((lhs.hdr.dims.length : Nat) : Int)).toNat (lhs.hdr.dims.getD (modulo axis ((lhs.hdr.dims.length : Nat) : Int)).toNat 0 + lget rhs.hdr.dims (modulo axis ((lhs.hdr.dims.length : Nat) : Int)))))
        (fun s => (subs2ind 0 (compute_strides (lhs.hdr.dims.set (modulo axis ((lhs.hdr.dims.length : Nat) : Int)).toNat (lhs.hdr.dims.getD (modulo axis ((lhs.hdr.dims.length : Nat) : Int)).toNat 0 + lget rhs.hdr.dims (modulo axis ((lhs.hdr.dims.length : Nat) : Int))))) (lhs.hdr.dims.set (modulo axis ((lhs.hdr.dims.length : Nat) : Int)).toNat (lhs.hdr.dims.getD (modulo axis ((lhs.hdr.dims.length : Nat) : Int)).toNat 0 + lget rhs.hdr.dims (modulo axis ((lhs.hdr.dims.length : Nat) : Int)))) s).toNat)
        (fun t => if lget t (modulo axis ((lhs.hdr.dims.length : Nat) : Int)) < lget lhs.hdr.dims (modulo axis ((lhs.hdr.dims.length : Nat) : Int)) then aget lhs t
          else aget rhs (lset t (modulo axis ((lhs.hdr.dims.length : Nat) : Int)) (lget t (modulo axis ((lhs.hdr.dims.length : Nat) : Int)) - lget lhs.hdr.dims (modulo axis ((lhs.hdr.dims.length : Nat) : Int)))))
        (List.replicate (lhs.hdr.count + rhs.hdr.count).toNat default) default
        hnd hbdd t htG
      dsimp only at hfs
      rw [if_neg (by omega)] at hfs
      exact hfs

theorem claim_C6_append_witness :
    (aempty (mk_array [2, 2] [1, 2, 3, 4] 0 : ArrayM Int) = false ∧ aempty (mk_array [1, 2] [5, 6] 1 : ArrayM Int) = false
      ∧ (mk_array [2, 2] [1, 2, 3, 4] 0 : ArrayM Int).hdr.dims ≠ [] ∧ dims_pos (mk_array [2, 2] [1, 2, 3, 4] 0 : ArrayM Int).hdr.dims ∧ dims_pos (mk_array [1, 2] [5, 6] 1 : ArrayM Int).hdr.dims
      ∧ (mk_array [2, 2] [1, 2, 3, 4] 0 : ArrayM Int).hdr.dims.length = (mk_array [1, 2] [5, 6] 1 : ArrayM Int).hdr.dims.length
      ∧ (mk_array [2, 2] [1, 2, 3, 4] 0 : ArrayM Int).hdr.count = numel (mk_array [2, 2] [1, 2, 3, 4] 0 : ArrayM Int).hdr.dims
      ∧ (mk_array [1, 2] [5, 6] 1 : ArrayM Int).hdr.count = numel (mk_array [1, 2] [5, 6] 1 : ArrayM Int).hdr.dims)
    ∧ (((∃ i ∈ List.range (mk_array [2, 2] [1, 2, 3, 4] 0 : ArrayM Int).hdr.dims.length,
          (i : Int) ≠ modulo 0 (((mk_array [2, 2] [1, 2, 3, 4] 0 : ArrayM Int).hdr.dims.length : Nat) : Int)
          ∧ (mk_array [2, 2] [1, 2, 3, 4] 0 : ArrayM Int).hdr.dims.getD i 0 ≠ (mk_array [1, 2] [5, 6] 1 : ArrayM Int).hdr.dims.getD i 0) →
        append_axis (mk_array [2, 2] [1, 2, 3, 4] 0 : ArrayM Int) (mk_array [1, 2] [5, 6] 1 : ArrayM Int) 0 5 = .error "different dimension value")
      ∧ ((∀ i < (mk_array [2, 2] [1, 2, 3, 4] 0 : ArrayM Int).hdr.dims.length,
            (i : Int) ≠ modulo 0 (((mk_array [2, 2] [1, 2, 3, 4] 0 : ArrayM Int).hdr.dims.length : Nat) : Int) →
            (mk_array [2, 2] [1, 2, 3, 4] 0 : ArrayM Int).hdr.dims.getD i 0 = (mk_array [1, 2] [5, 6] 1 : ArrayM Int).hdr.dims.getD i 0) →
        ∃ r, append_axis (mk_array [2, 2] [1, 2, 3, 4] 0 : ArrayM Int) (mk_array [1, 2] [5, 6] 1 : ArrayM Int) 0 5 = .ok r
          ∧ r.hdr.dims = (mk_array [2, 2] [1, 2, 3, 4] 0 : ArrayM Int).hdr.dims.set (modulo 0 (((mk_array [2, 2] [1, 2, 3, 4] 0 : ArrayM Int).hdr.dims.length : Nat) : Int)).toNat (lget (mk_array [2, 2] [1, 2, 3, 4] 0 : ArrayM Int).hdr.dims (modulo 0 (((mk_array [2, 2] [1, 2, 3, 4] 0 : ArrayM Int).hdr.dims.length : Nat) : Int)) + lget (mk_array [1, 2] [5, 6] 1 : ArrayM Int).hdr.dims (modulo 0 (((mk_array [2, 2] [1, 2, 3, 4] 0 : ArrayM Int).hdr.dims.length : Nat) : Int)))
          ∧ ∀ t ∈ row_major_enum r.hdr.dims,
              (lget t (modulo 0 (((mk_array [2, 2] [1, 2, 3, 4] 0 : ArrayM Int).hdr.dims.length : Nat) : Int)) < lget (mk_array [2, 2] [1, 2, 3, 4] 0 : ArrayM Int).hdr.dims (modulo 0 (((mk_array [2, 2] [1, 2, 3, 4] 0 : ArrayM Int).hdr.dims.length : Nat) : Int)) → aget r t = aget (mk_array [2, 2] [1, 2, 3, 4] 0 : ArrayM Int) t)
              ∧ (lget (mk_array [2, 2] [1, 2, 3, 4] 0 : ArrayM Int).hdr.dims (modulo 0 (((mk_array [2, 2] [1, 2, 3, 4] 0 : ArrayM Int).hdr.dims.length : Nat) : Int)) ≤ lget t (modulo 0 (((mk_array [2, 2] [1, 2, 3, 4] 0 : ArrayM Int).hdr.dims.length : Nat) : Int)) →
                aget r t = aget (mk_array [1, 2] [5, 6] 1 : ArrayM Int) (lset t (modulo 0 (((mk_array [2, 2] [1, 2, 3, 4] 0 : ArrayM Int).hdr.dims.length : Nat) : Int)) (lget t (modulo 0 (((mk_array [2, 2] [1, 2, 3, 4] 0 : ArrayM Int).hdr.dims.length : Nat) : Int)) - lget (mk_array [2, 2] [1, 2, 3, 4] 0 : ArrayM Int).hdr.dims (modulo 0 (((mk_array [2, 2] [1, 2, 3, 4] 0 : ArrayM Int).hdr.dims.length : Nat) : Int))))))) :=
  ⟨⟨by decide, by decide, by decide, by rw [dims_pos]; decide, by rw [dims_pos]; decide,
      by decide, by decide, by decide⟩,
    claim_C6_append (mk_array [2, 2] [1, 2, 3, 4] 0 : ArrayM Int) (mk_array [1, 2] [5, 6] 1 : ArrayM Int) 0 5 (by decide) (by decide) (by decide)
      (by rw [dims_pos]; decide) (by rw [dims_pos]; decide) (by decide) (by decide)
      (by decide)⟩

/-! ### The along-axis reduce loop -/

theorem reduce_inner_spec {α β : Type} [Inhabited α] (arr : ArrayM α) (f : α → β → β) :
    ∀ (n : Nat) (it : SubsIter) (acc : β) (blk tail : List (List Int)),
    blk.length = n →
    iter_walk (n + tail.length) it = blk ++ tail →
    (reduce_inner arr f n it acc).1
        = blk.foldl (fun a s => f (aget arr s) a) acc
    ∧ iter_walk tail.length (reduce_inner arr f n it acc).2 = tail
  | 0, it, acc, blk, tail, hlen, hw => by
    have hblk : blk = [] := List.length_eq_zero.mp hlen
    subst hblk
    exact ⟨rfl, by simpa using hw⟩
  | n + 1, it, acc, blk, tail, hlen, hw => by
    cases blk with
    | nil => simp at hlen
    | cons s blk2 =>
      rw [List.cons_append, show n + 1 + tail.length = (n + tail.length) + 1 by omega] at hw
      obtain ⟨hinr, hsubs, hwn⟩ := iter_walk_cons_elim it _ _ _ hw
      have hih := reduce_inner_spec arr f n (iter_next it) (f (aget arr it.subs) acc) blk2
        tail (by simpa using hlen) hwn
      refine ⟨?_, hih.2⟩
      rw [List.foldl_cons, ← hsubs]
      exact hih.1

theorem reduce_axis_loop_hdr {α β : Type} [Inhabited α] (arr : ArrayM α) (f : α → β → β)
    (castf : α → β) (cyc : Nat) :
    ∀ (cells : List (List Int)) (ai : SubsIter) (res : ArrayM β),
    (reduce_axis_loop arr f castf cyc cells ai res).hdr = res.hdr
  | [], _, _ => rfl
  | t :: cells2, ai, res => by
    rw [reduce_axis_loop]
    by_cases hinr : iter_in_range ai = true
    · rw [if_pos hinr]
      exact reduce_axis_loop_hdr arr f castf cyc cells2 _ _
    · rw [if_neg hinr]

theorem reduce_axis_loop_spec {α β : Type} [Inhabited α] (arr : ArrayM α) (f : α → β → β)
    (castf : α → β) (cyc : Nat) (bfun : List Int → List (List Int))
    (hblk : ∀ t, (bfun t).length = cyc + 1) :
    ∀ (cells : List (List Int)) (ai : SubsIter) (res : ArrayM β),
    iter_walk (cells.flatMap bfun).length ai = cells.flatMap bfun →
    reduce_axis_loop arr f castf cyc cells ai res
      = cells.foldl (fun r t => aset r t
          (((bfun t).drop 1).foldl (fun acc s => f (aget arr s) acc)
            (castf (aget arr ((bfun t).headD []))))) res
  | [], ai, res, _ => rfl
  | t :: cells2, ai, res, hw => by
    obtain ⟨b0, brest, hbt⟩ : ∃ b0 brest, bfun t = b0 :: brest := by
      cases hb : bfun t with
      | nil =>
        have hc := hblk t
        rw [hb] at hc
        simp at hc
      | cons x xs => exact ⟨x, xs, rfl⟩
    rw [List.flatMap_cons, hbt, List.cons_append, List.length_cons] at hw
    obtain ⟨hinr, hsubs, hwn⟩ := iter_walk_cons_elim ai _ _ _ hw
    have hlenb : brest.length = cyc := by
      have hc := hblk t
      rw [hbt] at hc
      simpa using hc
    rw [List.length_append, hlenb] at hwn
    have hinner := reduce_inner_spec arr f cyc (iter_next ai) (castf (aget arr ai.subs))
      brest (cells2.flatMap bfun) hlenb hwn
    simp only [reduce_axis_loop]
    rw [if_pos hinr]
    rw [reduce_axis_loop_spec arr f castf cyc bfun hblk cells2 _ _ hinner.2]
    rw [List.foldl_cons]
    rw [hinner.1, hsubs, hbt]
    rfl

theorem header_omit_fields (pd : List Int) (axis : Int) (hne : pd ≠ [])
    (hpos : dims_pos pd) (hr : 1 < pd.length) :
    header_omit pd axis
      = Header.mk (pd.eraseIdx (modulo axis (pd.length : Int)).toNat)
        (compute_strides (pd.eraseIdx (modulo axis (pd.length : Int)).toNat)) 0
        (numel (pd.eraseIdx (modulo axis (pd.length : Int)).toNat)) false false := by
  rw [header_omit, if_neg (by have := numel_pos pd hne hpos; omega), omit_dims,
    if_pos hr]

/-- C4 counterexample: `reduce(A, f, axis)` with `axis = rank` does NOT reduce
along the last axis; the axis is wrapped by `modulo`, so `axis = rank` reduces
along axis 0, which on a concrete 2x2 array produces a different result from
the last-axis reduction. -/
theorem claim_C4_reduce_axis_last_axis_refuted :
    ((reduce_axis (mk_array [2, 2] [1, 2, 3, 4] 0 : ArrayM Int) (fun v acc => acc * 10 + v) (fun v => v) 2 9).hdr
        = (reduce_axis (mk_array [2, 2] [1, 2, 3, 4] 0 : ArrayM Int) (fun v acc => acc * 10 + v) (fun v => v) 0 9).hdr
      ∧ (reduce_axis (mk_array [2, 2] [1, 2, 3, 4] 0 : ArrayM Int) (fun v acc => acc * 10 + v) (fun v => v) 2 9).buf
        = (reduce_axis (mk_array [2, 2] [1, 2, 3, 4] 0 : ArrayM Int) (fun v acc => acc * 10 + v) (fun v => v) 0 9).buf)
    ∧ (reduce_axis (mk_array [2, 2] [1, 2, 3, 4] 0 : ArrayM Int) (fun v acc => acc * 10 + v) (fun v => v) 2 9).buf = [13, 24]
    ∧ (reduce_axis (mk_array [2, 2] [1, 2, 3, 4] 0 : ArrayM Int) (fun v acc => acc * 10 + v) (fun v => v) 1 9).buf = [12, 34]
    ∧ (reduce_axis (mk_array [2, 2] [1, 2, 3, 4] 0 : ArrayM Int) (fun v acc => acc * 10 + v) (fun v => v) 2 9).buf
      ≠ (reduce_axis (mk_array [2, 2] [1, 2, 3, 4] 0 : ArrayM Int) (fun v acc => acc * 10 + v) (fun v => v) 1 9).buf := by
  refine ⟨⟨?_, ?_⟩, ?_, ?_, ?_⟩ <;> decide

/-- C4 (amended): for a non-empty array with positive dims, `reduce(A, f, axis)`
wraps the axis by Euclidean modulo into `[0, rank)` (so `axis = rank` reduces
along axis 0, not the last axis); the output shape erases the wrapped axis (or
is `\x7b1\x7d` for a 1-D input), and each output cell folds the `A.dims[axis]`
values along that axis, the first cast and the rest folded left-to-right. -/
theorem claim_C4_reduce_axis_amended {α β : Type} [Inhabited α] [Inhabited β]
    (arr : ArrayM α) (f : α → β → β) (castf : α → β) (axis : Int) (fresh : Nat)
    (dflt : β) (hemp : aempty arr = false) (hne : arr.hdr.dims ≠ [])
    (hpos : dims_pos arr.hdr.dims) :
    (arr.hdr.dims.length = 1 →
      (reduce_axis arr f castf axis fresh).hdr.dims = [1])
    ∧ (1 < arr.hdr.dims.length →
      (reduce_axis arr f castf axis fresh).hdr.dims = arr.hdr.dims.eraseIdx (modulo axis ((arr.hdr.dims.length : Nat) : Int)).toNat
      ∧ ∀ t ∈ row_major_enum (arr.hdr.dims.eraseIdx (modulo axis ((arr.hdr.dims.length : Nat) : Int)).toNat),
          aget (reduce_axis arr f castf axis fresh) t
            = fold_from f castf dflt
              ((rangeI (lget arr.hdr.dims (modulo axis ((arr.hdr.dims.length : Nat) : Int)))).map (fun j => aget arr (insert_at ((modulo axis ((arr.hdr.dims.length : Nat) : Int)).toNat) j t)))) := by
  have hN : 0 < arr.hdr.dims.length := List.length_pos.mpr hne
  have hnum := numel_pos arr.hdr.dims hne hpos
  have hm0 : 0 ≤ modulo axis ((arr.hdr.dims.length : Nat) : Int) := Int.emod_nonneg axis (by omega)
  have hmodeq : modulo axis ((arr.hdr.dims.length : Nat) : Int) = axis % ((arr.hdr.dims.length : Nat) : Int) := rfl
  have haN : (modulo axis ((arr.hdr.dims.length : Nat) : Int)).toNat < arr.hdr.dims.length := by
    have := Int.emod_lt_of_pos axis
      (show (0 : Int) < ((arr.hdr.dims.length : Nat) : Int) by omega)
    omega
  have hdA : 0 < lget arr.hdr.dims (modulo axis ((arr.hdr.dims.length : Nat) : Int)) := lget_dims_pos _ hpos _ haN
  constructor
  · intro h1
    simp only [reduce_axis]
    rw [if_neg (by simp [hemp])]
    have homit : header_omit arr.hdr.dims axis
        = Header.mk [1] (compute_strides [1]) 0 (numel [1]) false false := by
      rw [header_omit, if_neg (by omega), omit_dims, if_neg (by omega)]
    rw [homit, if_neg (by simp)]
    rw [reduce_axis_loop_hdr]
  · intro hr
    have hEpos : dims_pos (arr.hdr.dims.eraseIdx (modulo axis ((arr.hdr.dims.length : Nat) : Int)).toNat) := dims_pos_eraseIdx _ hpos _
    have hEne : (arr.hdr.dims.eraseIdx (modulo axis ((arr.hdr.dims.length : Nat) : Int)).toNat) ≠ [] := by
      intro h
      have hl := congrArg List.length h
      rw [List.length_eraseIdx] at hl
      simp only [List.length_nil, if_pos haN] at hl
      omega
    have hEnum := numel_pos _ hEne hEpos
    have hEprodeq := numel_eq_prod _ hEne hEpos
    have hprodeq := numel_eq_prod _ hne hpos
    have hprodE := prod_eraseIdx arr.hdr.dims ((modulo axis ((arr.hdr.dims.length : Nat) : Int)).toNat) haN
    have hDAe : lget arr.hdr.dims (modulo axis ((arr.hdr.dims.length : Nat) : Int)) = arr.hdr.dims.getD ((modulo axis ((arr.hdr.dims.length : Nat) : Int)).toNat) 0 := rfl
    have hblk : ∀ t : List Int,
        ((rangeI (lget arr.hdr.dims (modulo axis ((arr.hdr.dims.length : Nat) : Int)))).map (fun j => insert_at ((modulo axis ((arr.hdr.dims.length : Nat) : Int)).toNat) j t)).length
          = (lget arr.hdr.dims (modulo axis ((arr.hdr.dims.length : Nat) : Int)) - 1).toNat + 1 := by
      intro t
      rw [List.length_map, rangeI_length]
      omega
    have hLEN : ((row_major_enum (arr.hdr.dims.eraseIdx (modulo axis ((arr.hdr.dims.length : Nat) : Int)).toNat)).flatMap
        (fun t => (rangeI (lget arr.hdr.dims (modulo axis ((arr.hdr.dims.length : Nat) : Int)))).map (fun j => insert_at ((modulo axis ((arr.hdr.dims.length : Nat) : Int)).toNat) j t))).length
        = (numel arr.hdr.dims).toNat := by
      rw [List.length_flatMap]
      have hin : (row_major_enum (arr.hdr.dims.eraseIdx (modulo axis ((arr.hdr.dims.length : Nat) : Int)).toNat)).map
          (List.length ∘ fun t => (rangeI (lget arr.hdr.dims (modulo axis ((arr.hdr.dims.length : Nat) : Int)))).map (fun j => insert_at ((modulo axis ((arr.hdr.dims.length : Nat) : Int)).toNat) j t))
          = (row_major_enum (arr.hdr.dims.eraseIdx (modulo axis ((arr.hdr.dims.length : Nat) : Int)).toNat)).map (fun _ => (lget arr.hdr.dims (modulo axis ((arr.hdr.dims.length : Nat) : Int))).toNat) := by
        refine List.map_congr_left ?_
        intro t _
        simp [Function.comp, rangeI_length]
      rw [hin, List.map_const', List.sum_replicate, row_major_length _ hEpos, smul_eq_mul,
        ← toNat_mul_pos _ _ (by have := List.prod_pos hEpos; omega) (by omega)]
      rw [hprodeq, hprodE, hDAe]
    have hw : iter_walk ((row_major_enum (arr.hdr.dims.eraseIdx (modulo axis ((arr.hdr.dims.length : Nat) : Int)).toNat)).flatMap
        (fun t => (rangeI (lget arr.hdr.dims (modulo axis ((arr.hdr.dims.length : Nat) : Int)))).map (fun j => insert_at ((modulo axis ((arr.hdr.dims.length : Nat) : Int)).toNat) j t))).length
        (mk_iter_axis [] [] arr.hdr.dims axis)
        = (row_major_enum (arr.hdr.dims.eraseIdx (modulo axis ((arr.hdr.dims.length : Nat) : Int)).toNat)).flatMap
            (fun t => (rangeI (lget arr.hdr.dims (modulo axis ((arr.hdr.dims.length : Nat) : Int)))).map (fun j => insert_at ((modulo axis ((arr.hdr.dims.length : Nat) : Int)).toNat) j t)) := by
      rw [hLEN]
      exact iter_walk_axis_insert arr.hdr.dims axis hne hpos _ le_rfl
    have hnd : ((row_major_enum (arr.hdr.dims.eraseIdx (modulo axis ((arr.hdr.dims.length : Nat) : Int)).toNat)).map
        (fun s => (subs2ind 0 (compute_strides (arr.hdr.dims.eraseIdx (modulo axis ((arr.hdr.dims.length : Nat) : Int)).toNat)) (arr.hdr.dims.eraseIdx (modulo axis ((arr.hdr.dims.length : Nat) : Int)).toNat) s).toNat)).Nodup := by
      have hmap2 : (row_major_enum (arr.hdr.dims.eraseIdx (modulo axis ((arr.hdr.dims.length : Nat) : Int)).toNat)).map
          (fun s => (subs2ind 0 (compute_strides (arr.hdr.dims.eraseIdx (modulo axis ((arr.hdr.dims.length : Nat) : Int)).toNat)) (arr.hdr.dims.eraseIdx (modulo axis ((arr.hdr.dims.length : Nat) : Int)).toNat) s).toNat)
          = (row_major_enum (arr.hdr.dims.eraseIdx (modulo axis ((arr.hdr.dims.length : Nat) : Int)).toNat)).map (fun s => (flat_index (arr.hdr.dims.eraseIdx (modulo axis ((arr.hdr.dims.length : Nat) : Int)).toNat) s).toNat) := by
        refine List.map_congr_left ?_
        intro s hs
        rw [subs2ind_flat _ s hEpos hEne (row_major_valid _ s hs)]
      rw [hmap2, map_flat_row_major _ hEpos]
      exact List.nodup_range _
    have hbdd : ∀ s ∈ row_major_enum (arr.hdr.dims.eraseIdx (modulo axis ((arr.hdr.dims.length : Nat) : Int)).toNat),
        (subs2ind 0 (compute_strides (arr.hdr.dims.eraseIdx (modulo axis ((arr.hdr.dims.length : Nat) : Int)).toNat)) (arr.hdr.dims.eraseIdx (modulo axis ((arr.hdr.dims.length : Nat) : Int)).toNat) s).toNat
          < (List.replicate (numel (arr.hdr.dims.eraseIdx (modulo axis ((arr.hdr.dims.length : Nat) : Int)).toNat)).toNat (default : β)).length := by
      intro s hs
      have hvs := row_major_valid _ s hs
      have hfb := flat_bounds (arr.hdr.dims.eraseIdx (modulo axis ((arr.hdr.dims.length : Nat) : Int)).toNat) hEpos s hvs
      rw [List.length_replicate, subs2ind_flat _ s hEpos hEne hvs]
      omega
    simp only [reduce_axis]
    rw [if_neg (by simp [hemp]),
      header_omit_fields arr.hdr.dims axis hne hpos hr, if_neg (by simp)]
    dsimp only
    rw [iter_walk_default_row_major (arr.hdr.dims.eraseIdx (modulo axis ((arr.hdr.dims.length : Nat) : Int)).toNat) hEne hEpos _ le_rfl]
    rw [reduce_axis_loop_spec arr f castf ((lget arr.hdr.dims (modulo axis ((arr.hdr.dims.length : Nat) : Int))) - 1).toNat
      (fun t => (rangeI (lget arr.hdr.dims (modulo axis ((arr.hdr.dims.length : Nat) : Int)))).map (fun j => insert_at ((modulo axis ((arr.hdr.dims.length : Nat) : Int)).toNat) j t)) hblk
      (row_major_enum (arr.hdr.dims.eraseIdx (modulo axis ((arr.hdr.dims.length : Nat) : Int)).toNat)) _ _ hw]
    rw [foldl_aset_spec (fun t => t)
      (fun t => (((rangeI (lget arr.hdr.dims (modulo axis ((arr.hdr.dims.length : Nat) : Int)))).map (fun j => insert_at ((modulo axis ((arr.hdr.dims.length : Nat) : Int)).toNat) j t)).drop 1).foldl
        (fun acc s => f (aget arr s) acc)
        (castf (aget arr (((rangeI (lget arr.hdr.dims (modulo axis ((arr.hdr.dims.length : Nat) : Int)))).map
          (fun j => insert_at ((modulo axis ((arr.hdr.dims.length : Nat) : Int)).toNat) j t)).headD [])))) _ _]
    dsimp only
    refine ⟨rfl, ?_⟩
    intro t ht
    have hfs := foldl_set_getD (row_major_enum (arr.hdr.dims.eraseIdx (modulo axis ((arr.hdr.dims.length : Nat) : Int)).toNat))
      (fun s => (subs2ind 0 (compute_strides (arr.hdr.dims.eraseIdx (modulo axis ((arr.hdr.dims.length : Nat) : Int)).toNat)) (arr.hdr.dims.eraseIdx (modulo axis ((arr.hdr.dims.length : Nat) : Int)).toNat) s).toNat)
      (fun t => (((rangeI (lget arr.hdr.dims (modulo axis ((arr.hdr.dims.length : Nat) : Int)))).map (fun j => insert_at ((modulo axis ((arr.hdr.dims.length : Nat) : Int)).toNat) j t)).drop 1).foldl
        (fun acc s => f (aget arr s) acc)
        (castf (aget arr (((rangeI (lget arr.hdr.dims (modulo axis ((arr.hdr.dims.length : Nat) : Int)))).map
          (fun j => insert_at ((modulo axis ((arr.hdr.dims.length : Nat) : Int)).toNat) j t)).headD []))))
      (List.replicate (numel (arr.hdr.dims.eraseIdx (modulo axis ((arr.hdr.dims.length : Nat) : Int)).toNat)).toNat default) default hnd hbdd t ht
    dsimp only at hfs
    have hbne : (rangeI (lget arr.hdr.dims (modulo axis ((arr.hdr.dims.length : Nat) : Int)))).map (fun j => insert_at ((modulo axis ((arr.hdr.dims.length : Nat) : Int)).toNat) j t) ≠ [] := by
      intro h
      have hc := hblk t
      rw [h] at hc
      simp at hc
    obtain ⟨b0, bs, hb⟩ := List.exists_cons_of_ne_nil hbne
    rw [hb] at hfs
    simp only [List.drop_succ_cons, List.drop_zero, List.headD_cons] at hfs
    rw [show fold_from f castf dflt
        ((rangeI (lget arr.hdr.dims (modulo axis ((arr.hdr.dims.length : Nat) : Int)))).map (fun j => aget arr (insert_at ((modulo axis ((arr.hdr.dims.length : Nat) : Int)).toNat) j t)))
        = fold_from f castf dflt
            (((rangeI (lget arr.hdr.dims (modulo axis ((arr.hdr.dims.length : Nat) : Int)))).map (fun j => insert_at ((modulo axis ((arr.hdr.dims.length : Nat) : Int)).toNat) j t)).map (aget arr)) from
      by rw [List.map_map]; rfl]
    rw [hb, List.map_cons]
    simp only [fold_from]
    rw [List.foldl_map]
    exact hfs

theorem claim_C4_reduce_axis_amended_witness :
    (aempty (mk_array [2, 2] [1, 2, 3, 4] 0 : ArrayM Int) = false ∧ (mk_array [2, 2] [1, 2, 3, 4] 0 : ArrayM Int).hdr.dims ≠ [] ∧ dims_pos (mk_array [2, 2] [1, 2, 3, 4] 0 : ArrayM Int).hdr.dims)
    ∧ (((mk_array [2, 2] [1, 2, 3, 4] 0 : ArrayM Int).hdr.dims.length = 1 →
        (reduce_axis (mk_array [2, 2] [1, 2, 3, 4] 0 : ArrayM Int) (fun v acc => acc + v) (fun v => v) (-1) 9).hdr.dims = [1])
      ∧ (1 < (mk_array [2, 2] [1, 2, 3, 4] 0 : ArrayM Int).hdr.dims.length →
        (reduce_axis (mk_array [2, 2] [1, 2, 3, 4] 0 : ArrayM Int) (fun v acc => acc + v) (fun v => v) (-1) 9).hdr.dims = (mk_array [2, 2] [1, 2, 3, 4] 0 : ArrayM Int).hdr.dims.eraseIdx (modulo (-1) (((mk_array [2, 2] [1, 2, 3, 4] 0 : ArrayM Int).hdr.dims.length : Nat) : Int)).toNat
        ∧ ∀ t ∈ row_major_enum ((mk_array [2, 2] [1, 2, 3, 4] 0 : ArrayM Int).hdr.dims.eraseIdx (modulo (-1) (((mk_array [2, 2] [1, 2, 3, 4] 0 : ArrayM Int).hdr.dims.length : Nat) : Int)).toNat),
            aget (reduce_axis (mk_array [2, 2] [1, 2, 3, 4] 0 : ArrayM Int) (fun v acc => acc + v) (fun v => v) (-1) 9) t
              = fold_from (fun (v : Int) (acc : Int) => acc + v) (fun v => v) 0
                ((rangeI (lget (mk_array [2, 2] [1, 2, 3, 4] 0 : ArrayM Int).hdr.dims (modulo (-1) (((mk_array [2, 2] [1, 2, 3, 4] 0 : ArrayM Int).hdr.dims.length : Nat) : Int)))).map (fun j => aget (mk_array [2, 2] [1, 2, 3, 4] 0 : ArrayM Int) (insert_at ((modulo (-1) (((mk_array [2, 2] [1, 2, 3, 4] 0 : ArrayM Int).hdr.dims.length : Nat) : Int)).toNat) j t))))) :=
  ⟨⟨by decide, by decide, by rw [dims_pos]; decide⟩,
    claim_C4_reduce_axis_amended (mk_array [2, 2] [1, 2, 3, 4] 0 : ArrayM Int) (fun v acc => acc + v) (fun v => v) (-1) 9 0
      (by decide) (by decide) (by rw [dims_pos]; decide)⟩

end OcArr
